import Mathlib

/-!
# zonefile-js — shallow embedding and verification

This file embeds the data model and operations of the `carragom/zonefile-js`
repository (a BIND-style DNS zone-file parser and serializer) and settles the
frozen claims about it.

* The typed entry model (`Directive`, the 22 record-data shapes, `ZoneEntry`)
  is translated from `src/mod.ts`.
* The serializer (`serializeRecordData`, `serializeRecord`, `serializeEntry`,
  `serializeZone`) is translated from `src/serialize.ts`.
* The grammar engine and the origin/TTL resolution pass live in the generated
  `_internal/parser.js`, which is not part of the repository sources available
  here (only its type declaration is). They are modelled from the spec
  (sections 4.1 and 4.2): lexing with comments, parentheses continuation and
  quoted strings; the `[domain] [ttl] [class] type rdata` line grammar over a
  closed mnemonic set; and the single forward left-to-right resolution sweep.

Strings are handled through their underlying character lists; JavaScript
numbers that the code only ever treats as base-10 non-negative integers are
modelled as `Nat`.
-/

namespace Zonefile

/-- Directive value: a domain string for `$ORIGIN`, a number for `$TTL`
(`value: string | number` in `src/mod.ts`). -/
inductive DirValue where
  | str (s : String)
  | num (n : Nat)
deriving DecidableEq, Repr

/-- The 22 record-data shapes of `src/mod.ts` (`SOAData` … `ZONEMDData`),
collapsed into one closed tagged union: the union type `Record` ties each
`recordType` mnemonic to exactly one data shape. -/
inductive RData where
  | SOA (mname rname : String) (serial refresh retry expire minimum : Nat)
  | NS (ns : String)
  | MX (priority : Nat) (mx : String)
  | A (ip : String)
  | AAAA (ip : String)
  | CNAME (cname : String)
  | PTR (ptrdname : String)
  | TXT (txt : String)
  | SRV (priority weight port : Nat) (target : String)
  | CAA (flags : Nat) (tag value : String)
  | DNSKEY (flags protocol algorithm : Nat) (publicKey : String)
  | DS (keyTag algorithm digestType : Nat) (digest : String)
  | RRSIG (typeCovered : String) (algorithm labels originalTTL expiration inception keyTag : Nat)
      (signer signature : String)
  | NSEC (nextDomain : String) (recordTypes : List String)
  | TLSA (usage selector matchingType : Nat) (certificate : String)
  | SSHFP (algorithm fingerprintType : Nat) (fingerprint : String)
  | DNAME (target : String)
  | NAPTR (order preference : Nat) (flags service regexp replacement : String)
  | LOC (content : String)
  | HINFO (cpu os : String)
  | SPF (text : String)
  | ZONEMD (serial scheme hashAlgo : Nat) (digest : String)
deriving DecidableEq, Repr

/-- The `recordType` mnemonic of a data shape (the discriminant of the
`Record` union in `src/mod.ts`). -/
def RData.recordType : RData → String
  | .SOA .. => "SOA"
  | .NS .. => "NS"
  | .MX .. => "MX"
  | .A .. => "A"
  | .AAAA .. => "AAAA"
  | .CNAME .. => "CNAME"
  | .PTR .. => "PTR"
  | .TXT .. => "TXT"
  | .SRV .. => "SRV"
  | .CAA .. => "CAA"
  | .DNSKEY .. => "DNSKEY"
  | .DS .. => "DS"
  | .RRSIG .. => "RRSIG"
  | .NSEC .. => "NSEC"
  | .TLSA .. => "TLSA"
  | .SSHFP .. => "SSHFP"
  | .DNAME .. => "DNAME"
  | .NAPTR .. => "NAPTR"
  | .LOC .. => "LOC"
  | .HINFO .. => "HINFO"
  | .SPF .. => "SPF"
  | .ZONEMD .. => "ZONEMD"

/-- A resource record (`RRecord` in `src/mod.ts`): owner domain, optional TTL,
class, and the type-specific data (which determines `recordType`). -/
structure ZRecord where
  domain : String
  ttl : Option Nat
  rclass : String
  data : RData
deriving DecidableEq, Repr

/-- A zone entry: directive or record (`ZoneEntry` in `src/mod.ts`). -/
inductive ZoneEntry where
  | directive (name : String) (value : DirValue)
  | record (r : ZRecord)
deriving DecidableEq, Repr

/-! ## Decimal rendering of numbers

JavaScript template interpolation `${n}` renders the integers of this model in
plain base-10. `natRepr` is that rendering (fuel-structured so that it reduces
in the kernel). -/

def digitChar (n : Nat) : Char := Char.ofNat (48 + n)

def natDigitsAux : Nat → Nat → List Char
  | 0, _ => []
  | fuel + 1, n => if n < 10 then [digitChar n]
      else natDigitsAux fuel (n / 10) ++ [digitChar (n % 10)]

def natRepr (n : Nat) : String := ⟨natDigitsAux (n + 1) n⟩

/-! ## The serializer, translated from `src/serialize.ts` -/

/-- Space-join of a list of strings (`Array.prototype.join(' ')`). -/
def joinSpace : List String → String
  | [] => ""
  | [s] => s
  | s :: r :: rs => s ++ " " ++ joinSpace (r :: rs)

def joinNL : List String → String
  | [] => ""
  | [s] => s
  | s :: r :: rs => s ++ "\n" ++ joinNL (r :: rs)

/-- `String.prototype.padEnd(n)`: pad with spaces up to `n` characters. -/
def padTo (s : String) (n : Nat) : String := s ++ ⟨List.replicate (n - s.data.length) ' '⟩

def isTrailWS (c : Char) : Bool := c = ' ' || c = '\t' || c = '\n' || c = '\r'

/-- `String.prototype.trimEnd()`. -/
def trimEnd (s : String) : String := ⟨(s.data.reverse.dropWhile isTrailWS).reverse⟩

/-- `serializeRecordData` of `src/serialize.ts`: per-type rdata rendering. -/
def serializeRecordData : RData → String
  | .SOA mname rname serial refresh retry expire minimum =>
      mname ++ " " ++ rname ++ " " ++ natRepr serial ++ " " ++ natRepr refresh ++ " " ++
        natRepr retry ++ " " ++ natRepr expire ++ " " ++ natRepr minimum
  | .NS ns => ns
  | .MX priority mx => natRepr priority ++ " " ++ mx
  | .A ip => ip
  | .AAAA ip => ip
  | .CNAME cname => cname
  | .PTR ptrdname => ptrdname
  | .TXT txt =>
      if txt.data.contains ' ' || txt.data.contains '\t'
      then "\"" ++ txt ++ "\"" else txt
  | .SRV priority weight port target =>
      natRepr priority ++ " " ++ natRepr weight ++ " " ++ natRepr port ++ " " ++ target
  | .CAA flags tag value => natRepr flags ++ " " ++ tag ++ " \"" ++ value ++ "\""
  | .DNSKEY flags protocol algorithm publicKey =>
      natRepr flags ++ " " ++ natRepr protocol ++ " " ++ natRepr algorithm ++ " " ++ publicKey
  | .DS keyTag algorithm digestType digest =>
      natRepr keyTag ++ " " ++ natRepr algorithm ++ " " ++ natRepr digestType ++ " " ++ digest
  | .RRSIG typeCovered algorithm labels originalTTL expiration inception keyTag signer signature =>
      typeCovered ++ " " ++ natRepr algorithm ++ " " ++ natRepr labels ++ " " ++
        natRepr originalTTL ++ " " ++ natRepr expiration ++ " " ++ natRepr inception ++ " " ++
        natRepr keyTag ++ " " ++ signer ++ " " ++ signature
  | .NSEC nextDomain recordTypes => nextDomain ++ " " ++ joinSpace recordTypes
  | .TLSA usage selector matchingType certificate =>
      natRepr usage ++ " " ++ natRepr selector ++ " " ++ natRepr matchingType ++ " " ++ certificate
  | .SSHFP algorithm fingerprintType fingerprint =>
      natRepr algorithm ++ " " ++ natRepr fingerprintType ++ " " ++ fingerprint
  | .DNAME target => target
  | .NAPTR order preference flags service regexp replacement =>
      natRepr order ++ " " ++ natRepr preference ++ " \"" ++ flags ++ "\" \"" ++ service ++
        "\" \"" ++ regexp ++ "\" " ++ replacement
  | .LOC content => content
  | .HINFO cpu os => "\"" ++ cpu ++ "\" \"" ++ os ++ "\""
  | .SPF text => "\"" ++ text ++ "\""
  | .ZONEMD serial scheme hashAlgo digest =>
      natRepr serial ++ " " ++ natRepr scheme ++ " " ++ natRepr hashAlgo ++ " " ++ digest

/-- The TTL column of `serializeRecord`: the rendered TTL, or the empty string
when `ttl` is null or the record is a continuation line (`domain === ''`). -/
def ttlText (r : ZRecord) : String :=
  match r.ttl with
  | some t => if r.domain = "" then "" else natRepr t
  | none => ""

/-- `serializeRecord` of `src/serialize.ts`: five space-joined left-padded
columns, trailing whitespace trimmed. -/
def serializeRecord (r : ZRecord) : String :=
  trimEnd (joinSpace [padTo r.domain 18, padTo (ttlText r) 6, padTo r.rclass 4,
    padTo r.data.recordType 8, serializeRecordData r.data])

/-- A directive value as interpolated into the output line. -/
def dirValStr : DirValue → String
  | .str s => s
  | .num n => natRepr n

/-- `serializeDirective` of `src/serialize.ts`. -/
def serializeDirective (name : String) (value : DirValue) : String :=
  name ++ " " ++ dirValStr value

/-- `serializeEntry` of `src/serialize.ts`. -/
def serializeEntry : ZoneEntry → String
  | .directive name value => serializeDirective name value
  | .record r => serializeRecord r

/-- The line-assembly loop of `serializeZone`: one line per entry, plus an
optional blank separator whenever consecutive records change `recordType`. -/
def serializeLinesGo (includeBlank : Bool) : Option String → List ZoneEntry → List String
  | _, [] => []
  | last, e :: es =>
      let sep : List String :=
        match e, last with
        | .record r, some lt => if includeBlank && lt ≠ r.data.recordType then [""] else []
        | _, _ => []
      let last' : Option String :=
        match e with
        | .record r => some r.data.recordType
        | .directive _ _ => last
      sep ++ (serializeEntry e :: serializeLinesGo includeBlank last' es)

/-- `serializeZone` of `src/serialize.ts`: newline-joined lines plus a trailing
newline. -/
def serializeZone (entries : List ZoneEntry) (includeBlank : Bool := false) : String :=
  joinNL (serializeLinesGo includeBlank none entries) ++ "\n"

/-! ## The grammar engine

Modelled from the spec: the generated recursive-descent recognizer
`_internal/parser.js` is not among the available sources (only its `.d.ts`
declaration is), so the lexical rules of spec section 4.1 are embedded here:
`;` comments to end of physical line, `(`/`)` continuation regions in which
newlines act as whitespace, double-quoted literals unquoted on capture, bare
atoms, the per-line grammar `[domain] [ttl] [class] type rdata`, the closed
mnemonic set, and the single `ZoneSyntaxError` failure kind of section 7. -/

/-- A lexical token: a bare atom or the captured content of a double-quoted
literal. -/
inductive Tok where
  | atom (s : String)
  | quoted (s : String)
deriving DecidableEq, Repr

/-- A logical line: whether the owner-name field position was empty (the line
began with whitespace), and its tokens. -/
abbrev Line := Bool × List Tok

/-- Modelled from the spec: the single parse-error kind `ZoneSyntaxError`,
with its trigger conditions as cases (source locations are not modelled). -/
inductive ZoneSyntaxError where
  | unterminatedQuote
  | unbalancedParen
  | unknownDirective
  | unknownRecordType
  | badRData
  | badLine
deriving DecidableEq, Repr

def isSpaceChar (c : Char) : Bool := c = ' ' || c = '\t' || c = '\r'

/-- Characters that may appear in a bare atom: anything but whitespace and the
structural characters `"`, `;`, `(`, `)`. -/
def isAtomChar (c : Char) : Bool :=
  !(isSpaceChar c || c = '\n' || c = '"' || c = ';' || c = '(' || c = ')')

/-- Lexer state: parenthesis depth, whether the current logical line began
with whitespace, the tokens of the current line, finished lines. -/
structure LexSt where
  depth : Nat
  leading : Bool
  cur : List Tok
  lines : List Line
deriving DecidableEq, Repr

inductive LexMode where
  | norm
  | comment
  | atom (acc : List Char)
  | quote (acc : List Char)
deriving DecidableEq, Repr

/-- Close the current logical line; blank lines are discarded. -/
def endLine (st : LexSt) : LexSt :=
  { depth := st.depth, leading := false, cur := [],
    lines := if st.cur = [] then st.lines else st.lines ++ [(st.leading, st.cur)] }

def pushTok (st : LexSt) (t : Tok) : LexSt := { st with cur := st.cur ++ [t] }

/-- One lexer step outside atoms, quotes and comments. -/
def stepNorm (st : LexSt) (c : Char) : Except ZoneSyntaxError (LexMode × LexSt) :=
  if c = '\n' then
    if st.depth ≠ 0 then .ok (.norm, st) else .ok (.norm, endLine st)
  else if isSpaceChar c then
    .ok (.norm, if st.cur = [] then { st with leading := true } else st)
  else if c = ';' then .ok (.comment, st)
  else if c = '"' then .ok (.quote [], st)
  else if c = '(' then .ok (.norm, { st with depth := st.depth + 1 })
  else if c = ')' then
    match st.depth with
    | 0 => .error .unbalancedParen
    | d + 1 => .ok (.norm, { st with depth := d })
  else .ok (.atom [c], st)

/-- One lexer step. -/
def lexStep (m : LexMode) (st : LexSt) (c : Char) : Except ZoneSyntaxError (LexMode × LexSt) :=
  match m with
  | .norm => stepNorm st c
  | .comment => if c = '\n' then stepNorm st c else .ok (.comment, st)
  | .atom acc =>
      if isAtomChar c then .ok (.atom (acc ++ [c]), st)
      else stepNorm (pushTok st (.atom ⟨acc⟩)) c
  | .quote acc =>
      if c = '"' then .ok (.norm, pushTok st (.quoted ⟨acc⟩))
      else .ok (.quote (acc ++ [c]), st)

def runLex : List Char → LexMode → LexSt → Except ZoneSyntaxError (LexMode × LexSt)
  | [], m, st => .ok (m, st)
  | c :: cs, m, st =>
      match lexStep m st c with
      | .ok (m', st') => runLex cs m' st'
      | .error e => .error e

/-- End of input: an open quote or an open parenthesis is a syntax error. -/
def lexFinish : LexMode × LexSt → Except ZoneSyntaxError (List Line)
  | (.quote _, _) => .error .unterminatedQuote
  | (.atom acc, st) =>
      if st.depth ≠ 0 then .error .unbalancedParen
      else .ok (endLine (pushTok st (.atom ⟨acc⟩))).lines
  | (_, st) =>
      if st.depth ≠ 0 then .error .unbalancedParen else .ok (endLine st).lines

def initLexSt : LexSt := ⟨0, false, [], []⟩

/-- Tokenize zone-file text into logical lines. -/
def lexZone (s : String) : Except ZoneSyntaxError (List Line) :=
  match runLex s.data .norm initLexSt with
  | .ok r => lexFinish r
  | .error e => .error e

/-! ### Numbers and address literals -/

def isDigitChar (c : Char) : Bool := '0' ≤ c && c ≤ '9'

def digitVal (c : Char) : Nat := c.toNat - 48

def decValue (cs : List Char) : Nat := cs.foldl (fun a c => a * 10 + digitVal c) 0

def isNatStr (s : String) : Bool := !s.data.isEmpty && s.data.all isDigitChar

/-- Base-10, non-negative, no range checking (spec section 4.1). -/
def parseNatTok (s : String) : Option Nat :=
  if isNatStr s then some (decValue s.data) else none

def splitChar (sep : Char) : List Char → List (List Char)
  | [] => [[]]
  | c :: cs =>
      match splitChar sep cs with
      | [] => [[c]]
      | g :: gs => if c = sep then [] :: g :: gs else (c :: g) :: gs

def isHexDigit (c : Char) : Bool :=
  isDigitChar c || ('a' ≤ c && c ≤ 'f') || ('A' ≤ c && c ≤ 'F')

def hexGroupOk (g : List Char) : Bool := !g.isEmpty && g.length ≤ 4 && g.all isHexDigit

def ip4QuadOk (g : List Char) : Bool :=
  match splitChar '.' g with
  | [a, b, c, d] =>
      [a, b, c, d].all fun p =>
        !p.isEmpty && p.length ≤ 3 && p.all isDigitChar && decValue p ≤ 255
  | _ => false

/-- Split at the first `::`, when present. -/
def splitDoubleColon : List Char → Option (List Char × List Char)
  | [] => none
  | [_] => none
  | ':' :: ':' :: rest => some ([], rest)
  | c :: rest => (splitDoubleColon rest).map (fun p => (c :: p.1, p.2))

/-- Count hex groups; `none` when a group is malformed. -/
def ip6LeftCount (gs : List (List Char)) : Option Nat :=
  match gs with
  | [] => some 0
  | g :: rest => if hexGroupOk g then (ip6LeftCount rest).map (· + 1) else none

/-- Count hex groups where the final group may instead be an embedded dotted
IPv4 quad (weighing two groups). -/
def ip6TailCount (gs : List (List Char)) : Option Nat :=
  match gs with
  | [] => some 0
  | [g] => if hexGroupOk g then some 1 else if ip4QuadOk g then some 2 else none
  | g :: rest => if hexGroupOk g then (ip6TailCount rest).map (· + 1) else none

/-- Modelled from the spec: the IPv6 textual grammar that the AAAA rdata field
must match — colon-separated groups of 1–4 hex digits, eight in total, a
single `::` compression standing for at least one zero group, and an optional
trailing embedded IPv4 dotted quad. -/
def isIPv6 (s : String) : Bool :=
  match splitDoubleColon s.data with
  | some (l, r) =>
      let lg := if l.isEmpty then [] else splitChar ':' l
      let rg := if r.isEmpty then [] else splitChar ':' r
      match ip6LeftCount lg, ip6TailCount rg with
      | some a, some b => a + b ≤ 7
      | _, _ => false
  | none =>
      match ip6TailCount (splitChar ':' s.data) with
      | some n => n = 8
      | none => false

/-! ### Per-type rdata sub-grammars -/

/-- Field kinds of the per-mnemonic rdata sub-grammars. -/
inductive FK where
  | fname
  | fnat
  | ftext
  | fip6
  | frest
deriving DecidableEq, Repr

/-- Captured field values. -/
inductive FV where
  | name (s : String)
  | nat (n : Nat)
  | text (s : String)
  | rest (ws : List String)
deriving DecidableEq, Repr

/-- The closed set of supported record-type mnemonics (the data-shape
catalogue of spec section 3). -/
def supportedRecordTypes : List String :=
  ["SOA", "NS", "MX", "A", "AAAA", "CNAME", "PTR", "TXT", "SRV", "CAA", "DNSKEY",
   "DS", "RRSIG", "NSEC", "TLSA", "SSHFP", "DNAME", "NAPTR", "LOC", "HINFO", "SPF", "ZONEMD"]

/-- The rdata field layout of each mnemonic: domain-name or opaque fields are
bare atoms, counters are integers, textual fields accept a quoted literal or a
bare atom, AAAA's field must match the IPv6 grammar, and NSEC's type list and
LOC's opaque content extend to end of line. -/
def rdataShape : String → List FK
  | "SOA" => [.fname, .fname, .fnat, .fnat, .fnat, .fnat, .fnat]
  | "NS" => [.fname]
  | "MX" => [.fnat, .fname]
  | "A" => [.fname]
  | "AAAA" => [.fip6]
  | "CNAME" => [.fname]
  | "PTR" => [.fname]
  | "TXT" => [.ftext]
  | "SRV" => [.fnat, .fnat, .fnat, .fname]
  | "CAA" => [.fnat, .ftext, .ftext]
  | "DNSKEY" => [.fnat, .fnat, .fnat, .fname]
  | "DS" => [.fnat, .fnat, .fnat, .fname]
  | "RRSIG" => [.fname, .fnat, .fnat, .fnat, .fnat, .fnat, .fnat, .fname, .fname]
  | "NSEC" => [.fname, .frest]
  | "TLSA" => [.fnat, .fnat, .fnat, .fname]
  | "SSHFP" => [.fnat, .fnat, .fname]
  | "DNAME" => [.fname]
  | "NAPTR" => [.fnat, .fnat, .ftext, .ftext, .ftext, .fname]
  | "LOC" => [.frest]
  | "HINFO" => [.ftext, .ftext]
  | "SPF" => [.ftext]
  | "ZONEMD" => [.fnat, .fnat, .fnat, .fname]
  | _ => []

def restAtoms : List Tok → Option (List String)
  | [] => some []
  | .atom s :: rest => (restAtoms rest).map (s :: ·)
  | .quoted _ :: _ => none

/-- Consume one rdata field; a missing field or one of the wrong lexical class
is a syntax error. -/
def parseField : FK → List Tok → Except ZoneSyntaxError (FV × List Tok)
  | .fname, .atom s :: rest => .ok (.name s, rest)
  | .fnat, .atom s :: rest =>
      match parseNatTok s with
      | some n => .ok (.nat n, rest)
      | none => .error .badRData
  | .ftext, .atom s :: rest => .ok (.text s, rest)
  | .ftext, .quoted s :: rest => .ok (.text s, rest)
  | .fip6, .atom s :: rest =>
      if isIPv6 s then .ok (.name s, rest) else .error .badRData
  | .frest, toks =>
      match restAtoms toks with
      | some [] => .error .badRData
      | some (w :: ws) => .ok (.rest (w :: ws), [])
      | none => .error .badRData
  | _, _ => .error .badRData

/-- Consume the whole rdata section: exactly the fields the mnemonic
requires. -/
def parseFields : List FK → List Tok → Except ZoneSyntaxError (List FV)
  | [], [] => .ok []
  | [], _ :: _ => .error .badRData
  | fk :: fks, toks =>
      match parseField fk toks with
      | .ok (v, rest) => (parseFields fks rest).map (v :: ·)
      | .error e => .error e

/-- Assemble the typed data shape from the captured field values. -/
def mkRData : String → List FV → Option RData
  | "SOA", [.name mn, .name rn, .nat se, .nat rf, .nat rt, .nat ex, .nat mi] =>
      some (.SOA mn rn se rf rt ex mi)
  | "NS", [.name n] => some (.NS n)
  | "MX", [.nat p, .name m] => some (.MX p m)
  | "A", [.name ip] => some (.A ip)
  | "AAAA", [.name ip] => some (.AAAA ip)
  | "CNAME", [.name c] => some (.CNAME c)
  | "PTR", [.name p] => some (.PTR p)
  | "TXT", [.text t] => some (.TXT t)
  | "SRV", [.nat p, .nat w, .nat po, .name t] => some (.SRV p w po t)
  | "CAA", [.nat f, .text tg, .text v] => some (.CAA f tg v)
  | "DNSKEY", [.nat f, .nat p, .nat a, .name k] => some (.DNSKEY f p a k)
  | "DS", [.nat kt, .nat a, .nat dt, .name d] => some (.DS kt a dt d)
  | "RRSIG", [.name tc, .nat a, .nat l, .nat ot, .nat ex, .nat inc, .nat kt, .name s, .name sg] =>
      some (.RRSIG tc a l ot ex inc kt s sg)
  | "NSEC", [.name nd, .rest ws] => some (.NSEC nd ws)
  | "TLSA", [.nat u, .nat s, .nat m, .name c] => some (.TLSA u s m c)
  | "SSHFP", [.nat a, .nat ft, .name f] => some (.SSHFP a ft f)
  | "DNAME", [.name t] => some (.DNAME t)
  | "NAPTR", [.nat o, .nat p, .text f, .text s, .text re, .name rp] =>
      some (.NAPTR o p f s re rp)
  | "LOC", [.rest ws] => some (.LOC (joinSpace ws))
  | "HINFO", [.text c, .text o] => some (.HINFO c o)
  | "SPF", [.text t] => some (.SPF t)
  | "ZONEMD", [.nat s, .nat sc, .nat h, .name d] => some (.ZONEMD s sc h d)
  | _, _ => none

/-- Parse the rdata section of a recognized mnemonic. -/
def rdataParse (m : String) (toks : List Tok) : Except ZoneSyntaxError RData :=
  match parseFields (rdataShape m) toks with
  | .ok vs =>
      match mkRData m vs with
      | some d => .ok d
      | none => .error .badRData
  | .error e => .error e

/-! ### Line grammar -/

/-- Scan the optional `ttl`/`class` fields, in either order, up to the record
type mnemonic; an unrecognized mnemonic is a syntax error. -/
def scanType (ttl : Option Nat) (cls : Option String) :
    List Tok → Except ZoneSyntaxError (Option Nat × Option String × String × List Tok)
  | [] => .error .unknownRecordType
  | .quoted _ :: _ => .error .badLine
  | .atom s :: rest =>
      if supportedRecordTypes.contains s then .ok (ttl, cls, s, rest)
      else
        match ttl, parseNatTok s with
        | none, some n => scanType (some n) cls rest
        | _, _ =>
            match cls with
            | none => scanType ttl (some s) rest
            | some _ => .error .unknownRecordType

/-- The owner-name field: empty when the line began with whitespace, else the
first token. -/
def splitDomain (leading : Bool) (toks : List Tok) :
    Except ZoneSyntaxError (String × List Tok) :=
  if leading then .ok ("", toks)
  else
    match toks with
    | .atom d :: rest => .ok (d, rest)
    | _ => .error .badLine

/-- Parse a record line `[domain] [ttl] [class] type rdata`; an omitted class
defaults to `IN`. -/
def parseRecordLine (leading : Bool) (toks : List Tok) :
    Except ZoneSyntaxError ZoneEntry := do
  let (dom, rest) ← splitDomain leading toks
  let (ttl, cls, m, rtoks) ← scanType none none rest
  let d ← rdataParse m rtoks
  pure (.record ⟨dom, ttl, cls.getD "IN", d⟩)

/-- Directive lines: `$ORIGIN <domain>` and `$TTL <integer>`; any other
`$`-prefixed token is a syntax error. -/
def parseDirectiveLine (name : String) (rest : List Tok) :
    Except ZoneSyntaxError ZoneEntry :=
  if name = "$ORIGIN" then
    match rest with
    | [.atom v] => .ok (.directive "$ORIGIN" (.str v))
    | _ => .error .badLine
  else if name = "$TTL" then
    match rest with
    | [.atom v] =>
        match parseNatTok v with
        | some n => .ok (.directive "$TTL" (.num n))
        | none => .error .badLine
    | _ => .error .badLine
  else .error .unknownDirective

/-- Parse one logical line into a zone entry. -/
def parseLine : Line → Except ZoneSyntaxError ZoneEntry
  | (leading, toks) =>
      match toks with
      | .atom s :: rest =>
          if s.data.head? = some '$' then parseDirectiveLine s rest
          else parseRecordLine leading toks
      | _ => parseRecordLine leading toks

/-! ### Resolution pass (spec section 4.2) -/

/-- Caller options (`ParseOptions` of `src/mod.ts`), both defaulting to
disabled. -/
structure ParseOptions where
  expandDomains : Bool := false
  inheritTTL : Bool := false
deriving DecidableEq, Repr

/-- The running directive state of the single left-to-right sweep. -/
structure ResState where
  currentOrigin : Option String := none
  currentTTL : Option Nat := none
deriving DecidableEq, Repr

/-- A `$ORIGIN` or `$TTL` directive updates the running state for subsequent
entries. -/
def stepDirective (st : ResState) (name : String) (v : DirValue) : ResState :=
  if name = "$ORIGIN" then
    match v with
    | .str s => { st with currentOrigin := some s }
    | .num _ => st
  else if name = "$TTL" then
    match v with
    | .num n => { st with currentTTL := some n }
    | .str _ => st
  else st

def stepEntry (st : ResState) : ZoneEntry → ResState
  | .directive n v => stepDirective st n v
  | .record _ => st

def endsWithDot (s : String) : Bool := s.data.getLast? == some '.'

/-- Domain rewriting: `@` becomes the origin, a relative name gets the origin
appended, an FQDN or empty continuation name or absent origin is unchanged. -/
def expandDomain (origin : Option String) (d : String) : String :=
  match origin with
  | some o =>
      if d = "@" then o
      else if endsWithDot d = false ∧ d ≠ "" then d ++ "." ++ o
      else d
  | none => d

/-- Rewrite one record according to the options and the current state. -/
def resolveRecord (opts : ParseOptions) (st : ResState) (r : ZRecord) : ZRecord :=
  let newTTL :=
    if opts.inheritTTL then
      match r.ttl, st.currentTTL with
      | none, some t => some t
      | _, _ => r.ttl
    else r.ttl
  let newDom :=
    if opts.expandDomains then expandDomain st.currentOrigin r.domain else r.domain
  { r with ttl := newTTL, domain := newDom }

def resolveGo (opts : ParseOptions) (st : ResState) : List ZoneEntry → List ZoneEntry
  | [] => []
  | e :: es =>
      (match e with
       | .record r => .record (resolveRecord opts st r)
       | .directive n v => .directive n v) :: resolveGo opts (stepEntry st e) es

/-- The resolution pass: one sweep, forward-only state. -/
def resolveZone (opts : ParseOptions) (es : List ZoneEntry) : List ZoneEntry :=
  resolveGo opts {} es

/-! ### The parse entry point -/

/-- The grammar engine alone: text to raw entries. -/
def rawParse (text : String) : Except ZoneSyntaxError (List ZoneEntry) := do
  let lines ← lexZone text
  lines.mapM parseLine

/-- `parseZone` of `src/mod.ts`: the grammar engine followed by the resolution
pass. -/
def parseZone (text : String) (opts : ParseOptions := {}) :
    Except ZoneSyntaxError (List ZoneEntry) :=
  (rawParse text).map (resolveZone opts)

/-- The positional signature compared by the round-trip claim: directive or
record at each position, and for records the `recordType` and the `data`. -/
def entrySig : ZoneEntry → Option (String × RData)
  | .directive _ _ => none
  | .record r => some (r.data.recordType, r.data)

def defaultOptions : ParseOptions := {}

instance {ε α : Type} [DecidableEq ε] [DecidableEq α] : DecidableEq (Except ε α) := fun x y =>
  match x, y with
  | .ok a, .ok b =>
      if h : a = b then .isTrue (by rw [h]) else .isFalse (fun hh => h (Except.ok.inj hh))
  | .ok _, .error _ => .isFalse (fun hh => Except.noConfusion hh)
  | .error _, .ok _ => .isFalse (fun hh => Except.noConfusion hh)
  | .error e, .error f =>
      if h : e = f then .isTrue (by rw [h]) else .isFalse (fun hh => h (Except.error.inj hh))

def isErr {α : Type} : Except ZoneSyntaxError α → Bool
  | .error _ => true
  | .ok _ => false

/-! ### Auxiliary notions used by the theorems -/

/-- How the resolution pass rewrites one entry under a given running state. -/
def applyEntry (opts : ParseOptions) (st : ResState) : ZoneEntry → ZoneEntry
  | .record r => .record (resolveRecord opts st r)
  | .directive n v => .directive n v

/-- Directive state accumulated over a prefix of the entry sequence. -/
def stAfter (es : List ZoneEntry) : ResState := es.foldl stepEntry {}

def originOf : ZoneEntry → Option String
  | .directive n (.str s) => if n = "$ORIGIN" then some s else none
  | _ => none

def ttlOf : ZoneEntry → Option Nat
  | .directive n (.num t) => if n = "$TTL" then some t else none
  | _ => none

/-- The value of the most recent (rightmost) `$ORIGIN` directive of a list. -/
def lastOriginDirective : List ZoneEntry → Option String
  | [] => none
  | e :: es =>
      match lastOriginDirective es with
      | some o => some o
      | none => originOf e

/-- The value of the most recent (rightmost) `$TTL` directive of a list. -/
def lastTTLDirective : List ZoneEntry → Option Nat
  | [] => none
  | e :: es =>
      match lastTTLDirective es with
      | some t => some t
      | none => ttlOf e

/-- A string that lexes back as one bare atom: non-empty, atom characters
only. -/
def atomToken (s : String) : Bool := !s.data.isEmpty && s.data.all isAtomChar

/-- A string free of the double-quote character (every string captured by the
grammar engine, from a bare atom or from a quoted literal, is). -/
def noQuoteChar (s : String) : Bool := !s.data.contains '"'

/-- Invariant of the strings inside grammar-engine output (and preserved by
the resolution pass): each field holds what its sub-grammar can capture. -/
def WFData : RData → Prop
  | .SOA mn rn _ _ _ _ _ => atomToken mn = true ∧ atomToken rn = true
  | .NS n => atomToken n = true
  | .MX _ m => atomToken m = true
  | .A ip => atomToken ip = true
  | .AAAA ip => atomToken ip = true ∧ isIPv6 ip = true
  | .CNAME c => atomToken c = true
  | .PTR p => atomToken p = true
  | .TXT t => noQuoteChar t = true
  | .SRV _ _ _ t => atomToken t = true
  | .CAA _ tg v => noQuoteChar tg = true ∧ noQuoteChar v = true
  | .DNSKEY _ _ _ k => atomToken k = true
  | .DS _ _ _ d => atomToken d = true
  | .RRSIG tc _ _ _ _ _ _ s sg =>
      atomToken tc = true ∧ atomToken s = true ∧ atomToken sg = true
  | .NSEC nd ws => atomToken nd = true ∧ ws ≠ [] ∧ ∀ w ∈ ws, atomToken w = true
  | .TLSA _ _ _ c => atomToken c = true
  | .SSHFP _ _ f => atomToken f = true
  | .DNAME t => atomToken t = true
  | .NAPTR _ _ f s re rp =>
      noQuoteChar f = true ∧ noQuoteChar s = true ∧ noQuoteChar re = true ∧ atomToken rp = true
  | .LOC content =>
      ∃ ws, ws ≠ [] ∧ (∀ w ∈ ws, atomToken w = true) ∧ content = joinSpace ws
  | .HINFO c o => noQuoteChar c = true ∧ noQuoteChar o = true
  | .SPF t => noQuoteChar t = true
  | .ZONEMD _ _ _ d => atomToken d = true

def WFRecord (r : ZRecord) : Prop :=
  (r.domain = "" ∨ atomToken r.domain = true) ∧
    atomToken r.rclass = true ∧ r.rclass ∉ supportedRecordTypes ∧ WFData r.data

def WFEntry : ZoneEntry → Prop
  | .directive n v => (n = "$ORIGIN" ∧ ∃ s, v = .str s ∧ atomToken s = true) ∨
      (n = "$TTL" ∧ ∃ t, v = .num t)
  | .record r => WFRecord r

/-- A TXT text that survives the serializer's conditional quoting: either it
contains whitespace (and is emitted quoted), or it must itself lex back as a
single bare atom. -/
def txtBareOk (t : String) : Bool :=
  if t.data.contains ' ' || t.data.contains '\t' then true else atomToken t

/-- The extra condition the round-trip claim needs beyond being parse output:
TXT texts must survive conditional quoting and CAA tags (emitted bare but
captured possibly quoted) must lex back as one atom. -/
def dataSafe : RData → Bool
  | .TXT t => txtBareOk t
  | .CAA _ tg _ => atomToken tg
  | _ => true

/-- An entry whose serialized line is not mistaken for a directive: the first
column of the line (the domain when present, else the class) must not begin
with the `$` sigil. Together with `dataSafe` this is exactly the extra
condition the round trip needs. -/
def entrySafe : ZoneEntry → Bool
  | .record r =>
      dataSafe r.data &&
        (if r.domain = "" then r.rclass.data.head? != some '$'
         else r.domain.data.head? != some '$')
  | .directive _ _ => true

/-- A serialized line, described as tokens each followed by some spaces. -/
inductive Chunk where
  | atomC (s : String)
  | quotedC (s : String)
deriving DecidableEq, Repr

def chunkStr : Chunk → String
  | .atomC s => s
  | .quotedC s => "\"" ++ s ++ "\""

def chunkTok : Chunk → Tok
  | .atomC s => .atom s
  | .quotedC s => .quoted s

def chunksWithPad : List (Chunk × Nat) → String
  | [] => ""
  | (c, k) :: rest => chunkStr c ++ (⟨List.replicate k ' '⟩ : String) ++ chunksWithPad rest

def WFChunk : Chunk → Prop
  | .atomC s => atomToken s = true
  | .quotedC s => noQuoteChar s = true

/-- Chunks lex back as their tokens: contents well formed, at least one space
between consecutive chunks. -/
def ChunksOk : List (Chunk × Nat) → Prop
  | [] => True
  | [(c, _)] => WFChunk c
  | (c, k) :: r :: rs => WFChunk c ∧ 1 ≤ k ∧ ChunksOk (r :: rs)

/-- Every chunk well formed and every gap at least one space (a line prefix
that can be followed by more chunks). -/
def ChunksPre : List (Chunk × Nat) → Prop
  | [] => True
  | (c, k) :: rest => WFChunk c ∧ 1 ≤ k ∧ ChunksPre rest

/-- Tokens the lexer can actually emit. -/
def TokWF : Tok → Prop
  | .atom s => atomToken s = true
  | .quoted s => noQuoteChar s = true

def LineWF (ln : Line) : Prop := ∀ t ∈ ln.2, TokWF t

/-- Lexer invariant: everything accumulated so far is well formed. -/
def LexInv (m : LexMode) (st : LexSt) : Prop :=
  (∀ ln ∈ st.lines, LineWF ln) ∧ (∀ t ∈ st.cur, TokWF t) ∧
    (match m with
     | .atom acc => acc ≠ [] ∧ ∀ c ∈ acc, isAtomChar c = true
     | .quote acc => ∀ c ∈ acc, c ≠ '"'
     | _ => True)

/-- What each field kind guarantees about its captured value. -/
def FVOk : FK → FV → Prop
  | .fname, .name s => atomToken s = true
  | .fnat, .nat _ => True
  | .ftext, .text s => noQuoteChar s = true
  | .fip6, .name s => atomToken s = true ∧ isIPv6 s = true
  | .frest, .rest ws => ws ≠ [] ∧ ∀ w ∈ ws, atomToken w = true
  | _, _ => False

/-- Class-field candidate tracked by the `scanType` sweep. -/
def ClsOk : Option String → Prop
  | none => True
  | some s => atomToken s = true ∧ s ∉ supportedRecordTypes

/-- Prefix-consumption form of the rdata field parser (used to state where in
a field layout a violation occurs). -/
def consumeFields : List FK → List Tok → Except ZoneSyntaxError (List FV × List Tok)
  | [], toks => .ok ([], toks)
  | fk :: fks, toks => do
      let (v, rest) ← parseField fk toks
      let (vs, rest') ← consumeFields fks rest
      pure (v :: vs, rest')

/-- Newline-terminated concatenation of lines. -/
def concatNL : List String → String
  | [] => ""
  | s :: ss => s ++ "\n" ++ concatNL ss

/-! ## Theorems -/


/-! ## Decimal digits -/

theorem decValue_append (ds : List Char) (c : Char) :
    decValue (ds ++ [c]) = 10 * decValue ds + digitVal c := by
  simp [decValue, List.foldl_append, Nat.mul_comm]

theorem digitChar_facts {d : Nat} (h : d < 10) :
    isDigitChar (digitChar d) = true ∧ isAtomChar (digitChar d) = true ∧
      digitVal (digitChar d) = d := by
  interval_cases d <;> exact ⟨by decide, by decide, by decide⟩

theorem natDigitsAux_spec : ∀ fuel n, n < fuel →
    natDigitsAux fuel n ≠ [] ∧
      (∀ c ∈ natDigitsAux fuel n, isDigitChar c = true ∧ isAtomChar c = true) ∧
      decValue (natDigitsAux fuel n) = n := by
  intro fuel
  induction fuel with
  | zero => intro n h; omega
  | succ fuel ih =>
      intro n h
      by_cases h10 : n < 10
      · refine ⟨by simp [natDigitsAux, h10], ?_, ?_⟩
        · intro c hc
          simp [natDigitsAux, h10] at hc
          subst hc
          exact ⟨(digitChar_facts h10).1, (digitChar_facts h10).2.1⟩
        · simp [natDigitsAux, h10, decValue, digitVal]
          exact (digitChar_facts h10).2.2
      · have hpos : 0 < n := by omega
        have hdiv : n / 10 < n := Nat.div_lt_self hpos (by omega)
        have hfuel : n / 10 < fuel := by omega
        obtain ⟨hne, hall, hval⟩ := ih (n / 10) hfuel
        have hmod : n % 10 < 10 := Nat.mod_lt _ (by omega)
        refine ⟨by simp [natDigitsAux, h10], ?_, ?_⟩
        · intro c hc
          simp [natDigitsAux, h10] at hc
          rcases hc with hc | hc
          · exact hall c hc
          · subst hc
            exact ⟨(digitChar_facts hmod).1, (digitChar_facts hmod).2.1⟩
        · simp [natDigitsAux, h10, decValue_append, hval, (digitChar_facts hmod).2.2]
          omega

theorem natRepr_spec (n : Nat) :
    (natRepr n).data ≠ [] ∧
      (∀ c ∈ (natRepr n).data, isDigitChar c = true ∧ isAtomChar c = true) ∧
      decValue ((natRepr n).data) = n :=
  natDigitsAux_spec (n + 1) n (Nat.lt_succ_self n)

theorem isNatStr_natRepr (n : Nat) : isNatStr (natRepr n) = true := by
  obtain ⟨hne, hall, _⟩ := natRepr_spec n
  simp [isNatStr, List.isEmpty_iff, hne, List.all_eq_true]
  intro c hc
  exact (hall c hc).1

theorem parseNatTok_natRepr (n : Nat) : parseNatTok (natRepr n) = some n := by
  simp [parseNatTok, isNatStr_natRepr, (natRepr_spec n).2.2]

theorem atomToken_natRepr (n : Nat) : atomToken (natRepr n) = true := by
  obtain ⟨hne, hall, _⟩ := natRepr_spec n
  simp [atomToken, List.isEmpty_iff, hne, List.all_eq_true]
  intro c hc
  exact (hall c hc).2

theorem natRepr_not_recordType (n : Nat) : natRepr n ∉ supportedRecordTypes := by
  intro hmem
  have hns := isNatStr_natRepr n
  simp [supportedRecordTypes] at hmem
  rcases hmem with h|h|h|h|h|h|h|h|h|h|h|h|h|h|h|h|h|h|h|h|h|h <;>
    (rw [h] at hns; exact absurd hns (by decide))


theorem natRepr_ne_empty (n : Nat) : natRepr n ≠ "" := by
  intro h
  have h1 := (natDigitsAux_spec (n + 1) n (Nat.lt_succ_self n)).1
  exact h1 (congrArg String.data h)

/-- C6: a record serializes as five space-joined left-padded columns (domain
to 18, TTL to 6, class to 4, mnemonic to 8, then the type-specific rdata) with
trailing whitespace trimmed, and the TTL column is empty exactly when the
record's `ttl` is null or its `domain` is the empty continuation marker. -/
theorem claim_C6 :
    ∀ r : ZRecord,
      serializeRecord r =
        trimEnd (padTo r.domain 18 ++ " " ++ padTo (ttlText r) 6 ++ " " ++
          padTo r.rclass 4 ++ " " ++ padTo r.data.recordType 8 ++ " " ++
          serializeRecordData r.data) ∧
      (ttlText r = "" ↔ r.ttl = none ∨ r.domain = "") := by
  intro r
  refine ⟨?_, ?_⟩
  · simp only [serializeRecord, joinSpace]
    congr 1
    simp [String.append_assoc]
  · unfold ttlText
    match h : r.ttl with
    | none => simp
    | some t =>
        by_cases hd : r.domain = "" <;> simp [hd, natRepr_ne_empty t]

/-- C7: serialized rdata quoting policy — TXT is wrapped in double quotes
exactly when its text contains a space or a tab; CAA's value, HINFO's two
fields, SPF's text and NAPTR's flags/service/regexp are always wrapped in
double quotes; every other field of every type is emitted bare; and NSEC's
type list is space-joined in its original order. -/
theorem claim_C7 :
    (∀ t, serializeRecordData (.TXT t) =
      if t.data.contains ' ' || t.data.contains '\t'
      then "\"" ++ t ++ "\"" else t) ∧
    (∀ f tg v, serializeRecordData (.CAA f tg v) =
      natRepr f ++ " " ++ tg ++ " " ++ ("\"" ++ v ++ "\"")) ∧
    (∀ c o, serializeRecordData (.HINFO c o) =
      ("\"" ++ c ++ "\"") ++ " " ++ ("\"" ++ o ++ "\"")) ∧
    (∀ t, serializeRecordData (.SPF t) = "\"" ++ t ++ "\"") ∧
    (∀ o p f s re rp, serializeRecordData (.NAPTR o p f s re rp) =
      natRepr o ++ " " ++ natRepr p ++ " " ++ ("\"" ++ f ++ "\"") ++ " " ++
        ("\"" ++ s ++ "\"") ++ " " ++ ("\"" ++ re ++ "\"") ++ " " ++ rp) ∧
    (∀ mn rn a b c d e, serializeRecordData (.SOA mn rn a b c d e) =
      mn ++ " " ++ rn ++ " " ++ natRepr a ++ " " ++ natRepr b ++ " " ++ natRepr c ++ " " ++
        natRepr d ++ " " ++ natRepr e) ∧
    (∀ n, serializeRecordData (.NS n) = n) ∧
    (∀ p m, serializeRecordData (.MX p m) = natRepr p ++ " " ++ m) ∧
    (∀ ip, serializeRecordData (.A ip) = ip) ∧
    (∀ ip, serializeRecordData (.AAAA ip) = ip) ∧
    (∀ c, serializeRecordData (.CNAME c) = c) ∧
    (∀ p, serializeRecordData (.PTR p) = p) ∧
    (∀ p w po t, serializeRecordData (.SRV p w po t) =
      natRepr p ++ " " ++ natRepr w ++ " " ++ natRepr po ++ " " ++ t) ∧
    (∀ f p a k, serializeRecordData (.DNSKEY f p a k) =
      natRepr f ++ " " ++ natRepr p ++ " " ++ natRepr a ++ " " ++ k) ∧
    (∀ kt a dt d, serializeRecordData (.DS kt a dt d) =
      natRepr kt ++ " " ++ natRepr a ++ " " ++ natRepr dt ++ " " ++ d) ∧
    (∀ tc a l ot ex inc kt s sg, serializeRecordData (.RRSIG tc a l ot ex inc kt s sg) =
      tc ++ " " ++ natRepr a ++ " " ++ natRepr l ++ " " ++ natRepr ot ++ " " ++ natRepr ex ++
        " " ++ natRepr inc ++ " " ++ natRepr kt ++ " " ++ s ++ " " ++ sg) ∧
    (∀ nd ws, serializeRecordData (.NSEC nd ws) = nd ++ " " ++ joinSpace ws) ∧
    (∀ u s m c, serializeRecordData (.TLSA u s m c) =
      natRepr u ++ " " ++ natRepr s ++ " " ++ natRepr m ++ " " ++ c) ∧
    (∀ a ft f, serializeRecordData (.SSHFP a ft f) =
      natRepr a ++ " " ++ natRepr ft ++ " " ++ f) ∧
    (∀ t, serializeRecordData (.DNAME t) = t) ∧
    (∀ content, serializeRecordData (.LOC content) = content) ∧
    (∀ s sc h d, serializeRecordData (.ZONEMD s sc h d) =
      natRepr s ++ " " ++ natRepr sc ++ " " ++ natRepr h ++ " " ++ d) := by
  refine ⟨fun t => rfl, ?_, ?_, fun t => rfl, ?_, fun mn rn a b c d e => rfl, fun n => rfl,
    fun p m => rfl, fun ip => rfl, fun ip => rfl, fun c => rfl, fun p => rfl,
    fun p w po t => rfl, fun f p a k => rfl, fun kt a dt d => rfl,
    fun tc a l ot ex inc kt s sg => rfl, fun nd ws => rfl, fun u s m c => rfl,
    fun a ft f => rfl, fun t => rfl, fun content => rfl, fun s sc h d => rfl⟩
  · intro f tg v
    apply String.ext
    simp [serializeRecordData, String.data_append,
      (show (" \"" : String).data = [' ', '"'] from rfl),
      (show ("\"" : String).data = ['"'] from rfl),
      (show (" " : String).data = [' '] from rfl)]
  · intro c o
    apply String.ext
    simp [serializeRecordData, String.data_append,
      (show ("\" \"" : String).data = ['"', ' ', '"'] from rfl),
      (show ("\"" : String).data = ['"'] from rfl),
      (show (" " : String).data = [' '] from rfl)]
  · intro o p f s re rp
    apply String.ext
    simp [serializeRecordData, String.data_append,
      (show (" \"" : String).data = [' ', '"'] from rfl),
      (show ("\" \"" : String).data = ['"', ' ', '"'] from rfl),
      (show ("\" " : String).data = ['"', ' '] from rfl),
      (show ("\"" : String).data = ['"'] from rfl),
      (show (" " : String).data = [' '] from rfl)]


/-- C10: the serializer never escapes double quotes inside the fields it wraps
in quotes — whatever the content, the quoted fields are emitted verbatim
between the added quotes — and such a line need not re-parse to the same
value (concretely, the serialization of an SPF record whose text contains a
quote fails to parse at all). -/
theorem claim_C10 :
    (∀ t, t.data.contains '"' = true →
      (t.data.contains ' ' || t.data.contains '\t') = true →
      serializeRecordData (.TXT t) = "\"" ++ t ++ "\"") ∧
    (∀ f tg v, v.data.contains '"' = true →
      serializeRecordData (.CAA f tg v) =
        natRepr f ++ " " ++ tg ++ " " ++ ("\"" ++ v ++ "\"")) ∧
    (∀ c o, c.data.contains '"' = true → o.data.contains '"' = true →
      serializeRecordData (.HINFO c o) =
        ("\"" ++ c ++ "\"") ++ " " ++ ("\"" ++ o ++ "\"")) ∧
    (∀ t, t.data.contains '"' = true →
      serializeRecordData (.SPF t) = "\"" ++ t ++ "\"") ∧
    (∀ o p f s re rp, f.data.contains '"' = true → s.data.contains '"' = true →
      re.data.contains '"' = true →
      serializeRecordData (.NAPTR o p f s re rp) =
        natRepr o ++ " " ++ natRepr p ++ " " ++ ("\"" ++ f ++ "\"") ++ " " ++
          ("\"" ++ s ++ "\"") ++ " " ++ ("\"" ++ re ++ "\"") ++ " " ++ rp) ∧
    isErr (parseZone
      (serializeZone [.record ⟨"a", none, "IN", .SPF "x\" y"⟩]) defaultOptions) = true := by
  refine ⟨fun t h1 h2 => by simp only [serializeRecordData, h2, if_true], ?_, ?_, fun t h => rfl, ?_, ?_⟩
  · intro f tg v hv
    apply String.ext
    simp [serializeRecordData, String.data_append,
      (show (" \"" : String).data = [' ', '"'] from rfl),
      (show ("\"" : String).data = ['"'] from rfl),
      (show (" " : String).data = [' '] from rfl)]
  · intro c o hc ho
    apply String.ext
    simp [serializeRecordData, String.data_append,
      (show ("\" \"" : String).data = ['"', ' ', '"'] from rfl),
      (show ("\"" : String).data = ['"'] from rfl),
      (show (" " : String).data = [' '] from rfl)]
  · intro o p f s re rp h1 h2 h3
    apply String.ext
    simp [serializeRecordData, String.data_append,
      (show (" \"" : String).data = [' ', '"'] from rfl),
      (show ("\" \"" : String).data = ['"', ' ', '"'] from rfl),
      (show ("\" " : String).data = ['"', ' '] from rfl),
      (show ("\"" : String).data = ['"'] from rfl),
      (show (" " : String).data = [' '] from rfl)]
  · decide


theorem resolveGo_length (opts : ParseOptions) :
    ∀ (es : List ZoneEntry) (st : ResState), (resolveGo opts st es).length = es.length := by
  intro es
  induction es with
  | nil => intro st; rfl
  | cons e es ih => intro st; simp [resolveGo, ih]

theorem resolveGo_get? (opts : ParseOptions) :
    ∀ (es : List ZoneEntry) (st : ResState) (i : Nat),
      (resolveGo opts st es).get? i =
        (es.get? i).map (applyEntry opts (List.foldl stepEntry st (es.take i))) := by
  intro es
  induction es with
  | nil => intro st i; simp [resolveGo]
  | cons e es ih =>
      intro st i
      cases i with
      | zero => cases e <;> simp [resolveGo, applyEntry]
      | succ i => simpa [resolveGo] using ih (stepEntry st e) i

theorem stepEntry_origin (st : ResState) (e : ZoneEntry) :
    (stepEntry st e).currentOrigin =
      match originOf e with
      | some o => some o
      | none => st.currentOrigin := by
  cases e with
  | record r => simp [stepEntry, originOf]
  | directive n v =>
      by_cases hn : n = "$ORIGIN"
      · cases v <;> simp [stepEntry, stepDirective, originOf, hn]
      · by_cases ht : n = "$TTL" <;> cases v <;>
          simp [stepEntry, stepDirective, originOf, hn, ht]

theorem stepEntry_ttl (st : ResState) (e : ZoneEntry) :
    (stepEntry st e).currentTTL =
      match ttlOf e with
      | some t => some t
      | none => st.currentTTL := by
  cases e with
  | record r => simp [stepEntry, ttlOf]
  | directive n v =>
      by_cases hn : n = "$ORIGIN"
      · cases v <;> simp [stepEntry, stepDirective, ttlOf, hn]
      · by_cases ht : n = "$TTL" <;> cases v <;>
          simp [stepEntry, stepDirective, ttlOf, hn, ht]

theorem foldl_stepEntry_origin :
    ∀ (es : List ZoneEntry) (st : ResState),
      (List.foldl stepEntry st es).currentOrigin =
        match lastOriginDirective es with
        | some o => some o
        | none => st.currentOrigin := by
  intro es
  induction es with
  | nil => intro st; simp [lastOriginDirective]
  | cons e es ih =>
      intro st
      rw [List.foldl_cons, ih (stepEntry st e)]
      rw [lastOriginDirective]
      cases h : lastOriginDirective es
      · simpa using stepEntry_origin st e
      · simp

theorem foldl_stepEntry_ttl :
    ∀ (es : List ZoneEntry) (st : ResState),
      (List.foldl stepEntry st es).currentTTL =
        match lastTTLDirective es with
        | some t => some t
        | none => st.currentTTL := by
  intro es
  induction es with
  | nil => intro st; simp [lastTTLDirective]
  | cons e es ih =>
      intro st
      rw [List.foldl_cons, ih (stepEntry st e)]
      rw [lastTTLDirective]
      cases h : lastTTLDirective es
      · simpa using stepEntry_ttl st e
      · simp

theorem stAfter_origin (es : List ZoneEntry) :
    (stAfter es).currentOrigin = lastOriginDirective es := by
  rw [stAfter, foldl_stepEntry_origin]
  cases lastOriginDirective es <;> rfl

theorem stAfter_ttl (es : List ZoneEntry) :
    (stAfter es).currentTTL = lastTTLDirective es := by
  rw [stAfter, foldl_stepEntry_ttl]
  cases lastTTLDirective es <;> rfl


theorem ok_bind {α β : Type} (a : α) (f : α → Except ZoneSyntaxError β) :
    (Except.ok a >>= f) = f a := rfl

theorem error_bind {α β : Type} (e : ZoneSyntaxError) (f : α → Except ZoneSyntaxError β) :
    ((Except.error e : Except ZoneSyntaxError α) >>= f) = .error e := rfl

theorem parseDirectiveLine_not_record (name : String) (rest : List Tok) (r : ZRecord) :
    parseDirectiveLine name rest ≠ .ok (.record r) := by
  intro h
  unfold parseDirectiveLine at h
  split at h
  · split at h <;> simp_all
  · split at h
    · split at h
      · split at h <;> simp_all
      · simp_all
    · simp_all

/-- C2: the resolution pass built into `parseZone` maps the raw parse through
a same-length, same-order rewrite whose effect at position `i` depends only on
the entries before `i`; the directive state at `i` carries the value of the
most recent preceding `$ORIGIN`; and with `expandDomains` a record's domain is
expanded against exactly that value. -/
theorem claim_C2 :
    ∀ (text : String) (opts : ParseOptions) (raw : List ZoneEntry),
      rawParse text = .ok raw →
      parseZone text opts = .ok (resolveZone opts raw) ∧
      (resolveZone opts raw).length = raw.length ∧
      (∀ i e, raw.get? i = some e →
        (resolveZone opts raw).get? i = some (applyEntry opts (stAfter (raw.take i)) e)) ∧
      (∀ i, (stAfter (raw.take i)).currentOrigin = lastOriginDirective (raw.take i)) ∧
      (∀ st r, opts.expandDomains = true →
        (resolveRecord opts st r).domain = expandDomain st.currentOrigin r.domain) := by
  intro text opts raw h
  refine ⟨?_, ?_, ?_, ?_, ?_⟩
  · simp [parseZone, h, Except.map]
  · exact resolveGo_length opts raw {}
  · intro i e he
    rw [resolveZone, resolveGo_get? opts raw {} i, he]
    rfl
  · intro i
    exact stAfter_origin (raw.take i)
  · intro st r hx
    simp [resolveRecord, hx]

/-- C3: with `inheritTTL` enabled, a record keeps an explicit TTL untouched,
and a record with absent TTL receives the value of the most recent preceding
`$TTL` directive — which is `none` (TTL stays absent) when no `$TTL`
precedes it. -/
theorem claim_C3 :
    ∀ (text : String) (opts : ParseOptions) (raw E : List ZoneEntry),
      opts.inheritTTL = true →
      rawParse text = .ok raw →
      parseZone text opts = .ok E →
      ∀ i r, raw.get? i = some (.record r) →
        ∃ r', E.get? i = some (.record r') ∧
          r'.ttl = (match r.ttl with
            | some t => some t
            | none => lastTTLDirective (raw.take i)) := by
  intro text opts raw E hopt hraw hE i r hi
  have hE' : E = resolveZone opts raw := by
    rw [parseZone, hraw] at hE
    simpa [Except.map] using hE.symm
  subst hE'
  refine ⟨resolveRecord opts (stAfter (raw.take i)) r, ?_, ?_⟩
  · rw [resolveZone, resolveGo_get? opts raw {} i, hi]
    rfl
  · rw [resolveRecord]
    simp only [hopt, if_true]
    rw [stAfter_ttl (raw.take i)]
    cases r.ttl <;> cases lastTTLDirective (raw.take i) <;> simp

/-- C4: with `expandDomains` enabled, a record's domain becomes the most
recent preceding origin when it is `@`, gets that origin appended when it is
relative and non-empty, and is left unchanged when it is an FQDN, the empty
continuation marker, or when no `$ORIGIN` precedes the record. -/
theorem claim_C4 :
    ∀ (text : String) (opts : ParseOptions) (raw E : List ZoneEntry),
      opts.expandDomains = true →
      rawParse text = .ok raw →
      parseZone text opts = .ok E →
      ∀ i r, raw.get? i = some (.record r) →
        ∃ r', E.get? i = some (.record r') ∧
          r'.domain = (match lastOriginDirective (raw.take i) with
            | some o =>
                if r.domain = "@" then o
                else if endsWithDot r.domain = false ∧ r.domain ≠ "" then r.domain ++ "." ++ o
                else r.domain
            | none => r.domain) := by
  intro text opts raw E hopt hraw hE i r hi
  have hE' : E = resolveZone opts raw := by
    rw [parseZone, hraw] at hE
    simpa [Except.map] using hE.symm
  subst hE'
  refine ⟨resolveRecord opts (stAfter (raw.take i)) r, ?_, ?_⟩
  · rw [resolveZone, resolveGo_get? opts raw {} i, hi]
    rfl
  · rw [resolveRecord]
    simp only [hopt, if_true]
    rw [expandDomain.eq_def]
    rw [← stAfter_origin (raw.take i)]

/-- C9: a record line whose owner-name field is omitted parses with `domain`
equal to the empty string, and the engine never fills that field from context:
under any options the pipeline keeps such a domain empty. -/
theorem claim_C9 :
    (∀ (toks : List Tok) (r : ZRecord),
      parseLine (true, toks) = .ok (.record r) → r.domain = "") ∧
    (∀ (text : String) (opts : ParseOptions) (raw E : List ZoneEntry) (i : Nat) (r : ZRecord),
      rawParse text = .ok raw → parseZone text opts = .ok E →
      raw.get? i = some (.record r) → r.domain = "" →
      ∃ r', E.get? i = some (.record r') ∧ r'.domain = "") := by
  constructor
  · intro toks r h
    have hrec : ∀ (tks : List Tok), parseRecordLine true tks = .ok (.record r) → r.domain = "" := by
      intro tks hh
      rw [parseRecordLine] at hh
      rw [show splitDomain true tks = .ok ("", tks) from rfl] at hh
      rw [ok_bind] at hh
      simp only at hh
      cases hsc : scanType none none tks with
      | error e => rw [hsc, error_bind] at hh; exact Except.noConfusion hh
      | ok q =>
          obtain ⟨ttl, cls, m, rtoks⟩ := q
          rw [hsc, ok_bind] at hh
          simp only at hh
          cases hrd : rdataParse m rtoks with
          | error e => rw [hrd, error_bind] at hh; exact Except.noConfusion hh
          | ok d =>
              rw [hrd, ok_bind] at hh
              simp only [pure, Except.pure, Except.ok.injEq] at hh
              cases hh
              rfl
    match toks with
    | [] => exact hrec [] h
    | .quoted s :: rest => exact hrec (.quoted s :: rest) h
    | .atom s :: rest =>
        rw [parseLine] at h
        by_cases hd : s.data.head? = some '$'
        · rw [if_pos hd] at h
          exact absurd h (parseDirectiveLine_not_record s rest r)
        · rw [if_neg hd] at h
          exact hrec (.atom s :: rest) h
  · intro text opts raw E i r hraw hE hi hdom
    have hE' : E = resolveZone opts raw := by
      rw [parseZone, hraw] at hE
      simpa [Except.map] using hE.symm
    subst hE'
    refine ⟨resolveRecord opts (stAfter (raw.take i)) r, ?_, ?_⟩
    · rw [resolveZone, resolveGo_get? opts raw {} i, hi]
      rfl
    · rw [resolveRecord]
      by_cases hx : opts.expandDomains = true
      · simp only [hx, if_true]
        rw [expandDomain.eq_def]
        cases (stAfter (raw.take i)).currentOrigin with
        | none => exact hdom
        | some o => simp [hdom]
      · simp only [hx, if_false]
        exact hdom


theorem claim_C2_witness :
    rawParse "$ORIGIN a.\nwww IN A 1.2.3.4\n$ORIGIN b.\nwww IN A 1.2.3.5\n" =
      .ok [.directive "$ORIGIN" (.str "a."),
        .record ⟨"www", none, "IN", .A "1.2.3.4"⟩,
        .directive "$ORIGIN" (.str "b."),
        .record ⟨"www", none, "IN", .A "1.2.3.5"⟩] ∧
    parseZone "$ORIGIN a.\nwww IN A 1.2.3.4\n$ORIGIN b.\nwww IN A 1.2.3.5\n" ⟨true, false⟩ =
      .ok (resolveZone ⟨true, false⟩
        [.directive "$ORIGIN" (.str "a."),
          .record ⟨"www", none, "IN", .A "1.2.3.4"⟩,
          .directive "$ORIGIN" (.str "b."),
          .record ⟨"www", none, "IN", .A "1.2.3.5"⟩]) :=
  ⟨by decide,
    (claim_C2 "$ORIGIN a.\nwww IN A 1.2.3.4\n$ORIGIN b.\nwww IN A 1.2.3.5\n" ⟨true, false⟩
      [.directive "$ORIGIN" (.str "a."),
        .record ⟨"www", none, "IN", .A "1.2.3.4"⟩,
        .directive "$ORIGIN" (.str "b."),
        .record ⟨"www", none, "IN", .A "1.2.3.5"⟩] (by decide)).1⟩


theorem claim_C3_witness :
    ParseOptions.inheritTTL ⟨false, true⟩ = true ∧
    rawParse "$TTL 300\nexample.com. 3600 IN NS ns.example.com.\nexample.com. IN A 192.0.2.1\n" =
      .ok [.directive "$TTL" (.num 300),
        .record ⟨"example.com.", some 3600, "IN", .NS "ns.example.com."⟩,
        .record ⟨"example.com.", none, "IN", .A "192.0.2.1"⟩] ∧
    (∃ r', ([(.directive "$TTL" (.num 300) : ZoneEntry),
        .record ⟨"example.com.", some 3600, "IN", .NS "ns.example.com."⟩,
        .record ⟨"example.com.", some 300, "IN", .A "192.0.2.1"⟩].get? 2 =
          some (.record r')) ∧
      r'.ttl = lastTTLDirective ([(.directive "$TTL" (.num 300) : ZoneEntry),
        .record ⟨"example.com.", some 3600, "IN", .NS "ns.example.com."⟩,
        .record ⟨"example.com.", none, "IN", .A "192.0.2.1"⟩].take 2)) :=
  ⟨rfl, by decide,
    claim_C3 "$TTL 300\nexample.com. 3600 IN NS ns.example.com.\nexample.com. IN A 192.0.2.1\n"
      ⟨false, true⟩
      [.directive "$TTL" (.num 300),
        .record ⟨"example.com.", some 3600, "IN", .NS "ns.example.com."⟩,
        .record ⟨"example.com.", none, "IN", .A "192.0.2.1"⟩]
      [.directive "$TTL" (.num 300),
        .record ⟨"example.com.", some 3600, "IN", .NS "ns.example.com."⟩,
        .record ⟨"example.com.", some 300, "IN", .A "192.0.2.1"⟩]
      rfl (by decide) (by decide) 2 ⟨"example.com.", none, "IN", .A "192.0.2.1"⟩ (by decide)⟩

theorem claim_C4_witness :
    ParseOptions.expandDomains ⟨true, false⟩ = true ∧
    rawParse "$ORIGIN example.com.\nwww IN A 192.0.2.1\n" =
      .ok [.directive "$ORIGIN" (.str "example.com."),
        .record ⟨"www", none, "IN", .A "192.0.2.1"⟩] ∧
    (∃ r', ([(.directive "$ORIGIN" (.str "example.com.") : ZoneEntry),
        .record ⟨"www.example.com.", none, "IN", .A "192.0.2.1"⟩].get? 1 =
          some (.record r')) ∧
      r'.domain = "www" ++ "." ++ "example.com.") :=
  ⟨rfl, by decide, by
    have h := claim_C4 "$ORIGIN example.com.\nwww IN A 192.0.2.1\n" ⟨true, false⟩
      [.directive "$ORIGIN" (.str "example.com."),
        .record ⟨"www", none, "IN", .A "192.0.2.1"⟩]
      [.directive "$ORIGIN" (.str "example.com."),
        .record ⟨"www.example.com.", none, "IN", .A "192.0.2.1"⟩]
      rfl (by decide) (by decide) 1 ⟨"www", none, "IN", .A "192.0.2.1"⟩ (by decide)
    simpa using h⟩

theorem claim_C9_witness :
    parseLine (true, [.atom "IN", .atom "AAAA", .atom "::1"]) =
      .ok (.record ⟨"", none, "IN", .AAAA "::1"⟩) ∧
    (⟨"", none, "IN", .AAAA "::1"⟩ : ZRecord).domain = "" :=
  ⟨by decide,
    claim_C9.1 [.atom "IN", .atom "AAAA", .atom "::1"] ⟨"", none, "IN", .AAAA "::1"⟩ (by decide)⟩


theorem isErr_map {α β : Type} (f : α → β) (x : Except ZoneSyntaxError α) :
    isErr (Except.map f x) = isErr x := by
  cases x <;> rfl

theorem isErr_bind {α β : Type} (x : Except ZoneSyntaxError α)
    (f : α → Except ZoneSyntaxError β) (h : isErr x = true) : isErr (x >>= f) = true := by
  cases x with
  | ok a => exact absurd h (by simp [isErr])
  | error e => rfl

theorem mapM_parseLine_err :
    ∀ (lns : List Line), (∃ ln ∈ lns, isErr (parseLine ln) = true) →
      isErr (lns.mapM parseLine) = true := by
  intro lns
  induction lns with
  | nil => rintro ⟨ln, h, _⟩; cases h
  | cons l ls ih =>
      rintro ⟨ln, hmem, herr⟩
      rw [List.mapM_cons]
      rcases List.mem_cons.mp hmem with rfl | hmem'
      · cases hpl : parseLine ln with
        | error e => rfl
        | ok a => exact absurd herr (by simp [hpl, isErr])
      · cases hpl : parseLine l with
        | error e => rfl
        | ok a =>
            rw [ok_bind]
            exact isErr_bind _ _ (ih ⟨ln, hmem', herr⟩)

theorem parseFields_cons_ok {fk : FK} {fks : List FK} {toks : List Tok} {v : FV}
    {rest : List Tok} (h : parseField fk toks = .ok (v, rest)) :
    parseFields (fk :: fks) toks = (parseFields fks rest).map (v :: ·) := by
  rw [parseFields, h]

theorem parseFields_cons_err {fk : FK} {fks : List FK} {toks : List Tok}
    {e : ZoneSyntaxError} (h : parseField fk toks = .error e) :
    parseFields (fk :: fks) toks = .error e := by
  rw [parseFields, h]

theorem consumeFields_cons_ok {fk : FK} {fks : List FK} {toks : List Tok} {v : FV}
    {rest : List Tok} (h : parseField fk toks = .ok (v, rest)) :
    consumeFields (fk :: fks) toks =
      (consumeFields fks rest) >>= fun p => pure (v :: p.1, p.2) := by
  rw [consumeFields, h, ok_bind]

theorem parseField_consumes {fk : FK} {toks : List Tok} {v : FV} {rest : List Tok}
    (h : parseField fk toks = .ok (v, rest)) : rest.length < toks.length := by
  cases fk with
  | fname => cases toks with
      | nil => exact absurd h (by simp [parseField])
      | cons t ts => cases t <;> simp_all [parseField]
  | fnat => cases toks with
      | nil => exact absurd h (by simp [parseField])
      | cons t ts =>
          cases t with
          | atom s =>
              rw [parseField] at h
              cases hp : parseNatTok s <;> simp_all
          | quoted s => exact absurd h (by simp [parseField])
  | ftext => cases toks with
      | nil => exact absurd h (by simp [parseField])
      | cons t ts => cases t <;> simp_all [parseField]
  | fip6 => cases toks with
      | nil => exact absurd h (by simp [parseField])
      | cons t ts =>
          cases t with
          | atom s =>
              rw [parseField] at h
              by_cases hip : isIPv6 s = true <;> simp_all
          | quoted s => exact absurd h (by simp [parseField])
  | frest =>
      rw [parseField] at h
      cases hra : restAtoms toks with
      | none => simp_all
      | some ws =>
          cases ws with
          | nil => simp_all
          | cons w ws' =>
              rw [hra] at h
              simp only [Except.ok.injEq, Prod.mk.injEq] at h
              obtain ⟨-, rfl⟩ := h
              cases toks with
              | nil => exact absurd hra (by simp [restAtoms])
              | cons t ts => simp

theorem parseFields_ok_length :
    ∀ (fks : List FK) (toks : List Tok) (vs : List FV),
      parseFields fks toks = .ok vs → fks.length ≤ toks.length := by
  intro fks
  induction fks with
  | nil => intro toks vs _; exact Nat.zero_le _
  | cons fk fks ih =>
      intro toks vs h
      cases hpf : parseField fk toks with
      | error e => rw [parseFields_cons_err hpf] at h; exact absurd h (by simp)
      | ok p =>
          obtain ⟨v, rest⟩ := p
          rw [parseFields_cons_ok hpf] at h
          cases hrest : parseFields fks rest with
          | error e => rw [hrest] at h; exact absurd h (by simp [Except.map])
          | ok vs' =>
              have h1 := parseField_consumes hpf
              have h2 := ih rest vs' hrest
              simp only [List.length_cons]
              omega

theorem parseFields_append :
    ∀ (fks1 fks2 : List FK) (toks : List Tok),
      parseFields (fks1 ++ fks2) toks =
        (match consumeFields fks1 toks with
         | .ok (vs1, rest) => (parseFields fks2 rest).map (vs1 ++ ·)
         | .error e => .error e) := by
  intro fks1
  induction fks1 with
  | nil =>
      intro fks2 toks
      simp only [List.nil_append, consumeFields]
      cases h : parseFields fks2 toks <;> simp [Except.map]
  | cons fk fks ih =>
      intro fks2 toks
      rw [List.cons_append]
      cases hpf : parseField fk toks with
      | error e =>
          rw [parseFields_cons_err hpf, consumeFields, hpf, error_bind]
      | ok p =>
          obtain ⟨v, rest⟩ := p
          rw [parseFields_cons_ok hpf, consumeFields_cons_ok hpf, ih fks2 rest]
          cases hcf : consumeFields fks rest with
          | error e => rfl
          | ok q =>
              obtain ⟨vs1, rest'⟩ := q
              rw [ok_bind]
              cases hq : parseFields fks2 rest' <;>
                simp [hq, Except.map, pure, Except.pure]

theorem scanType_cons_atom (ttl : Option Nat) (cls : Option String) (s : String)
    (rest : List Tok) :
    scanType ttl cls (.atom s :: rest) =
      (if supportedRecordTypes.contains s then .ok (ttl, cls, s, rest)
       else
         match ttl, parseNatTok s with
         | none, some n => scanType (some n) cls rest
         | _, _ =>
             match cls with
             | none => scanType ttl (some s) rest
             | some _ => .error .unknownRecordType) := rfl

theorem scanType_no_mnemonic :
    ∀ (toks : List Tok) (ttl : Option Nat) (cls : Option String),
      (∀ s, Tok.atom s ∈ toks → s ∉ supportedRecordTypes) →
      isErr (scanType ttl cls toks) = true := by
  intro toks
  induction toks with
  | nil => intro _ _ _; rfl
  | cons t ts ih =>
      intro ttl cls hno
      cases t with
      | quoted q => rfl
      | atom s =>
          have hs : s ∉ supportedRecordTypes := hno s (List.mem_cons_self _ _)
          have hc : supportedRecordTypes.contains s = false := by
            by_contra hcc
            simp only [Bool.not_eq_false] at hcc
            exact hs (List.mem_of_elem_eq_true hcc)
          have hno' : ∀ s', Tok.atom s' ∈ ts → s' ∉ supportedRecordTypes :=
            fun s' hmem => hno s' (List.mem_cons_of_mem _ hmem)
          rw [scanType_cons_atom, hc]
          simp only [Bool.false_eq_true, if_false]
          cases ttl with
          | none =>
              cases hp : parseNatTok s with
              | some n => exact ih (some n) cls hno'
              | none =>
                  cases cls with
                  | none => exact ih none (some s) hno'
                  | some c => rfl
          | some t0 =>
              cases cls with
              | none => exact ih (some t0) (some s) hno'
              | some c => rfl


theorem parseRecordLine_scan_err {leading : Bool} {toks : List Tok} {dom : String}
    {rest : List Tok} (hsplit : splitDomain leading toks = .ok (dom, rest))
    (hscan : isErr (scanType none none rest) = true) :
    isErr (parseRecordLine leading toks) = true := by
  rw [parseRecordLine, hsplit, ok_bind]
  exact isErr_bind _ _ hscan

/-- C5 (amended to the actual size of the closed mnemonic set, 22): a record
line whose type mnemonic is not supported, a recognized mnemonic with too few
rdata tokens, and a non-numeric token in an integer field are all syntax
errors, and any line error aborts the whole `parseZone` call with no partial
result. -/
theorem claim_C5 :
    (∀ (text : String) (opts : ParseOptions) (lns : List Line) (ln : Line),
      lexZone text = .ok lns → ln ∈ lns → isErr (parseLine ln) = true →
      isErr (parseZone text opts) = true) ∧
    (∀ (leading : Bool) (toks : List Tok),
      (∀ s rest, toks = .atom s :: rest → s.data.head? ≠ some '$') →
      (∀ s, Tok.atom s ∈ toks → s ∉ supportedRecordTypes) →
      isErr (parseLine (leading, toks)) = true) ∧
    (∀ (m : String) (toks : List Tok), m ∈ supportedRecordTypes →
      toks.length < (rdataShape m).length → isErr (rdataParse m toks) = true) ∧
    (∀ (m : String) (fks1 fks2 : List FK) (toks : List Tok) (vs1 : List FV)
      (s : String) (rest : List Tok),
      rdataShape m = fks1 ++ .fnat :: fks2 →
      consumeFields fks1 toks = .ok (vs1, .atom s :: rest) →
      isNatStr s = false →
      isErr (rdataParse m toks) = true) := by
  have hrec : ∀ (leading : Bool) (tks : List Tok),
      (∀ s, Tok.atom s ∈ tks → s ∉ supportedRecordTypes) →
      isErr (parseRecordLine leading tks) = true := by
    intro leading tks hno'
    cases leading with
    | true =>
        exact parseRecordLine_scan_err (show splitDomain true tks = .ok ("", tks) from rfl)
          (scanType_no_mnemonic tks none none hno')
    | false =>
        cases tks with
        | nil => rfl
        | cons t ts =>
            cases t with
            | quoted q => rfl
            | atom s =>
                exact parseRecordLine_scan_err
                  (show splitDomain false (.atom s :: ts) = .ok (s, ts) from rfl)
                  (scanType_no_mnemonic ts none none
                    (fun s' hmem => hno' s' (List.mem_cons_of_mem _ hmem)))
  refine ⟨?_, ?_, ?_, ?_⟩
  · intro text opts lns ln hlex hmem herr
    rw [parseZone, isErr_map, rawParse, hlex, ok_bind]
    exact mapM_parseLine_err lns ⟨ln, hmem, herr⟩
  · intro leading toks hdollar hno
    cases toks with
    | nil => exact hrec leading [] hno
    | cons t ts =>
        cases t with
        | quoted q => exact hrec leading (.quoted q :: ts) hno
        | atom s =>
            rw [parseLine]
            rw [if_neg (hdollar s ts rfl)]
            exact hrec leading (.atom s :: ts) hno
  · intro m toks hm hlen
    cases hpf : parseFields (rdataShape m) toks with
    | ok vs =>
        have := parseFields_ok_length (rdataShape m) toks vs hpf
        omega
    | error e =>
        rw [rdataParse, hpf]
        rfl
  · intro m fks1 fks2 toks vs1 s rest hshape hcons hnum
    have hp : parseNatTok s = none := by
      rw [parseNatTok, hnum]
      rfl
    have hf : parseField .fnat (.atom s :: rest) = .error .badRData := by
      rw [parseField, hp]
    have hpf : parseFields (rdataShape m) toks = .error .badRData := by
      rw [hshape, parseFields_append, hcons]
      show Except.map (fun x => vs1 ++ x)
        (parseFields (FK.fnat :: fks2) (Tok.atom s :: rest)) = _
      rw [parseFields_cons_err hf]
      rfl
    rw [rdataParse, hpf]
    rfl

theorem claim_C5_counterexample :
    supportedRecordTypes.length = 22 ∧ supportedRecordTypes.Nodup ∧
    "ZONEMD" ∈ supportedRecordTypes ∧
    rawParse "example.com. IN ZONEMD 2023100101 1 1 AB12\n" =
      .ok [.record ⟨"example.com.", none, "IN", .ZONEMD 2023100101 1 1 "AB12"⟩] := by
  refine ⟨rfl, by decide, by decide, by decide⟩

theorem claim_C5_witness :
    (lexZone "example.com. IN INVALID 192.0.2.1\n" =
      .ok [(false, [.atom "example.com.", .atom "IN", .atom "INVALID", .atom "192.0.2.1"])]) ∧
    isErr (parseLine (false,
      [.atom "example.com.", .atom "IN", .atom "INVALID", .atom "192.0.2.1"])) = true ∧
    isErr (parseZone "example.com. IN INVALID 192.0.2.1\n" defaultOptions) = true ∧
    isErr (rdataParse "SRV" [.atom "10", .atom "60"]) = true ∧
    isErr (rdataParse "MX" [.atom "abc", .atom "mail.example.com."]) = true := by
  have h2 := claim_C5.2.1 false
    [.atom "example.com.", .atom "IN", .atom "INVALID", .atom "192.0.2.1"]
    (by intro s rest h; cases h; decide)
    (by intro s hs; simp at hs; rcases hs with rfl|rfl|rfl|rfl <;> decide)
  refine ⟨by decide, h2, ?_, ?_, ?_⟩
  · exact claim_C5.1 "example.com. IN INVALID 192.0.2.1\n" defaultOptions
      [(false, [.atom "example.com.", .atom "IN", .atom "INVALID", .atom "192.0.2.1"])]
      (false, [.atom "example.com.", .atom "IN", .atom "INVALID", .atom "192.0.2.1"])
      (by decide) (by decide) h2
  · exact claim_C5.2.2.1 "SRV" [.atom "10", .atom "60"] (by decide) (by decide)
  · exact claim_C5.2.2.2 "MX" [] [.fname] [.atom "abc", .atom "mail.example.com."]
      [] "abc" [.atom "mail.example.com."] rfl rfl (by decide)

/-- C8: the A record's address field is an unconstrained token (any single
bare atom is accepted), whereas the AAAA record's field must match the IPv6
textual grammar or the rdata parse fails. -/
theorem claim_C8 :
    (∀ s, rdataParse "A" [.atom s] = .ok (.A s)) ∧
    (∀ s, isIPv6 s = false → isErr (rdataParse "AAAA" [.atom s]) = true) := by
  constructor
  · intro s
    rfl
  · intro s h
    have hf : parseField .fip6 [Tok.atom s] = .error .badRData := by
      rw [parseField]
      simp [h]
    have hpf : parseFields (rdataShape "AAAA") [Tok.atom s] = .error .badRData := by
      rw [show rdataShape "AAAA" = [.fip6] from rfl, parseFields_cons_err hf]
    rw [rdataParse, hpf]
    rfl

theorem claim_C8_witness :
    isIPv6 "999.999.999.999" = false ∧
    rawParse "example.com. IN A 999.999.999.999\n" =
      .ok [.record ⟨"example.com.", none, "IN", .A "999.999.999.999"⟩] ∧
    isErr (rdataParse "AAAA" [.atom "999.999.999.999"]) = true ∧
    rdataParse "A" [.atom "zzz::invalid"] = .ok (.A "zzz::invalid") ∧
    isErr (rdataParse "AAAA" [.atom "zzz::invalid"]) = true :=
  ⟨by decide, by decide, claim_C8.2 "999.999.999.999" (by decide),
    claim_C8.1 "zzz::invalid", claim_C8.2 "zzz::invalid" (by decide)⟩

theorem claim_C10_witness :
    ("a\" b".data.contains '"' = true) ∧
    serializeRecordData (.SPF "a\" b") = "\"" ++ "a\" b" ++ "\"" :=
  ⟨by decide, claim_C10.2.2.2.1 "a\" b" (by decide)⟩


theorem data_mk (l : List Char) : (String.mk l).data = l := rfl

theorem mk_data (s : String) : String.mk s.data = s := rfl

theorem runLex_cons_ok {m : LexMode} {st : LexSt} {c : Char} {m' : LexMode} {st' : LexSt}
    (h : lexStep m st c = .ok (m', st')) (cs : List Char) :
    runLex (c :: cs) m st = runLex cs m' st' := by
  rw [runLex, h]

theorem runLex_cons_err {m : LexMode} {st : LexSt} {c : Char} {e : ZoneSyntaxError}
    (h : lexStep m st c = .error e) (cs : List Char) :
    runLex (c :: cs) m st = .error e := by
  rw [runLex, h]

theorem runLex_append (a b : List Char) (m : LexMode) (st : LexSt) :
    runLex (a ++ b) m st =
      (match runLex a m st with
       | .ok (m', st') => runLex b m' st'
       | .error e => .error e) := by
  induction a generalizing m st with
  | nil => simp [runLex]
  | cons c cs ih =>
      rw [List.cons_append]
      cases h : lexStep m st c with
      | ok p =>
          obtain ⟨m', st'⟩ := p
          rw [runLex_cons_ok h (cs ++ b), runLex_cons_ok h cs, ih]
      | error e => rw [runLex_cons_err h (cs ++ b), runLex_cons_err h cs]

theorem runLex_append_ok {a : List Char} {m : LexMode} {st : LexSt} {m' : LexMode}
    {st' : LexSt} (h : runLex a m st = .ok (m', st')) (b : List Char) :
    runLex (a ++ b) m st = runLex b m' st' := by
  rw [runLex_append, h]

theorem isAtomChar_not_structural {c : Char} (h : isAtomChar c = true) :
    isSpaceChar c = false ∧ c ≠ '\n' ∧ c ≠ '"' ∧ c ≠ ';' ∧ c ≠ '(' ∧ c ≠ ')' := by
  simp only [isAtomChar, Bool.not_eq_true', Bool.or_eq_false_iff,
    decide_eq_false_iff_not] at h
  exact ⟨h.1.1.1.1.1, h.1.1.1.1.2, h.1.1.1.2, h.1.1.2, h.1.2, h.2⟩

theorem stepNorm_newline0 {st : LexSt} (h : st.depth = 0) :
    stepNorm st '\n' = .ok (.norm, endLine st) := by
  rw [stepNorm, if_pos rfl, if_neg (by rw [h]; exact fun hh => hh rfl)]

theorem stepNorm_atomChar {c : Char} (h : isAtomChar c = true) (st : LexSt) :
    stepNorm st c = .ok (.atom [c], st) := by
  obtain ⟨h1, h2, h3, h4, h5, h6⟩ := isAtomChar_not_structural h
  rw [stepNorm, if_neg h2, if_neg (by rw [h1]; exact fun hh => nomatch hh),
    if_neg h4, if_neg h3, if_neg h5, if_neg h6]

theorem runLex_atomRun : ∀ (cs : List Char) (acc : List Char) (st : LexSt),
    (∀ c ∈ cs, isAtomChar c = true) →
    runLex cs (.atom acc) st = .ok (.atom (acc ++ cs), st) := by
  intro cs
  induction cs with
  | nil => intro acc st _; simp [runLex]
  | cons c cs ih =>
      intro acc st hall
      have hc : isAtomChar c = true := hall c (List.mem_cons_self _ _)
      rw [runLex_cons_ok (show lexStep (.atom acc) st c = .ok (.atom (acc ++ [c]), st) by
        rw [lexStep, if_pos hc]) cs]
      rw [ih (acc ++ [c]) st (fun c' hm => hall c' (List.mem_cons_of_mem _ hm))]
      simp

theorem runLex_atomStart {cs : List Char} (st : LexSt) (hne : cs ≠ [])
    (hall : ∀ c ∈ cs, isAtomChar c = true) :
    runLex cs .norm st = .ok (.atom cs, st) := by
  cases cs with
  | nil => exact absurd rfl hne
  | cons c cs =>
      have hc : isAtomChar c = true := hall c (List.mem_cons_self _ _)
      rw [runLex_cons_ok (show lexStep .norm st c = .ok (.atom [c], st) from
        stepNorm_atomChar hc st) cs]
      exact runLex_atomRun cs [c] st (fun c' hm => hall c' (List.mem_cons_of_mem _ hm))

theorem runLex_quoteRun : ∀ (cs : List Char) (acc : List Char) (st : LexSt),
    (∀ c ∈ cs, c ≠ '"') →
    runLex cs (.quote acc) st = .ok (.quote (acc ++ cs), st) := by
  intro cs
  induction cs with
  | nil => intro acc st _; simp [runLex]
  | cons c cs ih =>
      intro acc st hall
      have hc : c ≠ '"' := hall c (List.mem_cons_self _ _)
      rw [runLex_cons_ok (show lexStep (.quote acc) st c = .ok (.quote (acc ++ [c]), st) by
        rw [lexStep, if_neg hc]) cs]
      rw [ih (acc ++ [c]) st (fun c' hm => hall c' (List.mem_cons_of_mem _ hm))]
      simp

theorem stepNorm_space (st : LexSt) :
    stepNorm st ' ' = .ok (.norm, if st.cur = [] then { st with leading := true } else st) := rfl

theorem runLex_spaces_ne : ∀ (k : Nat) (st : LexSt), st.cur ≠ [] →
    runLex (List.replicate k ' ') .norm st = .ok (.norm, st) := by
  intro k
  induction k with
  | zero => intro st _; rfl
  | succ k ih =>
      intro st h
      rw [List.replicate_succ]
      rw [runLex_cons_ok (show lexStep .norm st ' ' = .ok (.norm, st) by
        rw [lexStep, stepNorm_space, if_neg h]) _]
      exact ih st h

theorem runLex_spaces_lead : ∀ (k : Nat) (st : LexSt), st.cur = [] → st.leading = true →
    runLex (List.replicate k ' ') .norm st = .ok (.norm, st) := by
  intro k
  induction k with
  | zero => intro st _ _; rfl
  | succ k ih =>
      intro st hc hl
      have hst : ({ st with leading := true } : LexSt) = st := by
        cases st; simp_all
      rw [List.replicate_succ]
      rw [runLex_cons_ok (show lexStep .norm st ' ' = .ok (.norm, st) by
        rw [lexStep, stepNorm_space, if_pos hc, hst]) _]
      exact ih st hc hl

theorem runLex_spaces_start (k : Nat) (st : LexSt) (hc : st.cur = []) :
    runLex (List.replicate k ' ') .norm st =
      .ok (.norm, if k = 0 then st else { st with leading := true }) := by
  cases k with
  | zero => rfl
  | succ k =>
      rw [List.replicate_succ]
      rw [runLex_cons_ok (show lexStep .norm st ' ' =
        .ok (.norm, { st with leading := true }) by
          rw [lexStep, stepNorm_space, if_pos hc]) _]
      rw [runLex_spaces_lead k { st with leading := true } hc rfl]
      simp

theorem noQuoteChar_spec {s : String} (h : noQuoteChar s = true) :
    ∀ c ∈ s.data, c ≠ '"' := by
  intro c hm hq
  subst hq
  simp only [noQuoteChar, Bool.not_eq_true'] at h
  exact absurd (List.elem_eq_true_of_mem hm) (by simp [List.contains] at h; simp [h])

theorem quotedChunk_data (s : String) :
    (chunkStr (.quotedC s)).data = '"' :: (s.data ++ ['"']) := by
  simp [chunkStr, String.data_append, (show ("\"" : String).data = ['"'] from rfl)]

theorem runLex_quotedChunk (s : String) (st : LexSt) (hs : noQuoteChar s = true) :
    runLex (chunkStr (.quotedC s)).data .norm st =
      .ok (.norm, pushTok st (.quoted s)) := by
  rw [quotedChunk_data]
  rw [runLex_cons_ok (show lexStep .norm st '"' = .ok (.quote [], st) from rfl) _]
  have hq := runLex_quoteRun s.data [] st (noQuoteChar_spec hs)
  rw [runLex_append_ok (by simpa using hq) ['"']]
  rw [runLex_cons_ok (show lexStep (.quote s.data) st '"' =
      .ok (.norm, pushTok st (.quoted (String.mk s.data))) by
    rw [lexStep, if_pos rfl]) []]
  rw [mk_data]
  rfl


theorem atomToken_spec {s : String} (h : atomToken s = true) :
    s.data ≠ [] ∧ ∀ c ∈ s.data, isAtomChar c = true := by
  simp only [atomToken, Bool.and_eq_true, Bool.not_eq_true', List.all_eq_true] at h
  refine ⟨?_, h.2⟩
  intro hnil
  rw [hnil] at h
  simp at h

theorem pushTok_cur_ne (st : LexSt) (t : Tok) : (pushTok st t).cur ≠ [] := by
  simp [pushTok]

theorem runLex_chunk_gap (c : Chunk) (k : Nat) (hk : 1 ≤ k) (st : LexSt)
    (hwf : WFChunk c) (rest : List Char) :
    runLex ((chunkStr c).data ++ (List.replicate k ' ' ++ rest)) .norm st =
      runLex rest .norm (pushTok st (chunkTok c)) := by
  cases c with
  | atomC s =>
      obtain ⟨hne, hall⟩ := atomToken_spec hwf
      rw [show chunkStr (.atomC s) = s from rfl]
      rw [runLex_append_ok (runLex_atomStart st hne hall) _]
      obtain ⟨j, rfl⟩ : ∃ j, k = j + 1 := ⟨k - 1, by omega⟩
      rw [List.replicate_succ, List.cons_append]
      rw [runLex_cons_ok (show lexStep (.atom s.data) st ' ' =
          .ok (.norm, pushTok st (.atom s)) by
        rw [lexStep, if_neg (by decide)]
        rw [show pushTok st (Tok.atom (String.mk s.data)) = pushTok st (.atom s) by
          rw [mk_data]]
        rw [stepNorm_space, if_neg (pushTok_cur_ne st (.atom s))]) _]
      rw [runLex_append_ok (runLex_spaces_ne j _ (pushTok_cur_ne st (.atom s))) rest]
      rfl
  | quotedC s =>
      rw [runLex_append_ok (runLex_quotedChunk s st hwf) _]
      rw [runLex_append_ok (runLex_spaces_ne k _ (pushTok_cur_ne st (.quoted s))) rest]
      rfl

theorem runLex_chunk_end (c : Chunk) (k : Nat) (st : LexSt) (hwf : WFChunk c)
    (hd : st.depth = 0) (tail : List Char) :
    runLex ((chunkStr c).data ++ (List.replicate k ' ' ++ ('\n' :: tail))) .norm st =
      runLex tail .norm (endLine (pushTok st (chunkTok c))) := by
  have hd' : (pushTok st (chunkTok c)).depth = 0 := by simp [pushTok, hd]
  cases c with
  | atomC s =>
      obtain ⟨hne, hall⟩ := atomToken_spec hwf
      rw [show chunkStr (.atomC s) = s from rfl]
      rw [runLex_append_ok (runLex_atomStart st hne hall) _]
      cases k with
      | zero =>
          rw [List.replicate, List.nil_append]
          rw [runLex_cons_ok (show lexStep (.atom s.data) st '\n' =
              .ok (.norm, endLine (pushTok st (.atom s))) by
            rw [lexStep, if_neg (by decide)]
            rw [show pushTok st (Tok.atom (String.mk s.data)) = pushTok st (.atom s) by
              rw [mk_data]]
            exact stepNorm_newline0 hd') tail]
          rfl
      | succ j =>
          rw [List.replicate_succ, List.cons_append]
          rw [runLex_cons_ok (show lexStep (.atom s.data) st ' ' =
              .ok (.norm, pushTok st (.atom s)) by
            rw [lexStep, if_neg (by decide)]
            rw [show pushTok st (Tok.atom (String.mk s.data)) = pushTok st (.atom s) by
              rw [mk_data]]
            rw [stepNorm_space, if_neg (pushTok_cur_ne st (.atom s))]) _]
          rw [runLex_append_ok (runLex_spaces_ne j _ (pushTok_cur_ne st (.atom s))) _]
          rw [runLex_cons_ok (show lexStep .norm (pushTok st (.atom s)) '\n' =
              .ok (.norm, endLine (pushTok st (.atom s))) from stepNorm_newline0 hd') tail]
          rfl
  | quotedC s =>
      rw [runLex_append_ok (runLex_quotedChunk s st hwf) _]
      rw [runLex_append_ok (runLex_spaces_ne k _ (pushTok_cur_ne st (.quoted s))) _]
      rw [runLex_cons_ok (show lexStep .norm (pushTok st (.quoted s)) '\n' =
          .ok (.norm, endLine (pushTok st (.quoted s))) from stepNorm_newline0 hd') tail]
      rfl

theorem chunksWithPad_cons_data (c : Chunk) (k : Nat) (rest : List (Chunk × Nat)) :
    (chunksWithPad ((c, k) :: rest)).data =
      (chunkStr c).data ++ (List.replicate k ' ' ++ (chunksWithPad rest).data) := by
  simp [chunksWithPad, String.data_append, data_mk, List.append_assoc]

theorem runLex_chunks_line :
    ∀ (l : List (Chunk × Nat)) (st : LexSt) (tail : List Char),
      ChunksOk l → l ≠ [] → st.depth = 0 →
      runLex ((chunksWithPad l).data ++ '\n' :: tail) .norm st =
        runLex tail .norm
          (endLine { st with cur := st.cur ++ l.map (fun p => chunkTok p.1) }) := by
  intro l
  induction l with
  | nil => intro st tail _ hne _; exact absurd rfl hne
  | cons p rest ih =>
      obtain ⟨c, k⟩ := p
      intro st tail hok hne hd
      cases rest with
      | nil =>
          have hwf : WFChunk c := hok
          rw [chunksWithPad_cons_data]
          rw [show chunksWithPad [] = "" from rfl]
          rw [show ("" : String).data = [] from rfl, List.append_nil]
          rw [List.append_assoc]
          rw [runLex_chunk_end c k st hwf hd tail]
          rfl
      | cons q rs =>
          obtain ⟨hwf, hk, hok'⟩ := hok
          rw [chunksWithPad_cons_data]
          rw [List.append_assoc, List.append_assoc]
          rw [runLex_chunk_gap c k hk st hwf _]
          rw [ih (pushTok st (chunkTok c)) tail hok' (by simp) (by simp [pushTok, hd])]
          congr 1
          simp [pushTok, endLine]


theorem chunksWithPad_append (l1 l2 : List (Chunk × Nat)) :
    chunksWithPad (l1 ++ l2) = chunksWithPad l1 ++ chunksWithPad l2 := by
  induction l1 with
  | nil => simp [chunksWithPad]
  | cons p rest ih =>
      obtain ⟨c, k⟩ := p
      simp [chunksWithPad, ih, String.append_assoc]

theorem chunksPre_append_ok : ∀ (l1 l2 : List (Chunk × Nat)),
    ChunksPre l1 → ChunksOk l2 → ChunksOk (l1 ++ l2) := by
  intro l1
  induction l1 with
  | nil => intro l2 _ h2; simpa using h2
  | cons p rest ih =>
      obtain ⟨c, k⟩ := p
      intro l2 h1 h2
      obtain ⟨hwf, hk, hrest⟩ := h1
      have hr := ih l2 hrest h2
      cases hre : rest ++ l2 with
      | nil => simpa [ChunksOk, hre] using hwf
      | cons q qs =>
          rw [List.cons_append, hre]
          exact ⟨hwf, hk, by rw [← hre]; exact hr⟩

theorem chunksPre_ne_append {l1 : List (Chunk × Nat)} (l2 : List (Chunk × Nat))
    (h : l1 ≠ []) : l1 ++ l2 ≠ [] := by
  cases l1 with
  | nil => exact absurd rfl h
  | cons p rest => simp

theorem isAtomChar_not_trail {c : Char} (h : isAtomChar c = true) :
    isTrailWS c = false := by
  obtain ⟨h1, h2, -, -, -, -⟩ := isAtomChar_not_structural h
  simp only [isSpaceChar, Bool.or_eq_false_iff, decide_eq_false_iff_not] at h1
  simp [isTrailWS, h1.1.1, h1.1.2, h2, h1.2]

theorem trimEnd_last (Y : List Char) (ch : Char) (h : isTrailWS ch = false) :
    trimEnd ⟨Y ++ [ch]⟩ = ⟨Y ++ [ch]⟩ := by
  simp [trimEnd, List.reverse_append, List.dropWhile, h]

theorem chunk_last_char (c : Chunk) (hwf : WFChunk c) :
    ∃ (l0 : List Char) (ch : Char),
      (chunkStr c).data = l0 ++ [ch] ∧ isTrailWS ch = false := by
  cases c with
  | atomC s =>
      obtain ⟨hne, hall⟩ := atomToken_spec hwf
      refine ⟨s.data.dropLast, s.data.getLast hne, ?_, ?_⟩
      · exact (List.dropLast_append_getLast hne).symm
      · exact isAtomChar_not_trail (hall _ (List.getLast_mem hne))
  | quotedC s =>
      refine ⟨'"' :: s.data, '"', ?_, by decide⟩
      rw [quotedChunk_data]
      simp

theorem trimEnd_chunks_end (pre : List Char) (l' : List (Chunk × Nat)) (c : Chunk)
    (hwf : WFChunk c) :
    trimEnd ⟨pre ++ (chunksWithPad (l' ++ [(c, 0)])).data⟩ =
      ⟨pre ++ (chunksWithPad (l' ++ [(c, 0)])).data⟩ := by
  obtain ⟨l0, ch, hdata, hch⟩ := chunk_last_char c hwf
  have hsplit : pre ++ (chunksWithPad (l' ++ [(c, 0)])).data =
      (pre ++ (chunksWithPad l').data ++ l0) ++ [ch] := by
    rw [chunksWithPad_append, String.data_append]
    rw [show (chunksWithPad [(c, 0)]) = chunkStr c ++ ⟨List.replicate 0 ' '⟩ ++ "" from rfl]
    simp [String.data_append, hdata, data_mk]
  rw [hsplit]
  exact trimEnd_last _ ch hch

theorem contains_false_of_not_mem {s : String} {l : List String} (h : s ∉ l) :
    l.contains s = false := by
  by_contra hc
  simp only [Bool.not_eq_false] at hc
  exact h (List.mem_of_elem_eq_true hc)

theorem scanType_clsrt (cls rt : String) (rd : List Tok)
    (hcls : cls ∉ supportedRecordTypes) (hrt : rt ∈ supportedRecordTypes) :
    ∃ (ttl' : Option Nat) (cls' : Option String),
      scanType none none (.atom cls :: .atom rt :: rd) = .ok (ttl', cls', rt, rd) := by
  have hc1 := contains_false_of_not_mem hcls
  have hc2 : supportedRecordTypes.contains rt = true := List.elem_eq_true_of_mem hrt
  cases hp : parseNatTok cls with
  | some n =>
      refine ⟨some n, none, ?_⟩
      rw [scanType_cons_atom, hc1]
      simp only [Bool.false_eq_true, if_false, hp]
      rw [scanType_cons_atom, if_pos hc2]
  | none =>
      refine ⟨none, some cls, ?_⟩
      rw [scanType_cons_atom, hc1]
      simp only [Bool.false_eq_true, if_false, hp]
      rw [scanType_cons_atom, if_pos hc2]

theorem scanType_ttlclsrt (t : Nat) (cls rt : String) (rd : List Tok)
    (hcls : cls ∉ supportedRecordTypes) (hrt : rt ∈ supportedRecordTypes) :
    scanType none none (.atom (natRepr t) :: .atom cls :: .atom rt :: rd) =
      .ok (some t, some cls, rt, rd) := by
  have hc0 := contains_false_of_not_mem (natRepr_not_recordType t)
  have hc1 := contains_false_of_not_mem hcls
  have hc2 : supportedRecordTypes.contains rt = true := List.elem_eq_true_of_mem hrt
  rw [scanType_cons_atom, hc0]
  simp only [Bool.false_eq_true, if_false, parseNatTok_natRepr]
  rw [scanType_cons_atom, hc1]
  simp only [Bool.false_eq_true, if_false]
  cases hp : parseNatTok cls <;>
    rw [scanType_cons_atom, if_pos hc2]


theorem recordType_mem (d : RData) : d.recordType ∈ supportedRecordTypes := by
  cases d <;> simp [RData.recordType, supportedRecordTypes]

theorem restAtoms_map : ∀ ws : List String, restAtoms (ws.map Tok.atom) = some ws := by
  intro ws
  induction ws with
  | nil => rfl
  | cons w ws ih => simp [restAtoms, ih]

theorem joinSpace_chunk_form :
    ∀ ws : List String, ws ≠ [] → (∀ w ∈ ws, atomToken w = true) →
      ∃ (lw : List (Chunk × Nat)) (cw : Chunk),
        ChunksOk (lw ++ [(cw, 0)]) ∧
        (joinSpace ws).data = (chunksWithPad (lw ++ [(cw, 0)])).data ∧
        (lw ++ [(cw, 0)]).map (fun p : Chunk × Nat => chunkTok p.1) = ws.map Tok.atom := by
  intro ws
  induction ws with
  | nil => intro h _; exact absurd rfl h
  | cons w ws ih =>
      intro _ hall
      cases ws with
      | nil =>
          refine ⟨[], .atomC w, hall w (by simp), ?_, by simp [chunkTok]⟩
          simp [joinSpace, chunksWithPad, chunkStr, String.data_append, data_mk]
      | cons w2 ws2 =>
          obtain ⟨lw, cw, hok, hdata, htoks⟩ :=
            ih (by simp) (fun x hm => hall x (List.mem_cons_of_mem _ hm))
          refine ⟨(.atomC w, 1) :: lw, cw, ?_, ?_, ?_⟩
          · have hw : WFChunk (.atomC w) := hall w (by simp)
            cases hlw : lw ++ [(cw, 0)] with
            | nil => simp at hlw
            | cons q qs =>
                rw [List.cons_append, hlw]
                exact ⟨hw, le_refl 1, by rw [← hlw]; exact hok⟩
          · rw [joinSpace, String.data_append, String.data_append, hdata]
            simp [chunksWithPad, chunkStr, String.data_append, data_mk,
              (show (" " : String).data = [' '] from rfl)]
          · rw [List.cons_append, List.map_cons, htoks]
            simp [chunkTok]

theorem rdata_chunks_SOA (mn rn : String) (se rf rt ex mi : Nat)
    (hwf : WFData (.SOA mn rn se rf rt ex mi)) :
    ∃ (l' : List (Chunk × Nat)) (c : Chunk),
      ChunksOk (l' ++ [(c, 0)]) ∧
      (serializeRecordData (.SOA mn rn se rf rt ex mi)).data =
        (chunksWithPad (l' ++ [(c, 0)])).data ∧
      rdataParse "SOA" ((l' ++ [(c, 0)]).map (fun p : Chunk × Nat => chunkTok p.1)) =
        .ok (.SOA mn rn se rf rt ex mi) := by
  obtain ⟨h1, h2⟩ := hwf
  refine ⟨[(.atomC mn, 1), (.atomC rn, 1), (.atomC (natRepr se), 1),
    (.atomC (natRepr rf), 1), (.atomC (natRepr rt), 1), (.atomC (natRepr ex), 1)],
    .atomC (natRepr mi), ?_, ?_, ?_⟩
  · simp [ChunksOk, WFChunk, atomToken_natRepr, h1, h2]
  · simp [serializeRecordData, chunksWithPad, chunkStr, String.data_append, data_mk,
      (show (" " : String).data = [' '] from rfl)]
  · simp only [chunkTok, List.map_append, List.map_cons, List.map_nil,
      List.cons_append, List.nil_append]
    rw [rdataParse,
      show rdataShape "SOA" = [.fname, .fname, .fnat, .fnat, .fnat, .fnat, .fnat] from rfl]
    simp only [parseFields, parseField, parseNatTok_natRepr, Except.map]
    rw [show mkRData "SOA" [.name mn, .name rn, .nat se, .nat rf, .nat rt, .nat ex, .nat mi] =
      some (.SOA mn rn se rf rt ex mi) from rfl]


theorem rdata_chunks_NS (n : String)
    (hwf : WFData (.NS n)) :
    ∃ (l' : List (Chunk × Nat)) (c : Chunk),
      ChunksOk (l' ++ [(c, 0)]) ∧
      (serializeRecordData (.NS n)).data =
        (chunksWithPad (l' ++ [(c, 0)])).data ∧
      rdataParse "NS" ((l' ++ [(c, 0)]).map (fun p : Chunk × Nat => chunkTok p.1)) =
        .ok (.NS n) := by
  have h1 : atomToken n = true := hwf
  refine ⟨[], .atomC n, ?_, ?_, ?_⟩
  · simp [ChunksOk, WFChunk, atomToken_natRepr, h1]
  · simp [serializeRecordData, chunksWithPad, chunkStr, String.data_append, data_mk,
      (show (" " : String).data = [' '] from rfl),
      (show (" \"" : String).data = [' ', '"'] from rfl),
      (show ("\" \"" : String).data = ['"', ' ', '"'] from rfl),
      (show ("\" " : String).data = ['"', ' '] from rfl),
      (show ("\"" : String).data = ['"'] from rfl)]
  · simp only [chunkTok, List.map_append, List.map_cons, List.map_nil,
      List.cons_append, List.nil_append]
    rw [rdataParse,
      show rdataShape "NS" = [.fname] from rfl]
    simp only [parseFields, parseField, parseNatTok_natRepr, Except.map]
    rw [show mkRData "NS" [.name n] =
      some (.NS n) from rfl]

theorem rdata_chunks_MX (p : Nat) (m : String)
    (hwf : WFData (.MX p m)) :
    ∃ (l' : List (Chunk × Nat)) (c : Chunk),
      ChunksOk (l' ++ [(c, 0)]) ∧
      (serializeRecordData (.MX p m)).data =
        (chunksWithPad (l' ++ [(c, 0)])).data ∧
      rdataParse "MX" ((l' ++ [(c, 0)]).map (fun p : Chunk × Nat => chunkTok p.1)) =
        .ok (.MX p m) := by
  have h1 : atomToken m = true := hwf
  refine ⟨[(.atomC (natRepr p), 1)], .atomC m, ?_, ?_, ?_⟩
  · simp [ChunksOk, WFChunk, atomToken_natRepr, h1]
  · simp [serializeRecordData, chunksWithPad, chunkStr, String.data_append, data_mk,
      (show (" " : String).data = [' '] from rfl),
      (show (" \"" : String).data = [' ', '"'] from rfl),
      (show ("\" \"" : String).data = ['"', ' ', '"'] from rfl),
      (show ("\" " : String).data = ['"', ' '] from rfl),
      (show ("\"" : String).data = ['"'] from rfl)]
  · simp only [chunkTok, List.map_append, List.map_cons, List.map_nil,
      List.cons_append, List.nil_append]
    rw [rdataParse,
      show rdataShape "MX" = [.fnat, .fname] from rfl]
    simp only [parseFields, parseField, parseNatTok_natRepr, Except.map]
    rw [show mkRData "MX" [.nat p, .name m] =
      some (.MX p m) from rfl]

theorem rdata_chunks_A (ip : String)
    (hwf : WFData (.A ip)) :
    ∃ (l' : List (Chunk × Nat)) (c : Chunk),
      ChunksOk (l' ++ [(c, 0)]) ∧
      (serializeRecordData (.A ip)).data =
        (chunksWithPad (l' ++ [(c, 0)])).data ∧
      rdataParse "A" ((l' ++ [(c, 0)]).map (fun p : Chunk × Nat => chunkTok p.1)) =
        .ok (.A ip) := by
  have h1 : atomToken ip = true := hwf
  refine ⟨[], .atomC ip, ?_, ?_, ?_⟩
  · simp [ChunksOk, WFChunk, atomToken_natRepr, h1]
  · simp [serializeRecordData, chunksWithPad, chunkStr, String.data_append, data_mk,
      (show (" " : String).data = [' '] from rfl),
      (show (" \"" : String).data = [' ', '"'] from rfl),
      (show ("\" \"" : String).data = ['"', ' ', '"'] from rfl),
      (show ("\" " : String).data = ['"', ' '] from rfl),
      (show ("\"" : String).data = ['"'] from rfl)]
  · simp only [chunkTok, List.map_append, List.map_cons, List.map_nil,
      List.cons_append, List.nil_append]
    rw [rdataParse,
      show rdataShape "A" = [.fname] from rfl]
    simp only [parseFields, parseField, parseNatTok_natRepr, Except.map]
    rw [show mkRData "A" [.name ip] =
      some (.A ip) from rfl]

theorem rdata_chunks_CNAME (cn : String)
    (hwf : WFData (.CNAME cn)) :
    ∃ (l' : List (Chunk × Nat)) (c : Chunk),
      ChunksOk (l' ++ [(c, 0)]) ∧
      (serializeRecordData (.CNAME cn)).data =
        (chunksWithPad (l' ++ [(c, 0)])).data ∧
      rdataParse "CNAME" ((l' ++ [(c, 0)]).map (fun p : Chunk × Nat => chunkTok p.1)) =
        .ok (.CNAME cn) := by
  have h1 : atomToken cn = true := hwf
  refine ⟨[], .atomC cn, ?_, ?_, ?_⟩
  · simp [ChunksOk, WFChunk, atomToken_natRepr, h1]
  · simp [serializeRecordData, chunksWithPad, chunkStr, String.data_append, data_mk,
      (show (" " : String).data = [' '] from rfl),
      (show (" \"" : String).data = [' ', '"'] from rfl),
      (show ("\" \"" : String).data = ['"', ' ', '"'] from rfl),
      (show ("\" " : String).data = ['"', ' '] from rfl),
      (show ("\"" : String).data = ['"'] from rfl)]
  · simp only [chunkTok, List.map_append, List.map_cons, List.map_nil,
      List.cons_append, List.nil_append]
    rw [rdataParse,
      show rdataShape "CNAME" = [.fname] from rfl]
    simp only [parseFields, parseField, parseNatTok_natRepr, Except.map]
    rw [show mkRData "CNAME" [.name cn] =
      some (.CNAME cn) from rfl]

theorem rdata_chunks_PTR (pd : String)
    (hwf : WFData (.PTR pd)) :
    ∃ (l' : List (Chunk × Nat)) (c : Chunk),
      ChunksOk (l' ++ [(c, 0)]) ∧
      (serializeRecordData (.PTR pd)).data =
        (chunksWithPad (l' ++ [(c, 0)])).data ∧
      rdataParse "PTR" ((l' ++ [(c, 0)]).map (fun p : Chunk × Nat => chunkTok p.1)) =
        .ok (.PTR pd) := by
  have h1 : atomToken pd = true := hwf
  refine ⟨[], .atomC pd, ?_, ?_, ?_⟩
  · simp [ChunksOk, WFChunk, atomToken_natRepr, h1]
  · simp [serializeRecordData, chunksWithPad, chunkStr, String.data_append, data_mk,
      (show (" " : String).data = [' '] from rfl),
      (show (" \"" : String).data = [' ', '"'] from rfl),
      (show ("\" \"" : String).data = ['"', ' ', '"'] from rfl),
      (show ("\" " : String).data = ['"', ' '] from rfl),
      (show ("\"" : String).data = ['"'] from rfl)]
  · simp only [chunkTok, List.map_append, List.map_cons, List.map_nil,
      List.cons_append, List.nil_append]
    rw [rdataParse,
      show rdataShape "PTR" = [.fname] from rfl]
    simp only [parseFields, parseField, parseNatTok_natRepr, Except.map]
    rw [show mkRData "PTR" [.name pd] =
      some (.PTR pd) from rfl]

theorem rdata_chunks_DNAME (tg : String)
    (hwf : WFData (.DNAME tg)) :
    ∃ (l' : List (Chunk × Nat)) (c : Chunk),
      ChunksOk (l' ++ [(c, 0)]) ∧
      (serializeRecordData (.DNAME tg)).data =
        (chunksWithPad (l' ++ [(c, 0)])).data ∧
      rdataParse "DNAME" ((l' ++ [(c, 0)]).map (fun p : Chunk × Nat => chunkTok p.1)) =
        .ok (.DNAME tg) := by
  have h1 : atomToken tg = true := hwf
  refine ⟨[], .atomC tg, ?_, ?_, ?_⟩
  · simp [ChunksOk, WFChunk, atomToken_natRepr, h1]
  · simp [serializeRecordData, chunksWithPad, chunkStr, String.data_append, data_mk,
      (show (" " : String).data = [' '] from rfl),
      (show (" \"" : String).data = [' ', '"'] from rfl),
      (show ("\" \"" : String).data = ['"', ' ', '"'] from rfl),
      (show ("\" " : String).data = ['"', ' '] from rfl),
      (show ("\"" : String).data = ['"'] from rfl)]
  · simp only [chunkTok, List.map_append, List.map_cons, List.map_nil,
      List.cons_append, List.nil_append]
    rw [rdataParse,
      show rdataShape "DNAME" = [.fname] from rfl]
    simp only [parseFields, parseField, parseNatTok_natRepr, Except.map]
    rw [show mkRData "DNAME" [.name tg] =
      some (.DNAME tg) from rfl]

theorem rdata_chunks_SRV (p w po : Nat) (tg : String)
    (hwf : WFData (.SRV p w po tg)) :
    ∃ (l' : List (Chunk × Nat)) (c : Chunk),
      ChunksOk (l' ++ [(c, 0)]) ∧
      (serializeRecordData (.SRV p w po tg)).data =
        (chunksWithPad (l' ++ [(c, 0)])).data ∧
      rdataParse "SRV" ((l' ++ [(c, 0)]).map (fun p : Chunk × Nat => chunkTok p.1)) =
        .ok (.SRV p w po tg) := by
  have h1 : atomToken tg = true := hwf
  refine ⟨[(.atomC (natRepr p), 1), (.atomC (natRepr w), 1), (.atomC (natRepr po), 1)], .atomC tg, ?_, ?_, ?_⟩
  · simp [ChunksOk, WFChunk, atomToken_natRepr, h1]
  · simp [serializeRecordData, chunksWithPad, chunkStr, String.data_append, data_mk,
      (show (" " : String).data = [' '] from rfl),
      (show (" \"" : String).data = [' ', '"'] from rfl),
      (show ("\" \"" : String).data = ['"', ' ', '"'] from rfl),
      (show ("\" " : String).data = ['"', ' '] from rfl),
      (show ("\"" : String).data = ['"'] from rfl)]
  · simp only [chunkTok, List.map_append, List.map_cons, List.map_nil,
      List.cons_append, List.nil_append]
    rw [rdataParse,
      show rdataShape "SRV" = [.fnat, .fnat, .fnat, .fname] from rfl]
    simp only [parseFields, parseField, parseNatTok_natRepr, Except.map]
    rw [show mkRData "SRV" [.nat p, .nat w, .nat po, .name tg] =
      some (.SRV p w po tg) from rfl]

theorem rdata_chunks_DNSKEY (f p a : Nat) (k : String)
    (hwf : WFData (.DNSKEY f p a k)) :
    ∃ (l' : List (Chunk × Nat)) (c : Chunk),
      ChunksOk (l' ++ [(c, 0)]) ∧
      (serializeRecordData (.DNSKEY f p a k)).data =
        (chunksWithPad (l' ++ [(c, 0)])).data ∧
      rdataParse "DNSKEY" ((l' ++ [(c, 0)]).map (fun p : Chunk × Nat => chunkTok p.1)) =
        .ok (.DNSKEY f p a k) := by
  have h1 : atomToken k = true := hwf
  refine ⟨[(.atomC (natRepr f), 1), (.atomC (natRepr p), 1), (.atomC (natRepr a), 1)], .atomC k, ?_, ?_, ?_⟩
  · simp [ChunksOk, WFChunk, atomToken_natRepr, h1]
  · simp [serializeRecordData, chunksWithPad, chunkStr, String.data_append, data_mk,
      (show (" " : String).data = [' '] from rfl),
      (show (" \"" : String).data = [' ', '"'] from rfl),
      (show ("\" \"" : String).data = ['"', ' ', '"'] from rfl),
      (show ("\" " : String).data = ['"', ' '] from rfl),
      (show ("\"" : String).data = ['"'] from rfl)]
  · simp only [chunkTok, List.map_append, List.map_cons, List.map_nil,
      List.cons_append, List.nil_append]
    rw [rdataParse,
      show rdataShape "DNSKEY" = [.fnat, .fnat, .fnat, .fname] from rfl]
    simp only [parseFields, parseField, parseNatTok_natRepr, Except.map]
    rw [show mkRData "DNSKEY" [.nat f, .nat p, .nat a, .name k] =
      some (.DNSKEY f p a k) from rfl]

theorem rdata_chunks_DS (kt a dt : Nat) (d : String)
    (hwf : WFData (.DS kt a dt d)) :
    ∃ (l' : List (Chunk × Nat)) (c : Chunk),
      ChunksOk (l' ++ [(c, 0)]) ∧
      (serializeRecordData (.DS kt a dt d)).data =
        (chunksWithPad (l' ++ [(c, 0)])).data ∧
      rdataParse "DS" ((l' ++ [(c, 0)]).map (fun p : Chunk × Nat => chunkTok p.1)) =
        .ok (.DS kt a dt d) := by
  have h1 : atomToken d = true := hwf
  refine ⟨[(.atomC (natRepr kt), 1), (.atomC (natRepr a), 1), (.atomC (natRepr dt), 1)], .atomC d, ?_, ?_, ?_⟩
  · simp [ChunksOk, WFChunk, atomToken_natRepr, h1]
  · simp [serializeRecordData, chunksWithPad, chunkStr, String.data_append, data_mk,
      (show (" " : String).data = [' '] from rfl),
      (show (" \"" : String).data = [' ', '"'] from rfl),
      (show ("\" \"" : String).data = ['"', ' ', '"'] from rfl),
      (show ("\" " : String).data = ['"', ' '] from rfl),
      (show ("\"" : String).data = ['"'] from rfl)]
  · simp only [chunkTok, List.map_append, List.map_cons, List.map_nil,
      List.cons_append, List.nil_append]
    rw [rdataParse,
      show rdataShape "DS" = [.fnat, .fnat, .fnat, .fname] from rfl]
    simp only [parseFields, parseField, parseNatTok_natRepr, Except.map]
    rw [show mkRData "DS" [.nat kt, .nat a, .nat dt, .name d] =
      some (.DS kt a dt d) from rfl]

theorem rdata_chunks_TLSA (u sel mt : Nat) (ct : String)
    (hwf : WFData (.TLSA u sel mt ct)) :
    ∃ (l' : List (Chunk × Nat)) (c : Chunk),
      ChunksOk (l' ++ [(c, 0)]) ∧
      (serializeRecordData (.TLSA u sel mt ct)).data =
        (chunksWithPad (l' ++ [(c, 0)])).data ∧
      rdataParse "TLSA" ((l' ++ [(c, 0)]).map (fun p : Chunk × Nat => chunkTok p.1)) =
        .ok (.TLSA u sel mt ct) := by
  have h1 : atomToken ct = true := hwf
  refine ⟨[(.atomC (natRepr u), 1), (.atomC (natRepr sel), 1), (.atomC (natRepr mt), 1)], .atomC ct, ?_, ?_, ?_⟩
  · simp [ChunksOk, WFChunk, atomToken_natRepr, h1]
  · simp [serializeRecordData, chunksWithPad, chunkStr, String.data_append, data_mk,
      (show (" " : String).data = [' '] from rfl),
      (show (" \"" : String).data = [' ', '"'] from rfl),
      (show ("\" \"" : String).data = ['"', ' ', '"'] from rfl),
      (show ("\" " : String).data = ['"', ' '] from rfl),
      (show ("\"" : String).data = ['"'] from rfl)]
  · simp only [chunkTok, List.map_append, List.map_cons, List.map_nil,
      List.cons_append, List.nil_append]
    rw [rdataParse,
      show rdataShape "TLSA" = [.fnat, .fnat, .fnat, .fname] from rfl]
    simp only [parseFields, parseField, parseNatTok_natRepr, Except.map]
    rw [show mkRData "TLSA" [.nat u, .nat sel, .nat mt, .name ct] =
      some (.TLSA u sel mt ct) from rfl]

theorem rdata_chunks_ZONEMD (se sc ha : Nat) (d : String)
    (hwf : WFData (.ZONEMD se sc ha d)) :
    ∃ (l' : List (Chunk × Nat)) (c : Chunk),
      ChunksOk (l' ++ [(c, 0)]) ∧
      (serializeRecordData (.ZONEMD se sc ha d)).data =
        (chunksWithPad (l' ++ [(c, 0)])).data ∧
      rdataParse "ZONEMD" ((l' ++ [(c, 0)]).map (fun p : Chunk × Nat => chunkTok p.1)) =
        .ok (.ZONEMD se sc ha d) := by
  have h1 : atomToken d = true := hwf
  refine ⟨[(.atomC (natRepr se), 1), (.atomC (natRepr sc), 1), (.atomC (natRepr ha), 1)], .atomC d, ?_, ?_, ?_⟩
  · simp [ChunksOk, WFChunk, atomToken_natRepr, h1]
  · simp [serializeRecordData, chunksWithPad, chunkStr, String.data_append, data_mk,
      (show (" " : String).data = [' '] from rfl),
      (show (" \"" : String).data = [' ', '"'] from rfl),
      (show ("\" \"" : String).data = ['"', ' ', '"'] from rfl),
      (show ("\" " : String).data = ['"', ' '] from rfl),
      (show ("\"" : String).data = ['"'] from rfl)]
  · simp only [chunkTok, List.map_append, List.map_cons, List.map_nil,
      List.cons_append, List.nil_append]
    rw [rdataParse,
      show rdataShape "ZONEMD" = [.fnat, .fnat, .fnat, .fname] from rfl]
    simp only [parseFields, parseField, parseNatTok_natRepr, Except.map]
    rw [show mkRData "ZONEMD" [.nat se, .nat sc, .nat ha, .name d] =
      some (.ZONEMD se sc ha d) from rfl]

theorem rdata_chunks_SSHFP (a ft : Nat) (f : String)
    (hwf : WFData (.SSHFP a ft f)) :
    ∃ (l' : List (Chunk × Nat)) (c : Chunk),
      ChunksOk (l' ++ [(c, 0)]) ∧
      (serializeRecordData (.SSHFP a ft f)).data =
        (chunksWithPad (l' ++ [(c, 0)])).data ∧
      rdataParse "SSHFP" ((l' ++ [(c, 0)]).map (fun p : Chunk × Nat => chunkTok p.1)) =
        .ok (.SSHFP a ft f) := by
  have h1 : atomToken f = true := hwf
  refine ⟨[(.atomC (natRepr a), 1), (.atomC (natRepr ft), 1)], .atomC f, ?_, ?_, ?_⟩
  · simp [ChunksOk, WFChunk, atomToken_natRepr, h1]
  · simp [serializeRecordData, chunksWithPad, chunkStr, String.data_append, data_mk,
      (show (" " : String).data = [' '] from rfl),
      (show (" \"" : String).data = [' ', '"'] from rfl),
      (show ("\" \"" : String).data = ['"', ' ', '"'] from rfl),
      (show ("\" " : String).data = ['"', ' '] from rfl),
      (show ("\"" : String).data = ['"'] from rfl)]
  · simp only [chunkTok, List.map_append, List.map_cons, List.map_nil,
      List.cons_append, List.nil_append]
    rw [rdataParse,
      show rdataShape "SSHFP" = [.fnat, .fnat, .fname] from rfl]
    simp only [parseFields, parseField, parseNatTok_natRepr, Except.map]
    rw [show mkRData "SSHFP" [.nat a, .nat ft, .name f] =
      some (.SSHFP a ft f) from rfl]

theorem rdata_chunks_RRSIG (tc : String) (a l ot exp inc kt : Nat) (sg sig : String)
    (hwf : WFData (.RRSIG tc a l ot exp inc kt sg sig)) :
    ∃ (l' : List (Chunk × Nat)) (c : Chunk),
      ChunksOk (l' ++ [(c, 0)]) ∧
      (serializeRecordData (.RRSIG tc a l ot exp inc kt sg sig)).data =
        (chunksWithPad (l' ++ [(c, 0)])).data ∧
      rdataParse "RRSIG" ((l' ++ [(c, 0)]).map (fun p : Chunk × Nat => chunkTok p.1)) =
        .ok (.RRSIG tc a l ot exp inc kt sg sig) := by
  obtain ⟨h1, h2, h3⟩ : atomToken tc = true ∧ atomToken sg = true ∧ atomToken sig = true := hwf
  refine ⟨[(.atomC tc, 1), (.atomC (natRepr a), 1), (.atomC (natRepr l), 1), (.atomC (natRepr ot), 1), (.atomC (natRepr exp), 1), (.atomC (natRepr inc), 1), (.atomC (natRepr kt), 1), (.atomC sg, 1)], .atomC sig, ?_, ?_, ?_⟩
  · simp [ChunksOk, WFChunk, atomToken_natRepr, h1, h2, h3]
  · simp [serializeRecordData, chunksWithPad, chunkStr, String.data_append, data_mk,
      (show (" " : String).data = [' '] from rfl),
      (show (" \"" : String).data = [' ', '"'] from rfl),
      (show ("\" \"" : String).data = ['"', ' ', '"'] from rfl),
      (show ("\" " : String).data = ['"', ' '] from rfl),
      (show ("\"" : String).data = ['"'] from rfl)]
  · simp only [chunkTok, List.map_append, List.map_cons, List.map_nil,
      List.cons_append, List.nil_append]
    rw [rdataParse,
      show rdataShape "RRSIG" = [.fname, .fnat, .fnat, .fnat, .fnat, .fnat, .fnat, .fname, .fname] from rfl]
    simp only [parseFields, parseField, parseNatTok_natRepr, Except.map]
    rw [show mkRData "RRSIG" [.name tc, .nat a, .nat l, .nat ot, .nat exp, .nat inc, .nat kt, .name sg, .name sig] =
      some (.RRSIG tc a l ot exp inc kt sg sig) from rfl]

theorem rdata_chunks_HINFO (cp os : String)
    (hwf : WFData (.HINFO cp os)) :
    ∃ (l' : List (Chunk × Nat)) (c : Chunk),
      ChunksOk (l' ++ [(c, 0)]) ∧
      (serializeRecordData (.HINFO cp os)).data =
        (chunksWithPad (l' ++ [(c, 0)])).data ∧
      rdataParse "HINFO" ((l' ++ [(c, 0)]).map (fun p : Chunk × Nat => chunkTok p.1)) =
        .ok (.HINFO cp os) := by
  obtain ⟨h1, h2⟩ : noQuoteChar cp = true ∧ noQuoteChar os = true := hwf
  refine ⟨[(.quotedC cp, 1)], .quotedC os, ?_, ?_, ?_⟩
  · simp [ChunksOk, WFChunk, atomToken_natRepr, h1, h2]
  · simp [serializeRecordData, chunksWithPad, chunkStr, String.data_append, data_mk,
      (show (" " : String).data = [' '] from rfl),
      (show (" \"" : String).data = [' ', '"'] from rfl),
      (show ("\" \"" : String).data = ['"', ' ', '"'] from rfl),
      (show ("\" " : String).data = ['"', ' '] from rfl),
      (show ("\"" : String).data = ['"'] from rfl)]
  · simp only [chunkTok, List.map_append, List.map_cons, List.map_nil,
      List.cons_append, List.nil_append]
    rw [rdataParse,
      show rdataShape "HINFO" = [.ftext, .ftext] from rfl]
    simp only [parseFields, parseField, parseNatTok_natRepr, Except.map]
    rw [show mkRData "HINFO" [.text cp, .text os] =
      some (.HINFO cp os) from rfl]

theorem rdata_chunks_SPF (t : String)
    (hwf : WFData (.SPF t)) :
    ∃ (l' : List (Chunk × Nat)) (c : Chunk),
      ChunksOk (l' ++ [(c, 0)]) ∧
      (serializeRecordData (.SPF t)).data =
        (chunksWithPad (l' ++ [(c, 0)])).data ∧
      rdataParse "SPF" ((l' ++ [(c, 0)]).map (fun p : Chunk × Nat => chunkTok p.1)) =
        .ok (.SPF t) := by
  have h1 : noQuoteChar t = true := hwf
  refine ⟨[], .quotedC t, ?_, ?_, ?_⟩
  · simp [ChunksOk, WFChunk, atomToken_natRepr, h1]
  · simp [serializeRecordData, chunksWithPad, chunkStr, String.data_append, data_mk,
      (show (" " : String).data = [' '] from rfl),
      (show (" \"" : String).data = [' ', '"'] from rfl),
      (show ("\" \"" : String).data = ['"', ' ', '"'] from rfl),
      (show ("\" " : String).data = ['"', ' '] from rfl),
      (show ("\"" : String).data = ['"'] from rfl)]
  · simp only [chunkTok, List.map_append, List.map_cons, List.map_nil,
      List.cons_append, List.nil_append]
    rw [rdataParse,
      show rdataShape "SPF" = [.ftext] from rfl]
    simp only [parseFields, parseField, parseNatTok_natRepr, Except.map]
    rw [show mkRData "SPF" [.text t] =
      some (.SPF t) from rfl]

theorem rdata_chunks_NAPTR (o p : Nat) (f s re rp : String)
    (hwf : WFData (.NAPTR o p f s re rp)) :
    ∃ (l' : List (Chunk × Nat)) (c : Chunk),
      ChunksOk (l' ++ [(c, 0)]) ∧
      (serializeRecordData (.NAPTR o p f s re rp)).data =
        (chunksWithPad (l' ++ [(c, 0)])).data ∧
      rdataParse "NAPTR" ((l' ++ [(c, 0)]).map (fun p : Chunk × Nat => chunkTok p.1)) =
        .ok (.NAPTR o p f s re rp) := by
  obtain ⟨h1, h2, h3, h4⟩ : noQuoteChar f = true ∧ noQuoteChar s = true ∧ noQuoteChar re = true ∧ atomToken rp = true := hwf
  refine ⟨[(.atomC (natRepr o), 1), (.atomC (natRepr p), 1), (.quotedC f, 1), (.quotedC s, 1), (.quotedC re, 1)], .atomC rp, ?_, ?_, ?_⟩
  · simp [ChunksOk, WFChunk, atomToken_natRepr, h1, h2, h3, h4]
  · simp [serializeRecordData, chunksWithPad, chunkStr, String.data_append, data_mk,
      (show (" " : String).data = [' '] from rfl),
      (show (" \"" : String).data = [' ', '"'] from rfl),
      (show ("\" \"" : String).data = ['"', ' ', '"'] from rfl),
      (show ("\" " : String).data = ['"', ' '] from rfl),
      (show ("\"" : String).data = ['"'] from rfl)]
  · simp only [chunkTok, List.map_append, List.map_cons, List.map_nil,
      List.cons_append, List.nil_append]
    rw [rdataParse,
      show rdataShape "NAPTR" = [.fnat, .fnat, .ftext, .ftext, .ftext, .fname] from rfl]
    simp only [parseFields, parseField, parseNatTok_natRepr, Except.map]
    rw [show mkRData "NAPTR" [.nat o, .nat p, .text f, .text s, .text re, .name rp] =
      some (.NAPTR o p f s re rp) from rfl]


end Zonefile
namespace Zonefile

theorem rdata_chunks_AAAA (ip : String) (hwf : WFData (.AAAA ip)) :
    ∃ (l' : List (Chunk × Nat)) (c : Chunk),
      ChunksOk (l' ++ [(c, 0)]) ∧
      (serializeRecordData (.AAAA ip)).data = (chunksWithPad (l' ++ [(c, 0)])).data ∧
      rdataParse "AAAA" ((l' ++ [(c, 0)]).map (fun p : Chunk × Nat => chunkTok p.1)) =
        .ok (.AAAA ip) := by
  obtain ⟨h1, h2⟩ : atomToken ip = true ∧ isIPv6 ip = true := hwf
  refine ⟨[], .atomC ip, ?_, ?_, ?_⟩
  · simp [ChunksOk, WFChunk, h1]
  · simp [serializeRecordData, chunksWithPad, chunkStr, String.data_append, data_mk]
  · simp only [chunkTok, List.map_cons, List.map_nil, List.nil_append]
    rw [rdataParse, show rdataShape "AAAA" = [.fip6] from rfl]
    simp only [parseFields, parseField, h2, if_true, Except.map]
    rw [show mkRData "AAAA" [.name ip] = some (.AAAA ip) from rfl]

theorem rdata_chunks_TXT (t : String) (hwf : WFData (.TXT t))
    (hs : dataSafe (.TXT t) = true) :
    ∃ (l' : List (Chunk × Nat)) (c : Chunk),
      ChunksOk (l' ++ [(c, 0)]) ∧
      (serializeRecordData (.TXT t)).data = (chunksWithPad (l' ++ [(c, 0)])).data ∧
      rdataParse "TXT" ((l' ++ [(c, 0)]).map (fun p : Chunk × Nat => chunkTok p.1)) =
        .ok (.TXT t) := by
  have h1 : noQuoteChar t = true := hwf
  have hs' : txtBareOk t = true := hs
  by_cases hws : (t.data.contains ' ' || t.data.contains '\t') = true
  · refine ⟨[], .quotedC t, h1, ?_, ?_⟩
    · simp only [serializeRecordData, hws, if_true]
      simp [chunksWithPad, chunkStr, String.data_append, data_mk,
        (show ("\"" : String).data = ['"'] from rfl)]
    · simp only [chunkTok, List.map_cons, List.map_nil, List.nil_append]
      rw [rdataParse, show rdataShape "TXT" = [.ftext] from rfl]
      simp only [parseFields, parseField, Except.map]
      rw [show mkRData "TXT" [.text t] = some (.TXT t) from rfl]
  · have hat : atomToken t = true := by
      rw [txtBareOk] at hs'
      rw [if_neg hws] at hs'
      exact hs'
    refine ⟨[], .atomC t, hat, ?_, ?_⟩
    · simp only [serializeRecordData, hws, if_false]
      simp [chunksWithPad, chunkStr, String.data_append, data_mk]
    · simp only [chunkTok, List.map_cons, List.map_nil, List.nil_append]
      rw [rdataParse, show rdataShape "TXT" = [.ftext] from rfl]
      simp only [parseFields, parseField, Except.map]
      rw [show mkRData "TXT" [.text t] = some (.TXT t) from rfl]

theorem rdata_chunks_CAA (f : Nat) (tg v : String) (hwf : WFData (.CAA f tg v))
    (hs : dataSafe (.CAA f tg v) = true) :
    ∃ (l' : List (Chunk × Nat)) (c : Chunk),
      ChunksOk (l' ++ [(c, 0)]) ∧
      (serializeRecordData (.CAA f tg v)).data = (chunksWithPad (l' ++ [(c, 0)])).data ∧
      rdataParse "CAA" ((l' ++ [(c, 0)]).map (fun p : Chunk × Nat => chunkTok p.1)) =
        .ok (.CAA f tg v) := by
  obtain ⟨h1, h2⟩ : noQuoteChar tg = true ∧ noQuoteChar v = true := hwf
  have hat : atomToken tg = true := hs
  refine ⟨[(.atomC (natRepr f), 1), (.atomC tg, 1)], .quotedC v, ?_, ?_, ?_⟩
  · simp [ChunksOk, WFChunk, atomToken_natRepr, hat, h2]
  · simp [serializeRecordData, chunksWithPad, chunkStr, String.data_append, data_mk,
      (show (" " : String).data = [' '] from rfl),
      (show (" \"" : String).data = [' ', '"'] from rfl),
      (show ("\"" : String).data = ['"'] from rfl)]
  · simp only [chunkTok, List.map_append, List.map_cons, List.map_nil,
      List.cons_append, List.nil_append]
    rw [rdataParse, show rdataShape "CAA" = [.fnat, .ftext, .ftext] from rfl]
    simp only [parseFields, parseField, parseNatTok_natRepr, Except.map]
    rw [show mkRData "CAA" [.nat f, .text tg, .text v] = some (.CAA f tg v) from rfl]

theorem rdata_chunks_NSEC (nd : String) (ws : List String) (hwf : WFData (.NSEC nd ws)) :
    ∃ (l' : List (Chunk × Nat)) (c : Chunk),
      ChunksOk (l' ++ [(c, 0)]) ∧
      (serializeRecordData (.NSEC nd ws)).data = (chunksWithPad (l' ++ [(c, 0)])).data ∧
      rdataParse "NSEC" ((l' ++ [(c, 0)]).map (fun p : Chunk × Nat => chunkTok p.1)) =
        .ok (.NSEC nd ws) := by
  obtain ⟨h1, hne, hall⟩ :
      atomToken nd = true ∧ ws ≠ [] ∧ ∀ w ∈ ws, atomToken w = true := hwf
  obtain ⟨lw, cw, hok, hdata, htoks⟩ := joinSpace_chunk_form ws hne hall
  refine ⟨(.atomC nd, 1) :: lw, cw, ?_, ?_, ?_⟩
  · cases hlw : lw ++ [(cw, 0)] with
    | nil => simp at hlw
    | cons q qs =>
        rw [List.cons_append, hlw]
        exact ⟨h1, le_refl 1, by rw [← hlw]; exact hok⟩
  · rw [show serializeRecordData (.NSEC nd ws) = nd ++ " " ++ joinSpace ws from rfl]
    rw [List.cons_append]
    rw [show chunksWithPad ((Chunk.atomC nd, 1) :: (lw ++ [(cw, 0)])) =
      chunkStr (.atomC nd) ++ (⟨List.replicate 1 ' '⟩ : String) ++
        chunksWithPad (lw ++ [(cw, 0)]) from rfl]
    simp [String.data_append, data_mk, hdata, chunkStr,
      (show (" " : String).data = [' '] from rfl)]
  · rw [List.cons_append, List.map_cons, htoks]
    cases ws with
    | nil => exact absurd rfl hne
    | cons w0 ws0 =>
        rw [show chunkTok (.atomC nd) = Tok.atom nd from rfl]
        rw [rdataParse, show rdataShape "NSEC" = [.fname, .frest] from rfl]
        simp only [List.map_cons]
        have hra : restAtoms (Tok.atom w0 :: List.map Tok.atom ws0) = some (w0 :: ws0) := by
          simpa using restAtoms_map (w0 :: ws0)
        simp only [parseFields, parseField, hra, Except.map]
        rw [show mkRData "NSEC" [.name nd, .rest (w0 :: ws0)] =
          some (.NSEC nd (w0 :: ws0)) from rfl]

theorem rdata_chunks_LOC (content : String) (hwf : WFData (.LOC content)) :
    ∃ (l' : List (Chunk × Nat)) (c : Chunk),
      ChunksOk (l' ++ [(c, 0)]) ∧
      (serializeRecordData (.LOC content)).data = (chunksWithPad (l' ++ [(c, 0)])).data ∧
      rdataParse "LOC" ((l' ++ [(c, 0)]).map (fun p : Chunk × Nat => chunkTok p.1)) =
        .ok (.LOC content) := by
  obtain ⟨ws, hne, hall, hcontent⟩ :
      ∃ ws, ws ≠ [] ∧ (∀ w ∈ ws, atomToken w = true) ∧ content = joinSpace ws := hwf
  obtain ⟨lw, cw, hok, hdata, htoks⟩ := joinSpace_chunk_form ws hne hall
  refine ⟨lw, cw, hok, ?_, ?_⟩
  · rw [show serializeRecordData (.LOC content) = content from rfl, hcontent]
    exact hdata
  · rw [htoks]
    cases ws with
    | nil => exact absurd rfl hne
    | cons w0 ws0 =>
        rw [rdataParse, show rdataShape "LOC" = [.frest] from rfl]
        simp only [List.map_cons]
        have hra : restAtoms (Tok.atom w0 :: List.map Tok.atom ws0) = some (w0 :: ws0) := by
          simpa using restAtoms_map (w0 :: ws0)
        simp only [parseFields, parseField, hra, Except.map]
        rw [show mkRData "LOC" [.rest (w0 :: ws0)] =
          some (.LOC (joinSpace (w0 :: ws0))) from rfl]
        rw [hcontent]


theorem atomToken_recordType (d : RData) : atomToken d.recordType = true := by
  cases d <;> rfl

theorem rdata_chunks (d : RData) (hwf : WFData d) (hs : dataSafe d = true) :
    ∃ (l' : List (Chunk × Nat)) (c : Chunk),
      ChunksOk (l' ++ [(c, 0)]) ∧
      (serializeRecordData d).data = (chunksWithPad (l' ++ [(c, 0)])).data ∧
      rdataParse d.recordType ((l' ++ [(c, 0)]).map (fun p : Chunk × Nat => chunkTok p.1)) =
        .ok d := by
  cases d with
  | SOA mn rn se rf rt ex mi => exact rdata_chunks_SOA mn rn se rf rt ex mi hwf
  | NS n => exact rdata_chunks_NS n hwf
  | MX p m => exact rdata_chunks_MX p m hwf
  | A ip => exact rdata_chunks_A ip hwf
  | AAAA ip => exact rdata_chunks_AAAA ip hwf
  | CNAME cn => exact rdata_chunks_CNAME cn hwf
  | PTR pd => exact rdata_chunks_PTR pd hwf
  | TXT t => exact rdata_chunks_TXT t hwf hs
  | SRV p w po tg => exact rdata_chunks_SRV p w po tg hwf
  | CAA f tg v => exact rdata_chunks_CAA f tg v hwf hs
  | DNSKEY f p a k => exact rdata_chunks_DNSKEY f p a k hwf
  | DS kt a dt dg => exact rdata_chunks_DS kt a dt dg hwf
  | RRSIG tc a l ot exp inc kt sg sig => exact rdata_chunks_RRSIG tc a l ot exp inc kt sg sig hwf
  | NSEC nd ws => exact rdata_chunks_NSEC nd ws hwf
  | TLSA u sel mt ct => exact rdata_chunks_TLSA u sel mt ct hwf
  | SSHFP a ft f => exact rdata_chunks_SSHFP a ft f hwf
  | DNAME tg => exact rdata_chunks_DNAME tg hwf
  | NAPTR o p f s re rp => exact rdata_chunks_NAPTR o p f s re rp hwf
  | LOC content => exact rdata_chunks_LOC content hwf
  | HINFO cp os => exact rdata_chunks_HINFO cp os hwf
  | SPF t => exact rdata_chunks_SPF t hwf
  | ZONEMD se sc ha dg => exact rdata_chunks_ZONEMD se sc ha dg hwf

theorem parseLine_cons_atom (leading : Bool) (s : String) (rest : List Tok) :
    parseLine (leading, .atom s :: rest) =
      if s.data.head? = some '$' then parseDirectiveLine s rest
      else parseRecordLine leading (.atom s :: rest) := by
  rw [parseLine]

theorem splitDomain_true (toks : List Tok) :
    splitDomain true toks = .ok ("", toks) := rfl

theorem ttlText_empty_dom {r : ZRecord} (hd : r.domain = "") : ttlText r = "" := by
  rw [ttlText]
  cases r.ttl with
  | none => rfl
  | some t => simp [hd]

theorem serializeRecord_inner (r : ZRecord) :
    serializeRecord r = trimEnd
      (padTo r.domain 18 ++ " " ++ (padTo (ttlText r) 6 ++ " " ++ (padTo r.rclass 4 ++ " " ++
        (padTo r.data.recordType 8 ++ " " ++ serializeRecordData r.data)))) := rfl

theorem chunksOk_last : ∀ (l : List (Chunk × Nat)) (c : Chunk) (k : Nat),
    ChunksOk (l ++ [(c, k)]) → WFChunk c := by
  intro l
  induction l with
  | nil => intro c k h; exact h
  | cons q qs ih =>
      intro c k h
      obtain ⟨cq, kq⟩ := q
      cases hlw : qs ++ [(c, k)] with
      | nil => simp at hlw
      | cons q2 qs2 =>
          rw [List.cons_append, hlw] at h
          have h' : WFChunk cq ∧ 1 ≤ kq ∧ ChunksOk (q2 :: qs2) := h
          exact ih c k (by rw [hlw]; exact h'.2.2)

theorem record_line_empty (r : ZRecord) (l' : List (Chunk × Nat)) (c : Chunk)
    (hd : r.domain = "")
    (hcls : atomToken r.rclass = true) (hclsns : r.rclass ∉ supportedRecordTypes)
    (hclsdollar : r.rclass.data.head? ≠ some '$')
    (hok : ChunksOk (l' ++ [(c, 0)]))
    (hsdata : (serializeRecordData r.data).data = (chunksWithPad (l' ++ [(c, 0)])).data)
    (hparse : rdataParse r.data.recordType
      ((l' ++ [(c, 0)]).map (fun p : Chunk × Nat => chunkTok p.1)) = .ok r.data) :
    ∃ (m : Nat) (l : List (Chunk × Nat)),
      ChunksOk l ∧ l ≠ [] ∧
      (serializeRecord r).data = List.replicate m ' ' ++ (chunksWithPad l).data ∧
      ∃ e', parseLine ((if m = 0 then false else true),
          l.map (fun p : Chunk × Nat => chunkTok p.1)) = .ok e' ∧
        entrySig e' = entrySig (.record r) := by
  refine ⟨26, (.atomC r.rclass, (4 - r.rclass.data.length) + 1) ::
    (.atomC r.data.recordType, (8 - r.data.recordType.data.length) + 1) ::
    (l' ++ [(c, 0)]), ?_, by simp, ?_, ?_⟩
  · refine ⟨hcls, by omega, ?_⟩
    cases hlw : l' ++ [(c, 0)] with
    | nil => simp at hlw
    | cons q qs =>
        exact ⟨atomToken_recordType r.data, by omega, by rw [← hlw]; exact hok⟩
  · have hinner : (padTo r.domain 18 ++ " " ++ (padTo (ttlText r) 6 ++ " " ++
        (padTo r.rclass 4 ++ " " ++ (padTo r.data.recordType 8 ++ " " ++
          serializeRecordData r.data)))).data =
        List.replicate 26 ' ' ++ (chunksWithPad
          (((.atomC r.rclass, (4 - r.rclass.data.length) + 1) ::
            (.atomC r.data.recordType, (8 - r.data.recordType.data.length) + 1) :: l') ++
            [(c, 0)])).data := by
      rw [show (26 : Nat) = 18 + 1 + (6 + 1) from rfl]
      simp [padTo, hd, ttlText_empty_dom hd, String.data_append, data_mk, hsdata,
        chunksWithPad, chunkStr, List.replicate_add,
        (show ("" : String).data = [] from rfl),
        (show (" " : String).data = [' '] from rfl), List.append_assoc]
    rw [serializeRecord_inner r]
    rw [show (padTo r.domain 18 ++ " " ++ (padTo (ttlText r) 6 ++ " " ++
        (padTo r.rclass 4 ++ " " ++ (padTo r.data.recordType 8 ++ " " ++
          serializeRecordData r.data)))) =
      ⟨List.replicate 26 ' ' ++ (chunksWithPad
          (((.atomC r.rclass, (4 - r.rclass.data.length) + 1) ::
            (.atomC r.data.recordType, (8 - r.data.recordType.data.length) + 1) :: l') ++
            [(c, 0)])).data⟩ from String.ext hinner]
    rw [trimEnd_chunks_end (List.replicate 26 ' ')
      ((.atomC r.rclass, (4 - r.rclass.data.length) + 1) ::
        (.atomC r.data.recordType, (8 - r.data.recordType.data.length) + 1) :: l') c
      (chunksOk_last l' c 0 hok)]
    rfl
  · obtain ⟨ttl', cls', hscan⟩ := scanType_clsrt r.rclass r.data.recordType
      ((l' ++ [(c, 0)]).map (fun p : Chunk × Nat => chunkTok p.1)) hclsns
      (recordType_mem r.data)
    refine ⟨.record ⟨"", ttl', cls'.getD "IN", r.data⟩, ?_, rfl⟩
    have hmap : List.map (fun p : Chunk × Nat => chunkTok p.1)
        ((Chunk.atomC r.rclass, 4 - r.rclass.data.length + 1) ::
          (Chunk.atomC r.data.recordType, 8 - r.data.recordType.data.length + 1) ::
          (l' ++ [(c, 0)])) =
        Tok.atom r.rclass :: Tok.atom r.data.recordType ::
          List.map (fun p : Chunk × Nat => chunkTok p.1) (l' ++ [(c, 0)]) := rfl
    rw [hmap]
    rw [show (if (26 : Nat) = 0 then false else true) = true from rfl]
    rw [parseLine_cons_atom, if_neg hclsdollar]
    simp only [parseRecordLine, splitDomain_true, ok_bind, hscan, hparse, pure, Except.pure]

theorem splitDomain_false (d : String) (rest : List Tok) :
    splitDomain false (.atom d :: rest) = .ok (d, rest) := rfl

theorem record_line_some (r : ZRecord) (t : Nat) (l' : List (Chunk × Nat)) (c : Chunk)
    (htl : r.ttl = some t)
    (hdom : atomToken r.domain = true) (hddollar : r.domain.data.head? ≠ some '$')
    (hcls : atomToken r.rclass = true) (hclsns : r.rclass ∉ supportedRecordTypes)
    (hok : ChunksOk (l' ++ [(c, 0)]))
    (hsdata : (serializeRecordData r.data).data = (chunksWithPad (l' ++ [(c, 0)])).data)
    (hparse : rdataParse r.data.recordType
      ((l' ++ [(c, 0)]).map (fun p : Chunk × Nat => chunkTok p.1)) = .ok r.data) :
    ∃ (m : Nat) (l : List (Chunk × Nat)),
      ChunksOk l ∧ l ≠ [] ∧
      (serializeRecord r).data = List.replicate m ' ' ++ (chunksWithPad l).data ∧
      ∃ e', parseLine ((if m = 0 then false else true),
          l.map (fun p : Chunk × Nat => chunkTok p.1)) = .ok e' ∧
        entrySig e' = entrySig (.record r) := by
  have hdne : r.domain ≠ "" := by
    intro h
    rw [h] at hdom
    exact absurd hdom (by decide)
  have httl : ttlText r = natRepr t := by
    rw [ttlText, htl]
    simp [hdne]
  refine ⟨0, (.atomC r.domain, (18 - r.domain.data.length) + 1) ::
    (.atomC (natRepr t), (6 - (natRepr t).data.length) + 1) ::
    (.atomC r.rclass, (4 - r.rclass.data.length) + 1) ::
    (.atomC r.data.recordType, (8 - r.data.recordType.data.length) + 1) ::
    (l' ++ [(c, 0)]), ?_, by simp, ?_, ?_⟩
  · refine ⟨hdom, by omega, atomToken_natRepr t, by omega, hcls, by omega, ?_⟩
    cases hlw : l' ++ [(c, 0)] with
    | nil => simp at hlw
    | cons q qs =>
        exact ⟨atomToken_recordType r.data, by omega, by rw [← hlw]; exact hok⟩
  · have hinner : (padTo r.domain 18 ++ " " ++ (padTo (ttlText r) 6 ++ " " ++
        (padTo r.rclass 4 ++ " " ++ (padTo r.data.recordType 8 ++ " " ++
          serializeRecordData r.data)))).data =
        List.replicate 0 ' ' ++ (chunksWithPad
          (((.atomC r.domain, (18 - r.domain.data.length) + 1) ::
            (.atomC (natRepr t), (6 - (natRepr t).data.length) + 1) ::
            (.atomC r.rclass, (4 - r.rclass.data.length) + 1) ::
            (.atomC r.data.recordType, (8 - r.data.recordType.data.length) + 1) :: l') ++
            [(c, 0)])).data := by
      simp [padTo, httl, String.data_append, data_mk, hsdata,
        chunksWithPad, chunkStr, List.replicate_add,
        (show (" " : String).data = [' '] from rfl), List.append_assoc]
    rw [serializeRecord_inner r]
    rw [show (padTo r.domain 18 ++ " " ++ (padTo (ttlText r) 6 ++ " " ++
        (padTo r.rclass 4 ++ " " ++ (padTo r.data.recordType 8 ++ " " ++
          serializeRecordData r.data)))) =
      ⟨List.replicate 0 ' ' ++ (chunksWithPad
          (((.atomC r.domain, (18 - r.domain.data.length) + 1) ::
            (.atomC (natRepr t), (6 - (natRepr t).data.length) + 1) ::
            (.atomC r.rclass, (4 - r.rclass.data.length) + 1) ::
            (.atomC r.data.recordType, (8 - r.data.recordType.data.length) + 1) :: l') ++
            [(c, 0)])).data⟩ from String.ext hinner]
    rw [trimEnd_chunks_end (List.replicate 0 ' ')
      ((.atomC r.domain, (18 - r.domain.data.length) + 1) ::
        (.atomC (natRepr t), (6 - (natRepr t).data.length) + 1) ::
        (.atomC r.rclass, (4 - r.rclass.data.length) + 1) ::
        (.atomC r.data.recordType, (8 - r.data.recordType.data.length) + 1) :: l') c
      (chunksOk_last l' c 0 hok)]
    rfl
  · have hscan := scanType_ttlclsrt t r.rclass r.data.recordType
      ((l' ++ [(c, 0)]).map (fun p : Chunk × Nat => chunkTok p.1)) hclsns
      (recordType_mem r.data)
    refine ⟨.record ⟨r.domain, some t, r.rclass, r.data⟩, ?_, rfl⟩
    have hmap : List.map (fun p : Chunk × Nat => chunkTok p.1)
        ((Chunk.atomC r.domain, 18 - r.domain.data.length + 1) ::
          (Chunk.atomC (natRepr t), 6 - (natRepr t).data.length + 1) ::
          (Chunk.atomC r.rclass, 4 - r.rclass.data.length + 1) ::
          (Chunk.atomC r.data.recordType, 8 - r.data.recordType.data.length + 1) ::
          (l' ++ [(c, 0)])) =
        Tok.atom r.domain :: Tok.atom (natRepr t) :: Tok.atom r.rclass ::
          Tok.atom r.data.recordType ::
          List.map (fun p : Chunk × Nat => chunkTok p.1) (l' ++ [(c, 0)]) := rfl
    rw [hmap]
    rw [show (if (0 : Nat) = 0 then false else true) = false from rfl]
    rw [parseLine_cons_atom, if_neg hddollar]
    simp only [parseRecordLine, splitDomain_false, ok_bind, hscan, hparse, Option.getD,
      pure, Except.pure]

theorem record_line_none (r : ZRecord) (l' : List (Chunk × Nat)) (c : Chunk)
    (htl : r.ttl = none)
    (hdom : atomToken r.domain = true) (hddollar : r.domain.data.head? ≠ some '$')
    (hcls : atomToken r.rclass = true) (hclsns : r.rclass ∉ supportedRecordTypes)
    (hok : ChunksOk (l' ++ [(c, 0)]))
    (hsdata : (serializeRecordData r.data).data = (chunksWithPad (l' ++ [(c, 0)])).data)
    (hparse : rdataParse r.data.recordType
      ((l' ++ [(c, 0)]).map (fun p : Chunk × Nat => chunkTok p.1)) = .ok r.data) :
    ∃ (m : Nat) (l : List (Chunk × Nat)),
      ChunksOk l ∧ l ≠ [] ∧
      (serializeRecord r).data = List.replicate m ' ' ++ (chunksWithPad l).data ∧
      ∃ e', parseLine ((if m = 0 then false else true),
          l.map (fun p : Chunk × Nat => chunkTok p.1)) = .ok e' ∧
        entrySig e' = entrySig (.record r) := by
  have httl : ttlText r = "" := by
    rw [ttlText, htl]
  refine ⟨0, (.atomC r.domain, (18 - r.domain.data.length) + 1 + (6 + 1)) ::
    (.atomC r.rclass, (4 - r.rclass.data.length) + 1) ::
    (.atomC r.data.recordType, (8 - r.data.recordType.data.length) + 1) ::
    (l' ++ [(c, 0)]), ?_, by simp, ?_, ?_⟩
  · refine ⟨hdom, by omega, hcls, by omega, ?_⟩
    cases hlw : l' ++ [(c, 0)] with
    | nil => simp at hlw
    | cons q qs =>
        exact ⟨atomToken_recordType r.data, by omega, by rw [← hlw]; exact hok⟩
  · have hinner : (padTo r.domain 18 ++ " " ++ (padTo (ttlText r) 6 ++ " " ++
        (padTo r.rclass 4 ++ " " ++ (padTo r.data.recordType 8 ++ " " ++
          serializeRecordData r.data)))).data =
        List.replicate 0 ' ' ++ (chunksWithPad
          (((.atomC r.domain, (18 - r.domain.data.length) + 1 + (6 + 1)) ::
            (.atomC r.rclass, (4 - r.rclass.data.length) + 1) ::
            (.atomC r.data.recordType, (8 - r.data.recordType.data.length) + 1) :: l') ++
            [(c, 0)])).data := by
      simp [padTo, httl, String.data_append, data_mk, hsdata,
        chunksWithPad, chunkStr, List.replicate_add,
        (show ("" : String).data = [] from rfl),
        (show (" " : String).data = [' '] from rfl), List.append_assoc]
    rw [serializeRecord_inner r]
    rw [show (padTo r.domain 18 ++ " " ++ (padTo (ttlText r) 6 ++ " " ++
        (padTo r.rclass 4 ++ " " ++ (padTo r.data.recordType 8 ++ " " ++
          serializeRecordData r.data)))) =
      ⟨List.replicate 0 ' ' ++ (chunksWithPad
          (((.atomC r.domain, (18 - r.domain.data.length) + 1 + (6 + 1)) ::
            (.atomC r.rclass, (4 - r.rclass.data.length) + 1) ::
            (.atomC r.data.recordType, (8 - r.data.recordType.data.length) + 1) :: l') ++
            [(c, 0)])).data⟩ from String.ext hinner]
    rw [trimEnd_chunks_end (List.replicate 0 ' ')
      ((.atomC r.domain, (18 - r.domain.data.length) + 1 + (6 + 1)) ::
        (.atomC r.rclass, (4 - r.rclass.data.length) + 1) ::
        (.atomC r.data.recordType, (8 - r.data.recordType.data.length) + 1) :: l') c
      (chunksOk_last l' c 0 hok)]
    rfl
  · obtain ⟨ttl', cls', hscan⟩ := scanType_clsrt r.rclass r.data.recordType
      ((l' ++ [(c, 0)]).map (fun p : Chunk × Nat => chunkTok p.1)) hclsns
      (recordType_mem r.data)
    refine ⟨.record ⟨r.domain, ttl', cls'.getD "IN", r.data⟩, ?_, rfl⟩
    have hmap : List.map (fun p : Chunk × Nat => chunkTok p.1)
        ((Chunk.atomC r.domain, 18 - r.domain.data.length + 1 + (6 + 1)) ::
          (Chunk.atomC r.rclass, 4 - r.rclass.data.length + 1) ::
          (Chunk.atomC r.data.recordType, 8 - r.data.recordType.data.length + 1) ::
          (l' ++ [(c, 0)])) =
        Tok.atom r.domain :: Tok.atom r.rclass :: Tok.atom r.data.recordType ::
          List.map (fun p : Chunk × Nat => chunkTok p.1) (l' ++ [(c, 0)]) := rfl
    rw [hmap]
    rw [show (if (0 : Nat) = 0 then false else true) = false from rfl]
    rw [parseLine_cons_atom, if_neg hddollar]
    simp only [parseRecordLine, splitDomain_false, ok_bind, hscan, hparse, pure, Except.pure]



theorem directive_line_origin (s : String) (hs : atomToken s = true) :
    ∃ (m : Nat) (l : List (Chunk × Nat)),
      ChunksOk l ∧ l ≠ [] ∧
      (serializeEntry (.directive "$ORIGIN" (.str s))).data =
        List.replicate m ' ' ++ (chunksWithPad l).data ∧
      ∃ e', parseLine ((if m = 0 then false else true),
          l.map (fun p : Chunk × Nat => chunkTok p.1)) = .ok e' ∧
        entrySig e' = entrySig (.directive "$ORIGIN" (.str s)) := by
  refine ⟨0, [(.atomC "$ORIGIN", 1), (.atomC s, 0)], ⟨show atomToken "$ORIGIN" = true by decide, by omega, hs⟩, by simp,
    ?_, .directive "$ORIGIN" (.str s), ?_, rfl⟩
  · simp [serializeEntry, serializeDirective, dirValStr, chunksWithPad, chunkStr,
      String.data_append, data_mk,
      (show (" " : String).data = [' '] from rfl),
      (show ("" : String).data = [] from rfl)]
  · rw [show (if (0 : Nat) = 0 then false else true) = false from rfl]
    rw [show List.map (fun p : Chunk × Nat => chunkTok p.1)
        [(Chunk.atomC "$ORIGIN", 1), (Chunk.atomC s, 0)] =
      [Tok.atom "$ORIGIN", Tok.atom s] from rfl]
    rw [parseLine_cons_atom,
      if_pos (show ("$ORIGIN" : String).data.head? = some '$' from rfl)]
    rfl

theorem directive_line_ttl (t : Nat) :
    ∃ (m : Nat) (l : List (Chunk × Nat)),
      ChunksOk l ∧ l ≠ [] ∧
      (serializeEntry (.directive "$TTL" (.num t))).data =
        List.replicate m ' ' ++ (chunksWithPad l).data ∧
      ∃ e', parseLine ((if m = 0 then false else true),
          l.map (fun p : Chunk × Nat => chunkTok p.1)) = .ok e' ∧
        entrySig e' = entrySig (.directive "$TTL" (.num t)) := by
  refine ⟨0, [(.atomC "$TTL", 1), (.atomC (natRepr t), 0)],
    ⟨show atomToken "$TTL" = true by decide, by omega, atomToken_natRepr t⟩, by simp,
    ?_, .directive "$TTL" (.num t), ?_, rfl⟩
  · simp [serializeEntry, serializeDirective, dirValStr, chunksWithPad, chunkStr,
      String.data_append, data_mk,
      (show (" " : String).data = [' '] from rfl),
      (show ("" : String).data = [] from rfl)]
  · rw [show (if (0 : Nat) = 0 then false else true) = false from rfl]
    rw [show List.map (fun p : Chunk × Nat => chunkTok p.1)
        [(Chunk.atomC "$TTL", 1), (Chunk.atomC (natRepr t), 0)] =
      [Tok.atom "$TTL", Tok.atom (natRepr t)] from rfl]
    rw [parseLine_cons_atom,
      if_pos (show ("$TTL" : String).data.head? = some '$' from rfl)]
    simp [parseDirectiveLine, parseNatTok_natRepr]

theorem entry_line (e : ZoneEntry) (hwf : WFEntry e) (hsafe : entrySafe e = true) :
    ∃ (m : Nat) (l : List (Chunk × Nat)),
      ChunksOk l ∧ l ≠ [] ∧
      (serializeEntry e).data = List.replicate m ' ' ++ (chunksWithPad l).data ∧
      ∃ e', parseLine ((if m = 0 then false else true),
          l.map (fun p : Chunk × Nat => chunkTok p.1)) = .ok e' ∧
        entrySig e' = entrySig e := by
  cases e with
  | directive n v =>
      have hwf' : (n = "$ORIGIN" ∧ ∃ s, v = .str s ∧ atomToken s = true) ∨
          (n = "$TTL" ∧ ∃ t, v = .num t) := hwf
      rcases hwf' with ⟨hn, s, hv, hs⟩ | ⟨hn, t, hv⟩
      · rw [hn, hv]
        exact directive_line_origin s hs
      · rw [hn, hv]
        exact directive_line_ttl t
  | record r =>
      have hwf' : WFRecord r := hwf
      obtain ⟨hdomopt, hcls, hclsns, hdata⟩ := hwf'
      have hs1 : (dataSafe r.data &&
          (if r.domain = "" then r.rclass.data.head? != some '$'
           else r.domain.data.head? != some '$')) = true := hsafe
      rw [Bool.and_eq_true] at hs1
      obtain ⟨hds, hif⟩ := hs1
      obtain ⟨l', c, hok, hsdata, hparse⟩ := rdata_chunks r.data hdata hds
      by_cases hdom : r.domain = ""
      · rw [if_pos hdom] at hif
        have hclsd : r.rclass.data.head? ≠ some '$' := by
          simpa using hif
        exact record_line_empty r l' c hdom hcls hclsns hclsd hok hsdata hparse
      · rw [if_neg hdom] at hif
        have hdold : r.domain.data.head? ≠ some '$' := by
          simpa using hif
        have hdatom : atomToken r.domain = true := by
          rcases hdomopt with h | h
          · exact absurd h hdom
          · exact h
        cases htl : r.ttl with
        | some t => exact record_line_some r t l' c htl hdatom hdold hcls hclsns hok hsdata hparse
        | none => exact record_line_none r l' c htl hdatom hdold hcls hclsns hok hsdata hparse



theorem serializeLinesGo_false : ∀ (es : List ZoneEntry) (last : Option String),
    serializeLinesGo false last es = es.map serializeEntry := by
  intro es
  induction es with
  | nil => intro last; rfl
  | cons e es ih =>
      intro last
      cases e with
      | record r =>
          cases last with
          | none => simp [serializeLinesGo, ih]
          | some lt => simp [serializeLinesGo, ih]
      | directive n v => simp [serializeLinesGo, ih]

theorem joinNL_concatNL : ∀ (ss : List String), ss ≠ [] →
    joinNL ss ++ "\n" = concatNL ss := by
  intro ss
  induction ss with
  | nil => intro h; exact absurd rfl h
  | cons s rs ih =>
      intro _
      cases rs with
      | nil =>
          apply String.ext
          simp [joinNL, concatNL, String.data_append, (show ("" : String).data = [] from rfl)]
      | cons r rs' =>
          apply String.ext
          have ih' := congrArg String.data (ih (by simp))
          rw [String.data_append, (show ("\n" : String).data = ['\n'] from rfl)] at ih'
          simp only [joinNL, concatNL, String.data_append,
            (show ("\n" : String).data = ['\n'] from rfl), List.append_assoc]
          rw [ih']
          simp [concatNL, String.data_append,
            (show ("\n" : String).data = ['\n'] from rfl), List.append_assoc]

theorem zone_lines : ∀ (es : List ZoneEntry) (lines0 : List Line),
    (∀ e ∈ es, WFEntry e ∧ entrySafe e = true) →
    ∃ (lns : List Line) (es' : List ZoneEntry),
      runLex (concatNL (es.map serializeEntry)).data .norm ⟨0, false, [], lines0⟩ =
        .ok (.norm, ⟨0, false, [], lines0 ++ lns⟩) ∧
      lns.mapM parseLine = .ok es' ∧
      es'.map entrySig = es.map entrySig := by
  intro es
  induction es with
  | nil =>
      intro lines0 _
      exact ⟨[], [], by simp [concatNL, (show ("" : String).data = [] from rfl), runLex], rfl, rfl⟩
  | cons e es ih =>
      intro lines0 h
      obtain ⟨m, l, hok, hlne, hsdata, e', hpl, hsig⟩ :=
        entry_line e (h e (by simp)).1 (h e (by simp)).2
      have hmne : l.map (fun p : Chunk × Nat => chunkTok p.1) ≠ [] := by
        simpa using hlne
      have hdata : (concatNL ((e :: es).map serializeEntry)).data =
          List.replicate m ' ' ++ ((chunksWithPad l).data ++
            '\n' :: (concatNL (es.map serializeEntry)).data) := by
        simp [concatNL, String.data_append, hsdata,
          (show ("\n" : String).data = ['\n'] from rfl), List.append_assoc]
      have hsp : runLex (List.replicate m ' ') .norm ⟨0, false, [], lines0⟩ =
          .ok (.norm, ⟨0, (if m = 0 then false else true), [], lines0⟩) := by
        rw [runLex_spaces_start m ⟨0, false, [], lines0⟩ rfl]
        cases m with
        | zero => rfl
        | succ k => simp
      obtain ⟨lns, es', hrun, hmapM, hsigs⟩ :=
        ih (lines0 ++ [((if m = 0 then false else true),
          l.map (fun p : Chunk × Nat => chunkTok p.1))]) (fun x hx => h x (by simp [hx]))
      refine ⟨((if m = 0 then false else true),
          l.map (fun p : Chunk × Nat => chunkTok p.1)) :: lns, e' :: es', ?_, ?_, ?_⟩
      · rw [hdata, runLex_append_ok hsp]
        rw [runLex_chunks_line l ⟨0, (if m = 0 then false else true), [], lines0⟩
          (concatNL (es.map serializeEntry)).data hok hlne rfl]
        have hend : endLine { (⟨0, (if m = 0 then false else true), [], lines0⟩ : LexSt) with
            cur := (⟨0, (if m = 0 then false else true), [], lines0⟩ : LexSt).cur ++
              l.map (fun p => chunkTok p.1) } =
            ⟨0, false, [], lines0 ++ [((if m = 0 then false else true),
              l.map (fun p : Chunk × Nat => chunkTok p.1))]⟩ := by
          simp [endLine, hmne]
        rw [hend, hrun]
        simp
      · rw [List.mapM_cons, hpl, ok_bind, hmapM, ok_bind]
        rfl
      · simp [hsig, hsigs]

theorem rawParse_serializeZone (es : List ZoneEntry)
    (h : ∀ e ∈ es, WFEntry e ∧ entrySafe e = true) :
    ∃ es', rawParse (serializeZone es) = .ok es' ∧
      es'.map entrySig = es.map entrySig := by
  cases es with
  | nil => exact ⟨[], rfl, rfl⟩
  | cons e es =>
      obtain ⟨lns, es', hrun, hmapM, hsig⟩ := zone_lines (e :: es) [] h
      have hser : serializeZone (e :: es) = concatNL ((e :: es).map serializeEntry) := by
        rw [serializeZone, serializeLinesGo_false, joinNL_concatNL]
        simp
      refine ⟨es', ?_, hsig⟩
      rw [rawParse, hser]
      have hlex : lexZone (concatNL ((e :: es).map serializeEntry)) = .ok lns := by
        rw [lexZone]
        simp only [List.nil_append] at hrun
        rw [show (⟨0, false, [], []⟩ : LexSt) = initLexSt from rfl] at hrun
        rw [hrun]
        rfl
      rw [hlex, ok_bind]
      exact hmapM

theorem resolveRecord_default (st : ResState) (r : ZRecord) :
    resolveRecord {} st r = r := rfl

theorem resolveGo_default : ∀ (es : List ZoneEntry) (st : ResState),
    resolveGo {} st es = es := by
  intro es
  induction es with
  | nil => intro st; rfl
  | cons e es ih =>
      intro st
      cases e with
      | record r => simp [resolveGo, resolveRecord_default, ih]
      | directive n v => simp [resolveGo, ih]



theorem atomToken_of_chars {acc : List Char} (hne : acc ≠ [])
    (hall : ∀ c ∈ acc, isAtomChar c = true) : atomToken (⟨acc⟩ : String) = true := by
  cases acc with
  | nil => exact absurd rfl hne
  | cons c cs =>
      simp only [atomToken, data_mk, List.isEmpty_cons, Bool.not_false, Bool.true_and,
        List.all_eq_true]
      exact fun x hx => hall x hx

theorem noQuoteChar_of_chars {acc : List Char} (hall : ∀ c ∈ acc, c ≠ '"') :
    noQuoteChar (⟨acc⟩ : String) = true := by
  simp only [noQuoteChar, data_mk, Bool.not_eq_true']
  cases hc : acc.contains '"' with
  | false => rfl
  | true => exact absurd (List.mem_of_elem_eq_true hc) (fun h => hall _ h rfl)

theorem endLine_inv {st : LexSt} (hl : ∀ ln ∈ st.lines, LineWF ln)
    (hc : ∀ t ∈ st.cur, TokWF t) : ∀ ln ∈ (endLine st).lines, LineWF ln := by
  intro ln hln
  simp only [endLine] at hln
  split at hln
  · exact hl ln hln
  · rcases List.mem_append.mp hln with h | h
    · exact hl ln h
    · have hln' : ln = (st.leading, st.cur) := by simpa using h
      subst hln'
      intro t ht
      exact hc t ht

theorem pushTok_cur_inv {st : LexSt} {tk : Tok} (hc : ∀ t ∈ st.cur, TokWF t)
    (htk : TokWF tk) : ∀ t ∈ (pushTok st tk).cur, TokWF t := by
  intro t ht
  simp only [pushTok] at ht
  rcases List.mem_append.mp ht with h | h
  · exact hc t h
  · have h' : t = tk := by simpa using h
    subst h'
    exact htk

theorem stepNorm_inv {st : LexSt} {c : Char} {m' : LexMode} {st' : LexSt}
    (hl : ∀ ln ∈ st.lines, LineWF ln) (hc : ∀ t ∈ st.cur, TokWF t)
    (h : stepNorm st c = .ok (m', st')) : LexInv m' st' := by
  rw [stepNorm] at h
  split at h
  · split at h
    · injection h with h2
      injection h2 with hm hs
      subst hm
      subst hs
      exact ⟨hl, hc, trivial⟩
    · injection h with h2
      injection h2 with hm hs
      subst hm
      subst hs
      exact ⟨endLine_inv hl hc, by simp [endLine], trivial⟩
  · split at h
    · injection h with h2
      injection h2 with hm hs
      subst hm
      subst hs
      split
      · exact ⟨hl, hc, trivial⟩
      · exact ⟨hl, hc, trivial⟩
    · split at h
      · injection h with h2
        injection h2 with hm hs
        subst hm
        subst hs
        exact ⟨hl, hc, trivial⟩
      · split at h
        · injection h with h2
          injection h2 with hm hs
          subst hm
          subst hs
          exact ⟨hl, hc, fun x hx => absurd hx (List.not_mem_nil x)⟩
        · split at h
          · injection h with h2
            injection h2 with hm hs
            subst hm
            subst hs
            exact ⟨hl, hc, trivial⟩
          · split at h
            · split at h
              · exact Except.noConfusion h
              · injection h with h2
                injection h2 with hm hs
                subst hm
                subst hs
                exact ⟨hl, hc, trivial⟩
            · injection h with h2
              injection h2 with hm hs
              subst hm
              subst hs
              rename_i h1 h2 h3 h4 h5 h6
              refine ⟨hl, hc, by simp, fun x hx => ?_⟩
              have hx' : x = c := by simpa using hx
              subst hx'
              simp only [isAtomChar, Bool.not_eq_true', Bool.or_eq_false_iff,
                decide_eq_false_iff_not]
              refine ⟨⟨⟨⟨⟨?_, h1⟩, h4⟩, h3⟩, h5⟩, h6⟩
              cases hsp : isSpaceChar x with
              | false => rfl
              | true => exact absurd hsp h2

theorem lexStep_inv {m : LexMode} {st : LexSt} {c : Char} {m' : LexMode} {st' : LexSt}
    (inv : LexInv m st) (h : lexStep m st c = .ok (m', st')) : LexInv m' st' := by
  obtain ⟨hl, hc, hmode⟩ := inv
  cases m with
  | norm => exact stepNorm_inv hl hc h
  | comment =>
      simp only [lexStep] at h
      split at h
      · exact stepNorm_inv hl hc h
      · injection h with h2
        injection h2 with hm hs
        subst hm
        subst hs
        exact ⟨hl, hc, trivial⟩
  | atom acc =>
      obtain ⟨hane, haall⟩ := hmode
      simp only [lexStep] at h
      split at h
      · injection h with h2
        injection h2 with hm hs
        subst hm
        subst hs
        rename_i hac
        refine ⟨hl, hc, by simp, fun x hx => ?_⟩
        rcases List.mem_append.mp hx with h' | h'
        · exact haall x h'
        · have h'' : x = c := by simpa using h'
          subst h''
          exact hac
      · have hl' : ∀ ln ∈ (pushTok st (Tok.atom ⟨acc⟩)).lines, LineWF ln := hl
        exact stepNorm_inv hl'
          (pushTok_cur_inv hc (show TokWF (.atom ⟨acc⟩) from atomToken_of_chars hane haall)) h
  | quote acc =>
      simp only [lexStep] at h
      split at h
      · injection h with h2
        injection h2 with hm hs
        subst hm
        subst hs
        exact ⟨hl,
          pushTok_cur_inv hc (show TokWF (.quoted ⟨acc⟩) from noQuoteChar_of_chars hmode),
          trivial⟩
      · injection h with h2
        injection h2 with hm hs
        subst hm
        subst hs
        rename_i hq
        refine ⟨hl, hc, fun x hx => ?_⟩
        rcases List.mem_append.mp hx with h' | h'
        · exact hmode x h'
        · have h'' : x = c := by simpa using h'
          subst h''
          exact hq

theorem runLex_inv : ∀ (cs : List Char) {m : LexMode} {st : LexSt} {m' : LexMode}
    {st' : LexSt}, LexInv m st → runLex cs m st = .ok (m', st') → LexInv m' st' := by
  intro cs
  induction cs with
  | nil =>
      intro m st m' st' inv h
      injection h with h2
      injection h2 with hm hs
      subst hm
      subst hs
      exact inv
  | cons c cs ih =>
      intro m st m' st' inv h
      cases hstep : lexStep m st c with
      | ok p =>
          obtain ⟨m2, st2⟩ := p
          rw [runLex_cons_ok hstep] at h
          exact ih (lexStep_inv inv hstep) h
      | error e =>
          rw [runLex_cons_err hstep] at h
          exact Except.noConfusion h

theorem lexFinish_inv {m : LexMode} {st : LexSt} {lns : List Line}
    (inv : LexInv m st) (h : lexFinish (m, st) = .ok lns) : ∀ ln ∈ lns, LineWF ln := by
  obtain ⟨hl, hc, hmode⟩ := inv
  cases m with
  | norm =>
      simp only [lexFinish] at h
      split at h
      · exact Except.noConfusion h
      · injection h with h2
        subst h2
        exact endLine_inv hl hc
  | comment =>
      simp only [lexFinish] at h
      split at h
      · exact Except.noConfusion h
      · injection h with h2
        subst h2
        exact endLine_inv hl hc
  | atom acc =>
      obtain ⟨hane, haall⟩ := hmode
      simp only [lexFinish] at h
      split at h
      · exact Except.noConfusion h
      · injection h with h2
        subst h2
        exact endLine_inv hl
          (pushTok_cur_inv hc (show TokWF (.atom ⟨acc⟩) from atomToken_of_chars hane haall))
  | quote acc => exact Except.noConfusion h

theorem lexZone_wf {s : String} {lns : List Line} (h : lexZone s = .ok lns) :
    ∀ ln ∈ lns, LineWF ln := by
  rw [lexZone] at h
  cases hr : runLex s.data .norm initLexSt with
  | ok p =>
      obtain ⟨m', st'⟩ := p
      rw [hr] at h
      have inv0 : LexInv .norm initLexSt :=
        ⟨fun ln hln => absurd hln (List.not_mem_nil ln),
         fun t ht => absurd ht (List.not_mem_nil t), trivial⟩
      exact lexFinish_inv (runLex_inv s.data inv0 hr) h
  | error e =>
      rw [hr] at h
      exact Except.noConfusion h



theorem atomToken_noQuote {s : String} (h : atomToken s = true) :
    noQuoteChar s = true := by
  simp only [atomToken, Bool.and_eq_true, List.all_eq_true] at h
  simp only [noQuoteChar, Bool.not_eq_true']
  cases hc : s.data.contains '"' with
  | false => rfl
  | true =>
      have := h.2 _ (List.mem_of_elem_eq_true hc)
      exact absurd this (by decide)

theorem restAtoms_sound : ∀ (toks : List Tok) (l : List String),
    restAtoms toks = some l → (∀ t ∈ toks, TokWF t) → ∀ w ∈ l, atomToken w = true := by
  intro toks
  induction toks with
  | nil =>
      intro l h _ w hw
      have h' : (some [] : Option (List String)) = some l := h
      injection h' with h2
      subst h2
      exact absurd hw (List.not_mem_nil w)
  | cons t ts ih =>
      intro l h hwf w hw
      cases t with
      | quoted q => exact Option.noConfusion h
      | atom s =>
          have h' : (restAtoms ts).map (s :: ·) = some l := h
          cases hr : restAtoms ts with
          | none => rw [hr] at h'; exact Option.noConfusion h'
          | some l' =>
              rw [hr] at h'
              have h'' : (some (s :: l') : Option (List String)) = some l := h'
              injection h'' with h2
              subst h2
              rcases List.mem_cons.mp hw with rfl | hw'
              · exact hwf (.atom w) (by simp)
              · exact ih l' hr (fun t ht => hwf t (by simp [ht])) w hw'

theorem parseField_sound : ∀ (fk : FK) (toks : List Tok) (v : FV) (rest : List Tok),
    parseField fk toks = .ok (v, rest) → (∀ t ∈ toks, TokWF t) →
    FVOk fk v ∧ ∀ t ∈ rest, TokWF t := by
  intro fk toks v rest h hwf
  cases fk with
  | fname =>
      cases toks with
      | nil => exact Except.noConfusion h
      | cons t ts =>
          cases t with
          | quoted q => exact Except.noConfusion h
          | atom s =>
              have h' : (Except.ok (FV.name s, ts) :
                  Except ZoneSyntaxError (FV × List Tok)) = .ok (v, rest) := h
              injection h' with h2
              injection h2 with hv hr
              subst hv
              subst hr
              exact ⟨hwf (.atom s) (by simp), fun t ht => hwf t (by simp [ht])⟩
  | fnat =>
      cases toks with
      | nil => exact Except.noConfusion h
      | cons t ts =>
          cases t with
          | quoted q => exact Except.noConfusion h
          | atom s =>
              have h' : (match parseNatTok s with
                | some n => (Except.ok (FV.nat n, ts) :
                    Except ZoneSyntaxError (FV × List Tok))
                | none => .error .badRData) = .ok (v, rest) := h
              cases hp : parseNatTok s with
              | none => rw [hp] at h'; exact Except.noConfusion h'
              | some n =>
                  rw [hp] at h'
                  injection h' with h2
                  injection h2 with hv hr
                  subst hv
                  subst hr
                  exact ⟨trivial, fun t ht => hwf t (by simp [ht])⟩
  | ftext =>
      cases toks with
      | nil => exact Except.noConfusion h
      | cons t ts =>
          cases t with
          | atom s =>
              have h' : (Except.ok (FV.text s, ts) :
                  Except ZoneSyntaxError (FV × List Tok)) = .ok (v, rest) := h
              injection h' with h2
              injection h2 with hv hr
              subst hv
              subst hr
              exact ⟨atomToken_noQuote (hwf (.atom s) (by simp)),
                fun t ht => hwf t (by simp [ht])⟩
          | quoted s =>
              have h' : (Except.ok (FV.text s, ts) :
                  Except ZoneSyntaxError (FV × List Tok)) = .ok (v, rest) := h
              injection h' with h2
              injection h2 with hv hr
              subst hv
              subst hr
              exact ⟨hwf (.quoted s) (by simp), fun t ht => hwf t (by simp [ht])⟩
  | fip6 =>
      cases toks with
      | nil => exact Except.noConfusion h
      | cons t ts =>
          cases t with
          | quoted q => exact Except.noConfusion h
          | atom s =>
              have h' : (if isIPv6 s then (Except.ok (FV.name s, ts) :
                  Except ZoneSyntaxError (FV × List Tok))
                else .error .badRData) = .ok (v, rest) := h
              by_cases hip : isIPv6 s = true
              · rw [if_pos hip] at h'
                injection h' with h2
                injection h2 with hv hr
                subst hv
                subst hr
                exact ⟨⟨hwf (.atom s) (by simp), hip⟩, fun t ht => hwf t (by simp [ht])⟩
              · rw [if_neg hip] at h'
                exact Except.noConfusion h'
  | frest =>
      have h' : (match restAtoms toks with
        | some [] => (Except.error .badRData : Except ZoneSyntaxError (FV × List Tok))
        | some (w :: ws) => .ok (.rest (w :: ws), [])
        | none => .error .badRData) = .ok (v, rest) := h
      cases hra : restAtoms toks with
      | none => rw [hra] at h'; exact Except.noConfusion h'
      | some l =>
          rw [hra] at h'
          cases l with
          | nil => exact Except.noConfusion h'
          | cons w ws =>
              injection h' with h2
              injection h2 with hv hr
              subst hv
              subst hr
              refine ⟨⟨by simp, restAtoms_sound toks (w :: ws) hra hwf⟩,
                fun t ht => absurd ht (List.not_mem_nil t)⟩

theorem parseFields_sound : ∀ (fks : List FK) (toks : List Tok) (vs : List FV),
    parseFields fks toks = .ok vs → (∀ t ∈ toks, TokWF t) →
    List.Forall₂ FVOk fks vs := by
  intro fks
  induction fks with
  | nil =>
      intro toks vs h _
      cases toks with
      | nil =>
          have h' : (Except.ok [] : Except ZoneSyntaxError (List FV)) = .ok vs := h
          injection h' with h2
          subst h2
          exact List.Forall₂.nil
      | cons t ts => exact Except.noConfusion h
  | cons fk fks ih =>
      intro toks vs h hwf
      have h' : (match parseField fk toks with
        | .ok (v, rest) => (parseFields fks rest).map (v :: ·)
        | .error e => (.error e : Except ZoneSyntaxError (List FV))) = .ok vs := h
      cases hpf : parseField fk toks with
      | error e => rw [hpf] at h'; exact Except.noConfusion h'
      | ok p =>
          obtain ⟨v, rest⟩ := p
          rw [hpf] at h'
          have h'2 : (parseFields fks rest).map (v :: ·) = .ok vs := h'
          obtain ⟨hfv, hrest⟩ := parseField_sound fk toks v rest hpf hwf
          cases hps : parseFields fks rest with
          | error e =>
              rw [hps] at h'2
              have h'3 : (Except.error e : Except ZoneSyntaxError (List FV)) = .ok vs := h'2
              exact Except.noConfusion h'3
          | ok vs' =>
              rw [hps] at h'2
              have h'' : (Except.ok (v :: vs') :
                  Except ZoneSyntaxError (List FV)) = .ok vs := h'2
              injection h'' with h2
              subst h2
              exact List.Forall₂.cons hfv (ih rest vs' hps hrest)

theorem not_mem_of_contains_false {s : String} {l : List String}
    (h : l.contains s = false) : s ∉ l := by
  intro hm
  have h2 : l.elem s = true := List.elem_eq_true_of_mem hm
  have h3 : l.elem s = false := h
  rw [h2] at h3
  exact Bool.noConfusion h3

theorem scanType_sound : ∀ (toks : List Tok) (ttl : Option Nat) (cls : Option String)
    (ttl' : Option Nat) (cls' : Option String) (rt : String) (rd : List Tok),
    scanType ttl cls toks = .ok (ttl', cls', rt, rd) → (∀ t ∈ toks, TokWF t) →
    ClsOk cls →
    ClsOk cls' ∧ rt ∈ supportedRecordTypes ∧ ∀ t ∈ rd, TokWF t := by
  intro toks
  induction toks with
  | nil => intro _ _ _ _ _ _ h _ _; exact Except.noConfusion h
  | cons t ts ih =>
      intro ttl cls ttl' cls' rt rd h hwf hcls
      cases t with
      | quoted q => exact Except.noConfusion h
      | atom s =>
          rw [scanType_cons_atom] at h
          cases hc : supportedRecordTypes.contains s with
          | true =>
              rw [if_pos hc] at h
              injection h with h2
              injection h2 with ht h3
              injection h3 with hcl h4
              injection h4 with hrt hrd
              subst ht
              subst hcl
              subst hrt
              subst hrd
              exact ⟨hcls, List.mem_of_elem_eq_true hc, fun t ht => hwf t (by simp [ht])⟩
          | false =>
              rw [if_neg (show ¬supportedRecordTypes.contains s = true by intro hcc; rw [hc] at hcc; exact Bool.noConfusion hcc)] at h
              have hts : ∀ t ∈ ts, TokWF t := fun t ht => hwf t (by simp [ht])
              have hclsok : ClsOk (some s) :=
                ⟨hwf (.atom s) (by simp), not_mem_of_contains_false hc⟩
              cases ttl with
              | none =>
                  cases hp : parseNatTok s with
                  | some n =>
                      rw [hp] at h
                      exact ih (some n) cls ttl' cls' rt rd h hts hcls
                  | none =>
                      rw [hp] at h
                      cases cls with
                      | none => exact ih none (some s) ttl' cls' rt rd h hts hclsok
                      | some c => exact Except.noConfusion h
              | some t0 =>
                  cases hp : parseNatTok s with
                  | some n =>
                      rw [hp] at h
                      cases cls with
                      | none => exact ih (some t0) (some s) ttl' cls' rt rd h hts hclsok
                      | some c => exact Except.noConfusion h
                  | none =>
                      rw [hp] at h
                      cases cls with
                      | none => exact ih (some t0) (some s) ttl' cls' rt rd h hts hclsok
                      | some c => exact Except.noConfusion h



theorem fvok_name {v : FV} (h : FVOk .fname v) :
    ∃ s, v = .name s ∧ atomToken s = true := by
  cases v with
  | name s => exact ⟨s, rfl, h⟩
  | nat n => exact h.elim
  | text t => exact h.elim
  | rest w => exact h.elim

theorem fvok_nat {v : FV} (h : FVOk .fnat v) : ∃ n, v = .nat n := by
  cases v with
  | nat n => exact ⟨n, rfl⟩
  | name s => exact h.elim
  | text t => exact h.elim
  | rest w => exact h.elim

theorem fvok_text {v : FV} (h : FVOk .ftext v) :
    ∃ s, v = .text s ∧ noQuoteChar s = true := by
  cases v with
  | text s => exact ⟨s, rfl, h⟩
  | name s => exact h.elim
  | nat n => exact h.elim
  | rest w => exact h.elim

theorem fvok_ip6 {v : FV} (h : FVOk .fip6 v) :
    ∃ s, v = .name s ∧ atomToken s = true ∧ isIPv6 s = true := by
  cases v with
  | name s => exact ⟨s, rfl, h.1, h.2⟩
  | nat n => exact h.elim
  | text t => exact h.elim
  | rest w => exact h.elim

theorem fvok_rest {v : FV} (h : FVOk .frest v) :
    ∃ ws, v = .rest ws ∧ ws ≠ [] ∧ ∀ w ∈ ws, atomToken w = true := by
  cases v with
  | rest ws => exact ⟨ws, rfl, h.1, h.2⟩
  | name s => exact h.elim
  | nat n => exact h.elim
  | text t => exact h.elim

theorem rdataParse_wf {m : String} {toks : List Tok} {d : RData}
    (hm : m ∈ supportedRecordTypes) (h : rdataParse m toks = .ok d)
    (hwf : ∀ t ∈ toks, TokWF t) : WFData d := by
  have h' : (match parseFields (rdataShape m) toks with
    | .ok vs => (match mkRData m vs with
      | some d0 => (Except.ok d0 : Except ZoneSyntaxError RData)
      | none => .error .badRData)
    | .error e => .error e) = .ok d := h
  cases hps : parseFields (rdataShape m) toks with
  | error e => rw [hps] at h'; exact Except.noConfusion h'
  | ok vs =>
      rw [hps] at h'
      have h2 : (match mkRData m vs with
        | some d0 => (Except.ok d0 : Except ZoneSyntaxError RData)
        | none => .error .badRData) = .ok d := h'
      cases hmk : mkRData m vs with
      | none => rw [hmk] at h2; exact Except.noConfusion h2
      | some d0 =>
          rw [hmk] at h2
          injection h2 with h3
          subst h3
          have hF : List.Forall₂ FVOk (rdataShape m) vs :=
            parseFields_sound (rdataShape m) toks vs hps hwf
          simp only [supportedRecordTypes, List.mem_cons, List.not_mem_nil, or_false] at hm
          rcases hm with rfl|rfl|rfl|rfl|rfl|rfl|rfl|rfl|rfl|rfl|rfl|rfl|rfl|rfl|rfl|rfl|rfl|rfl|rfl|rfl|rfl|rfl
          · rw [show rdataShape "SOA" = [FK.fname, FK.fname, FK.fnat, FK.fnat, FK.fnat, FK.fnat, FK.fnat] from rfl] at hF
            rcases List.forall₂_cons_left_iff.mp hF with ⟨v1, r1, hv1, hF1, rfl⟩
            rcases List.forall₂_cons_left_iff.mp hF1 with ⟨v2, r2, hv2, hF2, rfl⟩
            rcases List.forall₂_cons_left_iff.mp hF2 with ⟨v3, r3, hv3, hF3, rfl⟩
            rcases List.forall₂_cons_left_iff.mp hF3 with ⟨v4, r4, hv4, hF4, rfl⟩
            rcases List.forall₂_cons_left_iff.mp hF4 with ⟨v5, r5, hv5, hF5, rfl⟩
            rcases List.forall₂_cons_left_iff.mp hF5 with ⟨v6, r6, hv6, hF6, rfl⟩
            rcases List.forall₂_cons_left_iff.mp hF6 with ⟨v7, r7, hv7, hF7, rfl⟩
            have hnil := List.forall₂_nil_left_iff.mp hF7
            subst hnil
            obtain ⟨x1, rfl, hx1⟩ := fvok_name hv1
            obtain ⟨x2, rfl, hx2⟩ := fvok_name hv2
            obtain ⟨x3, rfl⟩ := fvok_nat hv3
            obtain ⟨x4, rfl⟩ := fvok_nat hv4
            obtain ⟨x5, rfl⟩ := fvok_nat hv5
            obtain ⟨x6, rfl⟩ := fvok_nat hv6
            obtain ⟨x7, rfl⟩ := fvok_nat hv7
            have hmk2 : (some (RData.SOA x1 x2 x3 x4 x5 x6 x7) : Option RData) = some d0 := hmk
            injection hmk2 with hd
            subst hd
            exact ⟨hx1, hx2⟩
          · rw [show rdataShape "NS" = [FK.fname] from rfl] at hF
            rcases List.forall₂_cons_left_iff.mp hF with ⟨v1, r1, hv1, hF1, rfl⟩
            have hnil := List.forall₂_nil_left_iff.mp hF1
            subst hnil
            obtain ⟨x1, rfl, hx1⟩ := fvok_name hv1
            have hmk2 : (some (RData.NS x1) : Option RData) = some d0 := hmk
            injection hmk2 with hd
            subst hd
            exact hx1
          · rw [show rdataShape "MX" = [FK.fnat, FK.fname] from rfl] at hF
            rcases List.forall₂_cons_left_iff.mp hF with ⟨v1, r1, hv1, hF1, rfl⟩
            rcases List.forall₂_cons_left_iff.mp hF1 with ⟨v2, r2, hv2, hF2, rfl⟩
            have hnil := List.forall₂_nil_left_iff.mp hF2
            subst hnil
            obtain ⟨x1, rfl⟩ := fvok_nat hv1
            obtain ⟨x2, rfl, hx2⟩ := fvok_name hv2
            have hmk2 : (some (RData.MX x1 x2) : Option RData) = some d0 := hmk
            injection hmk2 with hd
            subst hd
            exact hx2
          · rw [show rdataShape "A" = [FK.fname] from rfl] at hF
            rcases List.forall₂_cons_left_iff.mp hF with ⟨v1, r1, hv1, hF1, rfl⟩
            have hnil := List.forall₂_nil_left_iff.mp hF1
            subst hnil
            obtain ⟨x1, rfl, hx1⟩ := fvok_name hv1
            have hmk2 : (some (RData.A x1) : Option RData) = some d0 := hmk
            injection hmk2 with hd
            subst hd
            exact hx1
          · rw [show rdataShape "AAAA" = [FK.fip6] from rfl] at hF
            rcases List.forall₂_cons_left_iff.mp hF with ⟨v1, r1, hv1, hF1, rfl⟩
            have hnil := List.forall₂_nil_left_iff.mp hF1
            subst hnil
            obtain ⟨x1, rfl, hx1, hx1b⟩ := fvok_ip6 hv1
            have hmk2 : (some (RData.AAAA x1) : Option RData) = some d0 := hmk
            injection hmk2 with hd
            subst hd
            exact ⟨hx1, hx1b⟩
          · rw [show rdataShape "CNAME" = [FK.fname] from rfl] at hF
            rcases List.forall₂_cons_left_iff.mp hF with ⟨v1, r1, hv1, hF1, rfl⟩
            have hnil := List.forall₂_nil_left_iff.mp hF1
            subst hnil
            obtain ⟨x1, rfl, hx1⟩ := fvok_name hv1
            have hmk2 : (some (RData.CNAME x1) : Option RData) = some d0 := hmk
            injection hmk2 with hd
            subst hd
            exact hx1
          · rw [show rdataShape "PTR" = [FK.fname] from rfl] at hF
            rcases List.forall₂_cons_left_iff.mp hF with ⟨v1, r1, hv1, hF1, rfl⟩
            have hnil := List.forall₂_nil_left_iff.mp hF1
            subst hnil
            obtain ⟨x1, rfl, hx1⟩ := fvok_name hv1
            have hmk2 : (some (RData.PTR x1) : Option RData) = some d0 := hmk
            injection hmk2 with hd
            subst hd
            exact hx1
          · rw [show rdataShape "TXT" = [FK.ftext] from rfl] at hF
            rcases List.forall₂_cons_left_iff.mp hF with ⟨v1, r1, hv1, hF1, rfl⟩
            have hnil := List.forall₂_nil_left_iff.mp hF1
            subst hnil
            obtain ⟨x1, rfl, hx1⟩ := fvok_text hv1
            have hmk2 : (some (RData.TXT x1) : Option RData) = some d0 := hmk
            injection hmk2 with hd
            subst hd
            exact hx1
          · rw [show rdataShape "SRV" = [FK.fnat, FK.fnat, FK.fnat, FK.fname] from rfl] at hF
            rcases List.forall₂_cons_left_iff.mp hF with ⟨v1, r1, hv1, hF1, rfl⟩
            rcases List.forall₂_cons_left_iff.mp hF1 with ⟨v2, r2, hv2, hF2, rfl⟩
            rcases List.forall₂_cons_left_iff.mp hF2 with ⟨v3, r3, hv3, hF3, rfl⟩
            rcases List.forall₂_cons_left_iff.mp hF3 with ⟨v4, r4, hv4, hF4, rfl⟩
            have hnil := List.forall₂_nil_left_iff.mp hF4
            subst hnil
            obtain ⟨x1, rfl⟩ := fvok_nat hv1
            obtain ⟨x2, rfl⟩ := fvok_nat hv2
            obtain ⟨x3, rfl⟩ := fvok_nat hv3
            obtain ⟨x4, rfl, hx4⟩ := fvok_name hv4
            have hmk2 : (some (RData.SRV x1 x2 x3 x4) : Option RData) = some d0 := hmk
            injection hmk2 with hd
            subst hd
            exact hx4
          · rw [show rdataShape "CAA" = [FK.fnat, FK.ftext, FK.ftext] from rfl] at hF
            rcases List.forall₂_cons_left_iff.mp hF with ⟨v1, r1, hv1, hF1, rfl⟩
            rcases List.forall₂_cons_left_iff.mp hF1 with ⟨v2, r2, hv2, hF2, rfl⟩
            rcases List.forall₂_cons_left_iff.mp hF2 with ⟨v3, r3, hv3, hF3, rfl⟩
            have hnil := List.forall₂_nil_left_iff.mp hF3
            subst hnil
            obtain ⟨x1, rfl⟩ := fvok_nat hv1
            obtain ⟨x2, rfl, hx2⟩ := fvok_text hv2
            obtain ⟨x3, rfl, hx3⟩ := fvok_text hv3
            have hmk2 : (some (RData.CAA x1 x2 x3) : Option RData) = some d0 := hmk
            injection hmk2 with hd
            subst hd
            exact ⟨hx2, hx3⟩
          · rw [show rdataShape "DNSKEY" = [FK.fnat, FK.fnat, FK.fnat, FK.fname] from rfl] at hF
            rcases List.forall₂_cons_left_iff.mp hF with ⟨v1, r1, hv1, hF1, rfl⟩
            rcases List.forall₂_cons_left_iff.mp hF1 with ⟨v2, r2, hv2, hF2, rfl⟩
            rcases List.forall₂_cons_left_iff.mp hF2 with ⟨v3, r3, hv3, hF3, rfl⟩
            rcases List.forall₂_cons_left_iff.mp hF3 with ⟨v4, r4, hv4, hF4, rfl⟩
            have hnil := List.forall₂_nil_left_iff.mp hF4
            subst hnil
            obtain ⟨x1, rfl⟩ := fvok_nat hv1
            obtain ⟨x2, rfl⟩ := fvok_nat hv2
            obtain ⟨x3, rfl⟩ := fvok_nat hv3
            obtain ⟨x4, rfl, hx4⟩ := fvok_name hv4
            have hmk2 : (some (RData.DNSKEY x1 x2 x3 x4) : Option RData) = some d0 := hmk
            injection hmk2 with hd
            subst hd
            exact hx4
          · rw [show rdataShape "DS" = [FK.fnat, FK.fnat, FK.fnat, FK.fname] from rfl] at hF
            rcases List.forall₂_cons_left_iff.mp hF with ⟨v1, r1, hv1, hF1, rfl⟩
            rcases List.forall₂_cons_left_iff.mp hF1 with ⟨v2, r2, hv2, hF2, rfl⟩
            rcases List.forall₂_cons_left_iff.mp hF2 with ⟨v3, r3, hv3, hF3, rfl⟩
            rcases List.forall₂_cons_left_iff.mp hF3 with ⟨v4, r4, hv4, hF4, rfl⟩
            have hnil := List.forall₂_nil_left_iff.mp hF4
            subst hnil
            obtain ⟨x1, rfl⟩ := fvok_nat hv1
            obtain ⟨x2, rfl⟩ := fvok_nat hv2
            obtain ⟨x3, rfl⟩ := fvok_nat hv3
            obtain ⟨x4, rfl, hx4⟩ := fvok_name hv4
            have hmk2 : (some (RData.DS x1 x2 x3 x4) : Option RData) = some d0 := hmk
            injection hmk2 with hd
            subst hd
            exact hx4
          · rw [show rdataShape "RRSIG" = [FK.fname, FK.fnat, FK.fnat, FK.fnat, FK.fnat, FK.fnat, FK.fnat, FK.fname, FK.fname] from rfl] at hF
            rcases List.forall₂_cons_left_iff.mp hF with ⟨v1, r1, hv1, hF1, rfl⟩
            rcases List.forall₂_cons_left_iff.mp hF1 with ⟨v2, r2, hv2, hF2, rfl⟩
            rcases List.forall₂_cons_left_iff.mp hF2 with ⟨v3, r3, hv3, hF3, rfl⟩
            rcases List.forall₂_cons_left_iff.mp hF3 with ⟨v4, r4, hv4, hF4, rfl⟩
            rcases List.forall₂_cons_left_iff.mp hF4 with ⟨v5, r5, hv5, hF5, rfl⟩
            rcases List.forall₂_cons_left_iff.mp hF5 with ⟨v6, r6, hv6, hF6, rfl⟩
            rcases List.forall₂_cons_left_iff.mp hF6 with ⟨v7, r7, hv7, hF7, rfl⟩
            rcases List.forall₂_cons_left_iff.mp hF7 with ⟨v8, r8, hv8, hF8, rfl⟩
            rcases List.forall₂_cons_left_iff.mp hF8 with ⟨v9, r9, hv9, hF9, rfl⟩
            have hnil := List.forall₂_nil_left_iff.mp hF9
            subst hnil
            obtain ⟨x1, rfl, hx1⟩ := fvok_name hv1
            obtain ⟨x2, rfl⟩ := fvok_nat hv2
            obtain ⟨x3, rfl⟩ := fvok_nat hv3
            obtain ⟨x4, rfl⟩ := fvok_nat hv4
            obtain ⟨x5, rfl⟩ := fvok_nat hv5
            obtain ⟨x6, rfl⟩ := fvok_nat hv6
            obtain ⟨x7, rfl⟩ := fvok_nat hv7
            obtain ⟨x8, rfl, hx8⟩ := fvok_name hv8
            obtain ⟨x9, rfl, hx9⟩ := fvok_name hv9
            have hmk2 : (some (RData.RRSIG x1 x2 x3 x4 x5 x6 x7 x8 x9) : Option RData) = some d0 := hmk
            injection hmk2 with hd
            subst hd
            exact ⟨hx1, hx8, hx9⟩
          · rw [show rdataShape "NSEC" = [FK.fname, FK.frest] from rfl] at hF
            rcases List.forall₂_cons_left_iff.mp hF with ⟨v1, r1, hv1, hF1, rfl⟩
            rcases List.forall₂_cons_left_iff.mp hF1 with ⟨v2, r2, hv2, hF2, rfl⟩
            have hnil := List.forall₂_nil_left_iff.mp hF2
            subst hnil
            obtain ⟨x1, rfl, hx1⟩ := fvok_name hv1
            obtain ⟨x2, rfl, hx2a, hx2b⟩ := fvok_rest hv2
            have hmk2 : (some (RData.NSEC x1 x2) : Option RData) = some d0 := hmk
            injection hmk2 with hd
            subst hd
            exact ⟨hx1, hx2a, hx2b⟩
          · rw [show rdataShape "TLSA" = [FK.fnat, FK.fnat, FK.fnat, FK.fname] from rfl] at hF
            rcases List.forall₂_cons_left_iff.mp hF with ⟨v1, r1, hv1, hF1, rfl⟩
            rcases List.forall₂_cons_left_iff.mp hF1 with ⟨v2, r2, hv2, hF2, rfl⟩
            rcases List.forall₂_cons_left_iff.mp hF2 with ⟨v3, r3, hv3, hF3, rfl⟩
            rcases List.forall₂_cons_left_iff.mp hF3 with ⟨v4, r4, hv4, hF4, rfl⟩
            have hnil := List.forall₂_nil_left_iff.mp hF4
            subst hnil
            obtain ⟨x1, rfl⟩ := fvok_nat hv1
            obtain ⟨x2, rfl⟩ := fvok_nat hv2
            obtain ⟨x3, rfl⟩ := fvok_nat hv3
            obtain ⟨x4, rfl, hx4⟩ := fvok_name hv4
            have hmk2 : (some (RData.TLSA x1 x2 x3 x4) : Option RData) = some d0 := hmk
            injection hmk2 with hd
            subst hd
            exact hx4
          · rw [show rdataShape "SSHFP" = [FK.fnat, FK.fnat, FK.fname] from rfl] at hF
            rcases List.forall₂_cons_left_iff.mp hF with ⟨v1, r1, hv1, hF1, rfl⟩
            rcases List.forall₂_cons_left_iff.mp hF1 with ⟨v2, r2, hv2, hF2, rfl⟩
            rcases List.forall₂_cons_left_iff.mp hF2 with ⟨v3, r3, hv3, hF3, rfl⟩
            have hnil := List.forall₂_nil_left_iff.mp hF3
            subst hnil
            obtain ⟨x1, rfl⟩ := fvok_nat hv1
            obtain ⟨x2, rfl⟩ := fvok_nat hv2
            obtain ⟨x3, rfl, hx3⟩ := fvok_name hv3
            have hmk2 : (some (RData.SSHFP x1 x2 x3) : Option RData) = some d0 := hmk
            injection hmk2 with hd
            subst hd
            exact hx3
          · rw [show rdataShape "DNAME" = [FK.fname] from rfl] at hF
            rcases List.forall₂_cons_left_iff.mp hF with ⟨v1, r1, hv1, hF1, rfl⟩
            have hnil := List.forall₂_nil_left_iff.mp hF1
            subst hnil
            obtain ⟨x1, rfl, hx1⟩ := fvok_name hv1
            have hmk2 : (some (RData.DNAME x1) : Option RData) = some d0 := hmk
            injection hmk2 with hd
            subst hd
            exact hx1
          · rw [show rdataShape "NAPTR" = [FK.fnat, FK.fnat, FK.ftext, FK.ftext, FK.ftext, FK.fname] from rfl] at hF
            rcases List.forall₂_cons_left_iff.mp hF with ⟨v1, r1, hv1, hF1, rfl⟩
            rcases List.forall₂_cons_left_iff.mp hF1 with ⟨v2, r2, hv2, hF2, rfl⟩
            rcases List.forall₂_cons_left_iff.mp hF2 with ⟨v3, r3, hv3, hF3, rfl⟩
            rcases List.forall₂_cons_left_iff.mp hF3 with ⟨v4, r4, hv4, hF4, rfl⟩
            rcases List.forall₂_cons_left_iff.mp hF4 with ⟨v5, r5, hv5, hF5, rfl⟩
            rcases List.forall₂_cons_left_iff.mp hF5 with ⟨v6, r6, hv6, hF6, rfl⟩
            have hnil := List.forall₂_nil_left_iff.mp hF6
            subst hnil
            obtain ⟨x1, rfl⟩ := fvok_nat hv1
            obtain ⟨x2, rfl⟩ := fvok_nat hv2
            obtain ⟨x3, rfl, hx3⟩ := fvok_text hv3
            obtain ⟨x4, rfl, hx4⟩ := fvok_text hv4
            obtain ⟨x5, rfl, hx5⟩ := fvok_text hv5
            obtain ⟨x6, rfl, hx6⟩ := fvok_name hv6
            have hmk2 : (some (RData.NAPTR x1 x2 x3 x4 x5 x6) : Option RData) = some d0 := hmk
            injection hmk2 with hd
            subst hd
            exact ⟨hx3, hx4, hx5, hx6⟩
          · rw [show rdataShape "LOC" = [FK.frest] from rfl] at hF
            rcases List.forall₂_cons_left_iff.mp hF with ⟨v1, r1, hv1, hF1, rfl⟩
            have hnil := List.forall₂_nil_left_iff.mp hF1
            subst hnil
            obtain ⟨x1, rfl, hx1a, hx1b⟩ := fvok_rest hv1
            have hmk2 : (some (RData.LOC (joinSpace x1)) : Option RData) = some d0 := hmk
            injection hmk2 with hd
            subst hd
            exact ⟨x1, hx1a, hx1b, rfl⟩
          · rw [show rdataShape "HINFO" = [FK.ftext, FK.ftext] from rfl] at hF
            rcases List.forall₂_cons_left_iff.mp hF with ⟨v1, r1, hv1, hF1, rfl⟩
            rcases List.forall₂_cons_left_iff.mp hF1 with ⟨v2, r2, hv2, hF2, rfl⟩
            have hnil := List.forall₂_nil_left_iff.mp hF2
            subst hnil
            obtain ⟨x1, rfl, hx1⟩ := fvok_text hv1
            obtain ⟨x2, rfl, hx2⟩ := fvok_text hv2
            have hmk2 : (some (RData.HINFO x1 x2) : Option RData) = some d0 := hmk
            injection hmk2 with hd
            subst hd
            exact ⟨hx1, hx2⟩
          · rw [show rdataShape "SPF" = [FK.ftext] from rfl] at hF
            rcases List.forall₂_cons_left_iff.mp hF with ⟨v1, r1, hv1, hF1, rfl⟩
            have hnil := List.forall₂_nil_left_iff.mp hF1
            subst hnil
            obtain ⟨x1, rfl, hx1⟩ := fvok_text hv1
            have hmk2 : (some (RData.SPF x1) : Option RData) = some d0 := hmk
            injection hmk2 with hd
            subst hd
            exact hx1
          · rw [show rdataShape "ZONEMD" = [FK.fnat, FK.fnat, FK.fnat, FK.fname] from rfl] at hF
            rcases List.forall₂_cons_left_iff.mp hF with ⟨v1, r1, hv1, hF1, rfl⟩
            rcases List.forall₂_cons_left_iff.mp hF1 with ⟨v2, r2, hv2, hF2, rfl⟩
            rcases List.forall₂_cons_left_iff.mp hF2 with ⟨v3, r3, hv3, hF3, rfl⟩
            rcases List.forall₂_cons_left_iff.mp hF3 with ⟨v4, r4, hv4, hF4, rfl⟩
            have hnil := List.forall₂_nil_left_iff.mp hF4
            subst hnil
            obtain ⟨x1, rfl⟩ := fvok_nat hv1
            obtain ⟨x2, rfl⟩ := fvok_nat hv2
            obtain ⟨x3, rfl⟩ := fvok_nat hv3
            obtain ⟨x4, rfl, hx4⟩ := fvok_name hv4
            have hmk2 : (some (RData.ZONEMD x1 x2 x3 x4) : Option RData) = some d0 := hmk
            injection hmk2 with hd
            subst hd
            exact hx4



theorem parseDirectiveLine_wf {name : String} {rest : List Tok} {e : ZoneEntry}
    (h : parseDirectiveLine name rest = .ok e) (hwf : ∀ t ∈ rest, TokWF t) :
    WFEntry e := by
  cases rest with
  | nil =>
      have h2 : (if name = "$ORIGIN" then (Except.error ZoneSyntaxError.badLine :
          Except ZoneSyntaxError ZoneEntry)
        else if name = "$TTL" then .error .badLine
        else .error .unknownDirective) = .ok e := h
      by_cases ho : name = "$ORIGIN"
      · rw [if_pos ho] at h2
        exact Except.noConfusion h2
      · rw [if_neg ho] at h2
        by_cases ht : name = "$TTL"
        · rw [if_pos ht] at h2
          exact Except.noConfusion h2
        · rw [if_neg ht] at h2
          exact Except.noConfusion h2
  | cons t ts =>
      cases t with
      | quoted q =>
          have h2 : (if name = "$ORIGIN" then (Except.error ZoneSyntaxError.badLine :
              Except ZoneSyntaxError ZoneEntry)
            else if name = "$TTL" then .error .badLine
            else .error .unknownDirective) = .ok e := h
          by_cases ho : name = "$ORIGIN"
          · rw [if_pos ho] at h2
            exact Except.noConfusion h2
          · rw [if_neg ho] at h2
            by_cases ht : name = "$TTL"
            · rw [if_pos ht] at h2
              exact Except.noConfusion h2
            · rw [if_neg ht] at h2
              exact Except.noConfusion h2
      | atom v =>
          cases ts with
          | cons t2 ts2 =>
              have h2 : (if name = "$ORIGIN" then (Except.error ZoneSyntaxError.badLine :
                  Except ZoneSyntaxError ZoneEntry)
                else if name = "$TTL" then .error .badLine
                else .error .unknownDirective) = .ok e := h
              by_cases ho : name = "$ORIGIN"
              · rw [if_pos ho] at h2
                exact Except.noConfusion h2
              · rw [if_neg ho] at h2
                by_cases ht : name = "$TTL"
                · rw [if_pos ht] at h2
                  exact Except.noConfusion h2
                · rw [if_neg ht] at h2
                  exact Except.noConfusion h2
          | nil =>
              have h2 : (if name = "$ORIGIN" then
                  (Except.ok (ZoneEntry.directive "$ORIGIN" (DirValue.str v)) :
                    Except ZoneSyntaxError ZoneEntry)
                else if name = "$TTL" then
                  (match parseNatTok v with
                  | some n => (Except.ok (ZoneEntry.directive "$TTL" (DirValue.num n)) :
                      Except ZoneSyntaxError ZoneEntry)
                  | none => .error .badLine)
                else .error .unknownDirective) = .ok e := h
              by_cases ho : name = "$ORIGIN"
              · rw [if_pos ho] at h2
                injection h2 with h3
                subst h3
                exact Or.inl ⟨rfl, v, rfl, hwf (.atom v) (by simp)⟩
              · rw [if_neg ho] at h2
                by_cases ht : name = "$TTL"
                · rw [if_pos ht] at h2
                  cases hp : parseNatTok v with
                  | none => rw [hp] at h2; exact Except.noConfusion h2
                  | some n =>
                      rw [hp] at h2
                      injection h2 with h3
                      subst h3
                      exact Or.inr ⟨rfl, n, rfl⟩
                · rw [if_neg ht] at h2
                  exact Except.noConfusion h2

theorem splitDomain_sound {leading : Bool} {toks : List Tok} {dom : String}
    {rest : List Tok} (h : splitDomain leading toks = .ok (dom, rest))
    (hwf : ∀ t ∈ toks, TokWF t) :
    (dom = "" ∨ atomToken dom = true) ∧ ∀ t ∈ rest, TokWF t := by
  cases toks with
  | nil =>
      have h2 : (if leading = true then (Except.ok (("" : String), ([] : List Tok)) :
          Except ZoneSyntaxError (String × List Tok))
        else .error .badLine) = .ok (dom, rest) := h
      by_cases hl : leading = true
      · rw [if_pos hl] at h2
        injection h2 with h3
        injection h3 with hd hr
        subst hd
        subst hr
        exact ⟨Or.inl rfl, hwf⟩
      · rw [if_neg hl] at h2
        exact Except.noConfusion h2
  | cons t ts =>
      cases t with
      | quoted q =>
          have h2 : (if leading = true then
              (Except.ok (("" : String), Tok.quoted q :: ts) :
                Except ZoneSyntaxError (String × List Tok))
            else .error .badLine) = .ok (dom, rest) := h
          by_cases hl : leading = true
          · rw [if_pos hl] at h2
            injection h2 with h3
            injection h3 with hd hr
            subst hd
            subst hr
            exact ⟨Or.inl rfl, hwf⟩
          · rw [if_neg hl] at h2
            exact Except.noConfusion h2
      | atom d0 =>
          have h2 : (if leading = true then
              (Except.ok (("" : String), Tok.atom d0 :: ts) :
                Except ZoneSyntaxError (String × List Tok))
            else .ok (d0, ts)) = .ok (dom, rest) := h
          by_cases hl : leading = true
          · rw [if_pos hl] at h2
            injection h2 with h3
            injection h3 with hd hr
            subst hd
            subst hr
            exact ⟨Or.inl rfl, hwf⟩
          · rw [if_neg hl] at h2
            injection h2 with h3
            injection h3 with hd hr
            subst hd
            subst hr
            exact ⟨Or.inr (hwf (.atom d0) (by simp)),
              fun t ht => hwf t (by simp [ht])⟩

theorem parseRecordLine_wf {leading : Bool} {toks : List Tok} {e : ZoneEntry}
    (h : parseRecordLine leading toks = .ok e) (hwf : ∀ t ∈ toks, TokWF t) :
    WFEntry e := by
  rw [parseRecordLine] at h
  cases hsd : splitDomain leading toks with
  | error e0 =>
      rw [hsd, error_bind] at h
      exact Except.noConfusion h
  | ok p =>
      obtain ⟨dom, rest1⟩ := p
      rw [hsd, ok_bind] at h
      have h3 : (scanType none none rest1 >>= fun y =>
          match y with
          | (ttl, cls, m, rtoks) =>
              rdataParse m rtoks >>= fun d =>
                pure (ZoneEntry.record ⟨dom, ttl, cls.getD "IN", d⟩)) = .ok e := h
      obtain ⟨hdom, hrest1⟩ := splitDomain_sound hsd hwf
      cases hsc : scanType none none rest1 with
      | error e0 =>
          rw [hsc, error_bind] at h3
          exact Except.noConfusion h3
      | ok q =>
          obtain ⟨ttl, cls, m, rtoks⟩ := q
          rw [hsc, ok_bind] at h3
          have h4 : (rdataParse m rtoks >>= fun d =>
              pure (ZoneEntry.record ⟨dom, ttl, cls.getD "IN", d⟩)) = .ok e := h3
          obtain ⟨hcls, hmem, hrtoks⟩ :=
            scanType_sound rest1 none none ttl cls m rtoks hsc hrest1 trivial
          cases hrd : rdataParse m rtoks with
          | error e0 =>
              rw [hrd, error_bind] at h4
              exact Except.noConfusion h4
          | ok d =>
              rw [hrd, ok_bind] at h4
              have h5 : (Except.ok (ZoneEntry.record ⟨dom, ttl, cls.getD "IN", d⟩) :
                  Except ZoneSyntaxError ZoneEntry) = .ok e := h4
              injection h5 with h6
              subst h6
              refine ⟨hdom, ?_, ?_, rdataParse_wf hmem hrd hrtoks⟩
              · cases cls with
                | none =>
                    show atomToken "IN" = true
                    decide
                | some s => exact hcls.1
              · cases cls with
                | none =>
                    show "IN" ∉ supportedRecordTypes
                    decide
                | some s => exact hcls.2

theorem parseLine_wf {ln : Line} {e : ZoneEntry} (h : parseLine ln = .ok e)
    (hwf : LineWF ln) : WFEntry e := by
  obtain ⟨leading, toks⟩ := ln
  cases toks with
  | nil =>
      have h' : parseRecordLine leading [] = .ok e := h
      exact parseRecordLine_wf h' (fun t ht => absurd ht (List.not_mem_nil t))
  | cons t ts =>
      cases t with
      | quoted q =>
          have h' : parseRecordLine leading (.quoted q :: ts) = .ok e := h
          exact parseRecordLine_wf h' hwf
      | atom s =>
          have h' : (if s.data.head? = some '$' then parseDirectiveLine s ts
            else parseRecordLine leading (.atom s :: ts)) = .ok e := h
          by_cases hds : s.data.head? = some '$'
          · rw [if_pos hds] at h'
            exact parseDirectiveLine_wf h' (fun t ht => hwf t (by simp [ht]))
          · rw [if_neg hds] at h'
            exact parseRecordLine_wf h' hwf

theorem mapM_parseLine_wf : ∀ (lns : List Line) (es : List ZoneEntry),
    lns.mapM parseLine = .ok es → (∀ ln ∈ lns, LineWF ln) → ∀ e ∈ es, WFEntry e := by
  intro lns
  induction lns with
  | nil =>
      intro es h _ e he
      have h' : (Except.ok [] : Except ZoneSyntaxError (List ZoneEntry)) = .ok es := h
      injection h' with h2
      subst h2
      exact absurd he (List.not_mem_nil e)
  | cons ln lns ih =>
      intro es h hwf e he
      rw [List.mapM_cons] at h
      cases hpl : parseLine ln with
      | error e0 =>
          rw [hpl, error_bind] at h
          exact Except.noConfusion h
      | ok e1 =>
          rw [hpl, ok_bind] at h
          cases hm : lns.mapM parseLine with
          | error e0 =>
              rw [hm, error_bind] at h
              exact Except.noConfusion h
          | ok es1 =>
              rw [hm, ok_bind] at h
              have h' : (Except.ok (e1 :: es1) :
                  Except ZoneSyntaxError (List ZoneEntry)) = .ok es := h
              injection h' with h2
              subst h2
              rcases List.mem_cons.mp he with rfl | he'
              · exact parseLine_wf hpl (hwf ln (by simp))
              · exact ih es1 hm (fun x hx => hwf x (by simp [hx])) e he'

theorem rawParse_wf {text : String} {es : List ZoneEntry} (h : rawParse text = .ok es) :
    ∀ e ∈ es, WFEntry e := by
  rw [rawParse] at h
  cases hlz : lexZone text with
  | error e0 =>
      rw [hlz, error_bind] at h
      exact Except.noConfusion h
  | ok lns =>
      rw [hlz, ok_bind] at h
      exact mapM_parseLine_wf lns es h (lexZone_wf hlz)



theorem atomToken_append_dot {d o : String} (hd : atomToken d = true)
    (ho : atomToken o = true) : atomToken (d ++ "." ++ o) = true := by
  obtain ⟨hdne, hdall⟩ := atomToken_spec hd
  obtain ⟨_, hoall⟩ := atomToken_spec ho
  have hdata : (d ++ "." ++ o).data = d.data ++ ['.'] ++ o.data := by
    simp [String.data_append, (show ("." : String).data = ['.'] from rfl)]
  have : atomToken (⟨d.data ++ ['.'] ++ o.data⟩ : String) = true := by
    apply atomToken_of_chars
    · intro hnil
      cases hdd : d.data with
      | nil => exact hdne hdd
      | cons c cs => rw [hdd] at hnil; simp at hnil
    · intro c hc
      rcases List.mem_append.mp hc with hc1 | hc2
      · rcases List.mem_append.mp hc1 with hc3 | hc4
        · exact hdall c hc3
        · have : c = '.' := by simpa using hc4
          subst this
          decide
      · exact hoall c hc2
  rw [show (d ++ "." ++ o : String) = ⟨(d ++ "." ++ o).data⟩ from (mk_data _).symm, hdata]
  exact this

theorem expandDomain_wf {origin : Option String} {d : String}
    (ho : ∀ o, origin = some o → atomToken o = true)
    (hd : d = "" ∨ atomToken d = true) :
    expandDomain origin d = "" ∨ atomToken (expandDomain origin d) = true := by
  cases origin with
  | none => exact hd
  | some o =>
      have hao : atomToken o = true := ho o rfl
      have he : expandDomain (some o) d =
          if d = "@" then o
          else if endsWithDot d = false ∧ d ≠ "" then d ++ "." ++ o
          else d := rfl
      rw [he]
      by_cases h1 : d = "@"
      · rw [if_pos h1]
        exact Or.inr hao
      · rw [if_neg h1]
        by_cases h2 : endsWithDot d = false ∧ d ≠ ""
        · rw [if_pos h2]
          have hda : atomToken d = true := by
            rcases hd with h | h
            · exact absurd h h2.2
            · exact h
          exact Or.inr (atomToken_append_dot hda hao)
        · rw [if_neg h2]
          exact hd

theorem stepEntry_originOk {st : ResState} {e : ZoneEntry}
    (ho : ∀ o, st.currentOrigin = some o → atomToken o = true) (hwf : WFEntry e) :
    ∀ o, (stepEntry st e).currentOrigin = some o → atomToken o = true := by
  cases e with
  | record r => exact ho
  | directive n v =>
      have hwf' : (n = "$ORIGIN" ∧ ∃ s, v = .str s ∧ atomToken s = true) ∨
          (n = "$TTL" ∧ ∃ t, v = .num t) := hwf
      rcases hwf' with ⟨hn, s, hv, hs⟩ | ⟨hn, t, hv⟩
      · subst hn
        subst hv
        intro o hoo
        have hoo2 : some s = some o := hoo
        injection hoo2 with h3
        subst h3
        exact hs
      · subst hn
        subst hv
        intro o hoo
        exact ho o hoo

theorem resolveRecord_wf {opts : ParseOptions} {st : ResState} {r : ZRecord}
    (ho : ∀ o, st.currentOrigin = some o → atomToken o = true)
    (hwf : WFRecord r) : WFRecord (resolveRecord opts st r) := by
  obtain ⟨hdom, hcls, hclsns, hdata⟩ := hwf
  refine ⟨?_, hcls, hclsns, hdata⟩
  have hdm : (resolveRecord opts st r).domain =
      if opts.expandDomains then expandDomain st.currentOrigin r.domain
      else r.domain := rfl
  rw [hdm]
  by_cases hex : opts.expandDomains = true
  · rw [if_pos hex]
    exact expandDomain_wf ho hdom
  · rw [if_neg hex]
    exact hdom

theorem applyEntry_wf {opts : ParseOptions} {st : ResState} {e : ZoneEntry}
    (ho : ∀ o, st.currentOrigin = some o → atomToken o = true)
    (hwf : WFEntry e) : WFEntry (applyEntry opts st e) := by
  cases e with
  | record r => exact resolveRecord_wf ho hwf
  | directive n v => exact hwf

theorem resolveGo_cons (opts : ParseOptions) (st : ResState) (e : ZoneEntry)
    (es : List ZoneEntry) :
    resolveGo opts st (e :: es) =
      applyEntry opts st e :: resolveGo opts (stepEntry st e) es := by
  cases e <;> rfl

theorem resolveGo_wf {opts : ParseOptions} : ∀ (es : List ZoneEntry) (st : ResState),
    (∀ o, st.currentOrigin = some o → atomToken o = true) →
    (∀ e ∈ es, WFEntry e) → ∀ e' ∈ resolveGo opts st es, WFEntry e' := by
  intro es
  induction es with
  | nil =>
      intro st _ _ e' he'
      exact absurd he' (List.not_mem_nil e')
  | cons e es ih =>
      intro st ho hwf e' he'
      rw [resolveGo_cons] at he'
      rcases List.mem_cons.mp he' with rfl | he''
      · exact applyEntry_wf ho (hwf e (by simp))
      · exact ih (stepEntry st e) (stepEntry_originOk ho (hwf e (by simp)))
          (fun x hx => hwf x (by simp [hx])) e' he''

theorem resolveZone_wf {opts : ParseOptions} {es : List ZoneEntry}
    (h : ∀ e ∈ es, WFEntry e) : ∀ e' ∈ resolveZone opts es, WFEntry e' := by
  apply resolveGo_wf es {} ?_ h
  intro o hoo
  have hoo2 : (none : Option String) = some o := hoo
  exact Option.noConfusion hoo2



/-- C1 (amended). For every entry sequence `E` obtained from a successful parse
(under any options) in which every entry is `entrySafe` — its TXT text survives
the serializer's conditional quoting, its CAA tag lexes back as one bare atom,
and the first serialized column (the domain when present, else the class) does
not begin with `$` — reparsing the serialization of `E` with default options
succeeds and yields a sequence of the same length with the same position-wise
constructor, `recordType` and field-for-field equal `data`. -/
theorem claim_C1 (text : String) (opts : ParseOptions) (E : List ZoneEntry)
    (hp : parseZone text opts = .ok E)
    (hsafe : ∀ e ∈ E, entrySafe e = true) :
    ∃ E', parseZone (serializeZone E) = .ok E' ∧
      E'.length = E.length ∧ E'.map entrySig = E.map entrySig := by
  rw [parseZone] at hp
  cases hrp : rawParse text with
  | error e0 =>
      rw [hrp] at hp
      have hp2 : (Except.error e0 : Except ZoneSyntaxError (List ZoneEntry)) = .ok E := hp
      exact Except.noConfusion hp2
  | ok E0 =>
      rw [hrp] at hp
      have hp2 : (Except.ok (resolveZone opts E0) :
          Except ZoneSyntaxError (List ZoneEntry)) = .ok E := hp
      injection hp2 with hp3
      subst hp3
      have hwfE : ∀ e ∈ resolveZone opts E0, WFEntry e :=
        resolveZone_wf (rawParse_wf hrp)
      obtain ⟨E', hser, hsig⟩ := rawParse_serializeZone (resolveZone opts E0)
        (fun e he => ⟨hwfE e he, hsafe e he⟩)
      refine ⟨E', ?_, ?_, hsig⟩
      · rw [parseZone, hser]
        show (Except.ok (resolveZone {} E') :
          Except ZoneSyntaxError (List ZoneEntry)) = .ok E'
        exact congrArg Except.ok (resolveGo_default E' {})
      · have hlen := congrArg List.length hsig
        simpa using hlen

/-- C1 counterexample to the unamended claim: the entry sequence obtained by
successfully parsing `a. TXT ""` (a TXT record whose text is the empty string)
serializes to a line whose rdata column is empty, and reparsing that
serialization fails — no reparse of the serialization yields any entry
sequence at all, let alone one with equal `data`. -/
theorem claim_C1_counterexample :
    parseZone "a. TXT \"\"" {} =
      .ok [.record ⟨"a.", none, "IN", .TXT ""⟩] ∧
    isErr (parseZone (serializeZone [.record ⟨"a.", none, "IN", .TXT ""⟩]) {}) = true := by
  constructor
  · decide
  · decide

theorem claim_C1_witness :
    (parseZone "a. 300 NS b." {} =
      .ok [.record ⟨"a.", some 300, "IN", .NS "b."⟩] ∧
     (∀ e ∈ [ZoneEntry.record ⟨"a.", some 300, "IN", RData.NS "b."⟩],
       entrySafe e = true)) ∧
    ∃ E', parseZone (serializeZone [ZoneEntry.record ⟨"a.", some 300, "IN", .NS "b."⟩]) =
        .ok E' ∧
      E'.length = [ZoneEntry.record ⟨"a.", some 300, "IN", RData.NS "b."⟩].length ∧
      E'.map entrySig =
        [ZoneEntry.record ⟨"a.", some 300, "IN", RData.NS "b."⟩].map entrySig :=
  ⟨⟨by decide, by decide⟩,
   claim_C1 "a. 300 NS b." {} [.record ⟨"a.", some 300, "IN", .NS "b."⟩]
     (by decide) (by decide)⟩


end Zonefile
